import Mathlib

/-!
Shallow embedding of the thought-cli section store and backup engine
(src/logger.js, src/backup.js, src/tag.js, src/config.js) for verification.

File contents are modelled by an inductive `Content`: plain text, a
gzip-compressed payload (zlib is external; `gzipSync`/`gunzipSync` are
modelled as a lossless wrap/unwrap pair), or a serialized JSON value
(`JSON.stringify`/`JSON.parse` are external; a serialized value is kept
structurally, and parsing a plain-text file goes through a real parser for
the object/string JSON subset the program produces).  The filesystem is a
list of path/file pairs plus a directory list; effectful code runs in an
explicit state-and-exception monad `Act` with an operation counter and a
fault set, so that thrown I/O errors and the temporal order of writes are
observable.
-/

set_option autoImplicit false

/-- JS whitespace characters relevant to `String.prototype.trim` for the
data this program handles. -/
def jsWhitespace (c : Char) : Bool :=
  c = ' ' || c = '\t' || c = '\n' || c = '\r' || c = '\x0b' || c = '\x0c'

/-- JS regexp line terminators: `.` in a regular expression matches any
character except these. -/
def jsLineTerm (c : Char) : Bool :=
  c = '\n' || c = '\r' || c = Char.ofNat 0x2028 || c = Char.ofNat 0x2029

/-- `a.startsWith(b)` on strings, via the underlying character lists. -/
def strStartsWith (s pre : String) : Bool :=
  pre.data.isPrefixOf s.data

/-- `a.endsWith(b)` on strings, via the underlying character lists. -/
def strEndsWith (s suf : String) : Bool :=
  suf.data.isSuffixOf s.data

/-- `String.prototype.trim`: drop leading and trailing whitespace. -/
def jsTrim (s : String) : String :=
  ⟨((s.data.dropWhile jsWhitespace).reverse.dropWhile jsWhitespace).reverse⟩

/-- `s.split('\n')` on the underlying character list. -/
def splitNl : List Char → List (List Char)
  | [] => [[]]
  | c :: rest =>
    let r := splitNl rest
    if c = '\n' then [] :: r
    else
      match r with
      | [] => [[c]]
      | l :: ls => (c :: l) :: ls

/-- `s.split('\n')` on strings. -/
def strSplitNl (s : String) : List String :=
  (splitNl s.data).map (fun l => ⟨l⟩)

/-- `s.replace(pat, '')` for a plain (non-regexp) pattern: remove the first
occurrence of `pat`, as used by `getSections` to strip the `.txt` suffix. -/
def removeFirst : List Char → List Char → List Char
  | [], _ => []
  | c :: rest, pat =>
    if pat.isPrefixOf (c :: rest) then (c :: rest).drop pat.length
    else c :: removeFirst rest pat

/-- `file.replace('.txt', '')` on strings. -/
def strRemoveFirst (s pat : String) : String :=
  ⟨removeFirst s.data pat.data⟩

/-- `path.basename`: the part of the path after the last `/`. -/
def basename (p : String) : String :=
  ⟨(p.data.reverse.takeWhile (fun c => c ≠ '/')).reverse⟩

/-- `path.join(a, b)` for the simple two-component joins the program uses. -/
def pathJoin (a b : String) : String :=
  a ++ "/" ++ b

/-! ## JSON values

The JSON subset the program serializes and parses: strings and objects.
A serialized value is represented structurally (see `Content.json`). -/

inductive JVal where
  | str (s : String)
  | obj (fields : List (String × JVal))

/-- Key lookup in a JSON object representation (first match, as in JS). -/
def jLookup (k : String) : List (String × JVal) → Option JVal
  | [] => none
  | (k', v) :: rest => if k' == k then some v else jLookup k rest

/-- Property access `v[k]`: objects yield the field (or undefined = `none`);
string primitives have no such named property. -/
def jGet (v : JVal) (k : String) : Option JVal :=
  match v with
  | .obj fields => jLookup k fields
  | .str _ => none

/-- `obj[k] = v` on the field list of a JS object: update the first
occurrence in place, else append. -/
def assocSet : List (String × JVal) → String → JVal → List (String × JVal)
  | [], k, x => [(k, x)]
  | (k', v') :: rest, k, x =>
    if k' == k then (k, x) :: rest else (k', v') :: assocSet rest k x

/-- `obj[k] = v` on a JS object.  Property assignment on a string primitive
is a silent no-op in sloppy mode. -/
def jSetKey (v : JVal) (k : String) (x : JVal) : JVal :=
  match v with
  | .obj fields => .obj (assocSet fields k x)
  | .str s => .str s

/-- JS truthiness of a JSON value: every object (even `{}`) is truthy, a
string is truthy iff nonempty. -/
def jTruthy (v : JVal) : Bool :=
  match v with
  | .obj _ => true
  | .str s => !(s == "")

/-! ### Parsing plain text as JSON

`JSON.parse` applied to a plain-text file (e.g. a log file whose name made
the restore path classify it as a full backup).  A recursive-descent parser
for the object/string subset, fuelled by the input length. -/

/-- Parse the remainder of a JSON string literal (after the opening quote),
without escape sequences (a backslash fails the parse). -/
def pStr : List Char → Option (String × List Char)
  | [] => none
  | c :: rest =>
    if c = '"' then some ("", rest)
    else if c = '\\' then none
    else match pStr rest with
      | some (s, r) => some (⟨c :: s.data⟩, r)
      | none => none

mutual

/-- Parse one JSON value (string or object). -/
def pVal : Nat → List Char → Option (JVal × List Char)
  | 0, _ => none
  | fuel + 1, input =>
    match input.dropWhile jsWhitespace with
    | '"' :: rest =>
      match pStr rest with
      | some (s, r) => some (.str s, r)
      | none => none
    | '{' :: rest => pFields fuel rest
    | _ => none

/-- Parse the fields of a JSON object (after the opening brace). -/
def pFields : Nat → List Char → Option (JVal × List Char)
  | 0, _ => none
  | fuel + 1, input =>
    match input.dropWhile jsWhitespace with
    | '}' :: rest => some (.obj [], rest)
    | '"' :: rest =>
      match pStr rest with
      | some (key, r1) =>
        match r1.dropWhile jsWhitespace with
        | ':' :: r2 =>
          match pVal fuel r2 with
          | some (v, r3) =>
            match r3.dropWhile jsWhitespace with
            | ',' :: r4 =>
              match pFields fuel r4 with
              | some (.obj more, r5) => some (.obj ((key, v) :: more), r5)
              | _ => none
            | '}' :: r4 => some (.obj [(key, v)], r4)
            | _ => none
          | none => none
        | _ => none
      | none => none
    | _ => none

end

/-- `JSON.parse` on a plain string, for the object/string subset; `none`
models a thrown `SyntaxError`. -/
def textToJson (s : String) : Option JVal :=
  match pVal (s.length + 1) s.data with
  | some (v, rest) => if rest.dropWhile jsWhitespace = [] then some v else none
  | none => none

/-! ## Tag helpers (src/tag.js) -/

/-- After a `[`, the lazy `.*?\]` continuation: the characters up to the
first `]`, failing if a line terminator (which `.` cannot match) or the end
of input intervenes. -/
def matchAfterBracket : List Char → Option (List Char)
  | [] => none
  | c :: rest =>
    if c = ']' then some []
    else if jsLineTerm c then none
    else match matchAfterBracket rest with
      | some g => some (c :: g)
      | none => none

/-- Leftmost-first match of `/\[(.*?)\]/`: the capture group of the first
successful match position. -/
def firstTagGroup : List Char → Option (List Char)
  | [] => none
  | c :: rest =>
    if c = '[' then
      match matchAfterBracket rest with
      | some g => some g
      | none => firstTagGroup rest
    else firstTagGroup rest

/-- `hasTag(log)`: the log contains `[` and the tag regexp matches. -/
def hasTag (log : String) : Bool :=
  log.data.contains '[' && (firstTagGroup log.data).isSome

/-- `extractTag(log)`: the first capture group, or null. -/
def extractTag (log : String) : Option String :=
  if hasTag log then (firstTagGroup log.data).map (fun g => (⟨g⟩ : String))
  else none

/-- `createTaggedMessage(tag, message) = '[tag] message'`. -/
def createTaggedMessage (tag message : String) : String :=
  "[" ++ tag ++ "] " ++ message

/-! ## File contents and the filesystem state -/

/-- Bytes of a file.  `gz c` is the gzip compression of the bytes of `c`
(zlib is lossless, so the payload is kept structurally); `json v` is the
`JSON.stringify(v, null, 2)` serialization of `v` (kept structurally;
stringify is injective on this subset). -/
inductive Content where
  | text (s : String)
  | gz (c : Content)
  | json (v : JVal)

/-- `readFileSync(path, 'utf-8')` decodes bytes to a string.  Decoding the
non-text contents is lossy/irrelevant for the verified claims (only plain
text files are ever captured as strings under the stated hypotheses). -/
def Content.utf8 : Content → String
  | .text s => s
  | .gz _ => "\u001f\u008b"
  | .json _ => "\x7b"

/-- `stats.size` in bytes; only its comparison against the rotation
threshold is ever observed, and no claim depends on it. -/
def Content.byteSize : Content → Nat
  | .text s => s.utf8ByteSize
  | .gz c => c.byteSize
  | .json _ => 2

/-- One file: its bytes and its modification time. -/
structure FsFile where
  content : Content
  mtime : Int

/-- Observable events, used to state temporal/reporting claims: a completed
`writeFileSync`, the yellow "skipping section" log, and the green
"restored N of M sections" log. -/
inductive FsEvent where
  | write (p : String) (c : Content)
  | skip (sec : String)
  | report (n total : Nat)

/-- The world: files (path ↦ file, in creation order — `readdirSync`
enumerates in this order), known directories, the event log (most recent
first), an operation counter and the set of operation indices at which the
underlying I/O call throws, and the current clock value in milliseconds. -/
structure W where
  files : List (String × FsFile)
  dirs : List String
  events : List FsEvent
  tick : Nat
  faults : List Nat
  now : Int

/-- State-and-exception monad: JS exceptions carry no modelled payload, and
state mutations before a throw persist. -/
def Act (α : Type) : Type := W → Except Unit α × W

instance : Monad Act where
  pure a := fun w => (Except.ok a, w)
  bind x f := fun w =>
    match x w with
    | (Except.ok a, w') => f a w'
    | (Except.error e, w') => (Except.error e, w')

/-- A thrown exception. -/
def throwErr {α : Type} : Act α := fun w => (Except.error (), w)

/-- `try { body } catch { ... return d }`: the catch handler only logs, so
the result is `d` and the state at the throw point is kept. -/
def attempt {α : Type} (body : Act α) (d : α) : Act α := fun w =>
  match body w with
  | (Except.ok a, w') => (Except.ok a, w')
  | (Except.error _, w') => (Except.ok d, w')

/-- A fallible filesystem call: consumes one operation index; if that index
is in the fault set the call throws without acting, otherwise `act` runs
(and may itself throw a data-dependent error such as ENOENT). -/
def fallible {α : Type} (act : W → Except Unit (α × W)) : Act α := fun w =>
  let w' := { w with tick := w.tick + 1 }
  if w.faults.contains w.tick then (Except.error (), w')
  else
    match act w' with
    | Except.ok (a, w2) => (Except.ok a, w2)
    | Except.error e => (Except.error e, w')

/-- Lookup a path among the files. -/
def fsGet (files : List (String × FsFile)) (p : String) : Option FsFile :=
  match files.find? (fun e => e.1 == p) with
  | some e => some e.2
  | none => none

/-- Create or overwrite a path: update the (first) occurrence in place,
else append — so enumeration order is creation order.  (On states whose
paths are distinct this agrees with replacing every occurrence.) -/
def fsSet (files : List (String × FsFile)) (p : String) (f : FsFile) :
    List (String × FsFile) :=
  match files with
  | [] => [(p, f)]
  | e :: rest => if e.1 == p then (p, f) :: rest else e :: fsSet rest p f

/-- Delete a path. -/
def fsDel (files : List (String × FsFile)) (p : String) :
    List (String × FsFile) :=
  files.filter (fun e => !(e.1 == p))

/-- The direct-child name of `p` under directory `d`, if any. -/
def childNameOf (d p : String) : Option String :=
  let pre := d ++ "/"
  if strStartsWith p pre then
    let n : String := ⟨p.data.drop pre.data.length⟩
    if n.data.contains '/' then none else some n
  else none

/-- `fs.existsSync`: never throws; true for files and directories. -/
def existsSync (p : String) : Act Bool := fun w =>
  (Except.ok ((fsGet w.files p).isSome || w.dirs.contains p), w)

/-- `fs.readFileSync`: the file's bytes, or a thrown ENOENT. -/
def readFileSync (p : String) : Act Content :=
  fallible (fun w =>
    match fsGet w.files p with
    | some f => Except.ok (f.content, w)
    | none => Except.error ())

/-- `fs.writeFileSync`: create or replace the file, stamping the current
time, and record the completed write in the event log. -/
def writeFileSync (p : String) (c : Content) : Act Unit :=
  fallible (fun w =>
    Except.ok ((), { w with
      files := fsSet w.files p ⟨c, w.now⟩,
      events := FsEvent.write p c :: w.events }))

/-- `fs.appendFileSync`: create the file or extend its text.  (Appending to
a non-text file would interleave undecodable bytes; no reachable state does
this, and the model throws there.) -/
def appendFileSync (p : String) (s : String) : Act Unit :=
  fallible (fun w =>
    match fsGet w.files p with
    | none => Except.ok ((), { w with files := fsSet w.files p ⟨.text s, w.now⟩ })
    | some f =>
      match f.content with
      | .text old =>
        Except.ok ((), { w with files := fsSet w.files p ⟨.text (old ++ s), w.now⟩ })
      | _ => Except.error ())

/-- `fs.unlinkSync`: remove the file, or throw ENOENT. -/
def unlinkSync (p : String) : Act Unit :=
  fallible (fun w =>
    if (fsGet w.files p).isSome then
      Except.ok ((), { w with files := fsDel w.files p })
    else Except.error ())

/-- `fs.readdirSync`: names of the direct children, in creation order, or a
thrown ENOENT when the directory does not exist. -/
def readdirSync (d : String) : Act (List String) :=
  fallible (fun w =>
    if w.dirs.contains d then
      Except.ok (w.files.filterMap (fun e => childNameOf d e.1), w)
    else Except.error ())

/-- `fs.statSync`: modification time and size, or a thrown ENOENT. -/
def statSync (p : String) : Act (Int × Nat) :=
  fallible (fun w =>
    match fsGet w.files p with
    | some f => Except.ok ((f.mtime, f.content.byteSize), w)
    | none => Except.error ())

/-- `fs.mkdirSync`. -/
def mkdirSync (d : String) : Act Unit :=
  fallible (fun w => Except.ok ((), { w with dirs := w.dirs ++ [d] }))

/-- `new Date()` as milliseconds. -/
def getNow : Act Int := fun w => (Except.ok w.now, w)

/-- A console log modelled as an observable event (cannot fail). -/
def emitEvent (e : FsEvent) : Act Unit := fun w =>
  (Except.ok (), { w with events := e :: w.events })

/-- `zlib.gzipSync` on file bytes: a lossless wrap. -/
def gzipSync (c : Content) : Content := Content.gz c

/-- `zlib.gunzipSync`: unwrap a gzip payload, throwing on non-gzip bytes. -/
def gunzipSync (c : Content) : Act Content :=
  match c with
  | .gz c' => pure c'
  | _ => throwErr

/-- `JSON.parse` of file bytes: a structurally serialized value parses to
itself; plain text goes through the real parser; gzip bytes throw. -/
def jsonParse (c : Content) : Act JVal :=
  match c with
  | .json v => pure v
  | .text s =>
    match textToJson s with
    | some v => pure v
    | none => throwErr
  | .gz _ => throwErr

/-! ## Configuration (src/config.js and backupConfig in src/backup.js) -/

def sectionsDir : String := "sections"
def backupDir : String := "backups"
def metadataFile : String := "sections/metadata.json"
def logRotationSize : Nat := 5 * 1024 * 1024
def backupExtension : String := ".bak"
def fullBackupMark : String := "full-backup-"

/-- The recognized backup options (`backupConfig`); the source fixes the
defaults 5 / 30 / true, kept as parameters so claims quantifying over
`useCompression` can be stated. -/
structure BackupConfig where
  maxBackupsPerSection : Nat
  retentionDays : Int
  useCompression : Bool

/-- Milliseconds per day, for `cutoffDate.setDate(getDate() - retentionDays)`. -/
def dayMs : Int := 86400000

/-! ## Section store (src/logger.js) -/

/-- `getLogFilePath(section)`. -/
def getLogFilePath (sec : String) : String :=
  pathJoin sectionsDir (sec ++ ".txt")

/-- The sanitizer character class `[^a-zA-Z0-9-_]`. -/
def idChar (c : Char) : Bool :=
  ('a' ≤ c && c ≤ 'z') || ('A' ≤ c && c ≤ 'Z') || ('0' ≤ c && c ≤ '9') ||
    c = '-' || c = '_'

/-- `name.replace(/[^a-zA-Z0-9-_]/g, '_')`. -/
def sanitizeName (name : String) : String :=
  ⟨name.data.map (fun c => if idChar c then c else '_')⟩

/-- `getSectionMetadata()`: parse the sidecar, degrading to `{}` when the
file is absent or unreadable/unparsable. -/
def getSectionMetadata : Act JVal :=
  attempt (do
    let ex ← existsSync metadataFile
    if ex then do
      let c ← readFileSync metadataFile
      jsonParse c
    else pure (JVal.obj [])) (JVal.obj [])

/-- `saveSectionMetadata(metadata)`: rewrite the sidecar wholesale,
swallowing write errors. -/
def saveSectionMetadata (md : JVal) : Act Unit :=
  attempt (writeFileSync metadataFile (Content.json md)) ()

/-- `getSections()` (identical in src/logger.js and src/backup.js): the
`.txt` files of the sections directory with the suffix stripped. -/
def getSections : Act (List String) :=
  attempt (do
    let files ← readdirSync sectionsDir
    pure ((files.filter (fun f => strEndsWith f ".txt" && !(f == "metadata.json"))).map
      (fun f => strRemoveFirst f ".txt"))) []

/-- `createSection(name, description)` — no try/catch of its own. -/
def createSection (name description : String) : Act String := do
  let sanitized := sanitizeName name
  let p := getLogFilePath sanitized
  let ex ← existsSync p
  if !ex then writeFileSync p (Content.text "")
  let md ← getSectionMetadata
  saveSectionMetadata (jSetKey md sanitized (JVal.obj [("description", JVal.str description)]))
  pure sanitized

/-- `loadAllLogs(section)`: whole-file read, trim, split on newline, drop
blank lines; `[]` when absent or on error. -/
def loadAllLogs (sec : String) : Act (List String) :=
  attempt (do
    let p := getLogFilePath sec
    let ex ← existsSync p
    if ex then do
      let c ← readFileSync p
      pure ((strSplitNl (jsTrim c.utf8)).filter (fun l => !(jsTrim l == "")))
    else pure []) []

/-- `saveLog(section, logEntry)`: append the entry plus newline; report
whether the file now exceeds the rotation threshold; false on error. -/
def saveLog (sec entry : String) : Act Bool :=
  attempt (do
    let p := getLogFilePath sec
    appendFileSync p (entry ++ "\n")
    let st ← statSync p
    pure (decide (st.2 > logRotationSize))) false

/-! ## Backup engine (src/backup.js) -/

/-- One entry of `listAllBackups()`. -/
structure BackupRecord where
  path : String
  name : String
  date : Int
  size : Nat
  isFull : Bool
  sec : Option String

/-- The capture of the regexp `^([^-]+)-` : the (nonempty) text before the
first hyphen, provided a hyphen follows it. -/
def dashHead (name : String) : Option String :=
  let pre := name.data.takeWhile (fun c => c ≠ '-')
  if pre.isEmpty then none
  else if pre.length == name.data.length then none
  else some ⟨pre⟩

/-- Classify one backup directory entry. -/
def mkRecord (name : String) (mt : Int) (sz : Nat) : BackupRecord :=
  if strStartsWith name fullBackupMark then
    ⟨pathJoin backupDir name, name, mt, sz, true, none⟩
  else
    ⟨pathJoin backupDir name, name, mt, sz, false, dashHead name⟩

/-- The `files.map` body of `listAllBackups`: stat each entry in order. -/
def buildRecords : List String → Act (List BackupRecord)
  | [] => pure []
  | n :: rest => do
    let st ← statSync (pathJoin backupDir n)
    let rs ← buildRecords rest
    pure (mkRecord n st.1 st.2 :: rs)

/-- `listAllBackups()`: scan the backup directory; `[]` when it does not
exist or on error. -/
def listAllBackups : Act (List BackupRecord) :=
  attempt (do
    let ex ← existsSync backupDir
    if !ex then pure []
    else do
      let files ← readdirSync backupDir
      buildRecords files) []

/-- `listBackups()` with no arguments: full backups then section backups. -/
def listBackups : Act (List BackupRecord) := do
  let all ← listAllBackups
  pure (all.filter (fun b => b.isFull) ++ all.filter (fun b => !b.isFull))

/-- The deletion loops of the cleanup routines (`fs.unlinkSync` each). -/
def unlinkRecords : List BackupRecord → Act Unit
  | [] => pure ()
  | b :: rest => do
    unlinkSync b.path
    unlinkRecords rest

/-- `cleanupOldBackups(section)`: count rule then age rule over this
section's backups, with one try/catch around both. -/
def cleanupOldBackups (cfg : BackupConfig) (sec : String) : Act Unit :=
  attempt (do
    let allBackups ← listAllBackups
    let backups := allBackups.filter (fun b => !b.isFull && b.sec == some sec)
    (if backups.length > cfg.maxBackupsPerSection then
      unlinkRecords (backups.drop cfg.maxBackupsPerSection)
    else pure ())
    (if cfg.retentionDays > 0 then do
      let now ← getNow
      unlinkRecords (backups.filter
        (fun b => decide (b.date < now - cfg.retentionDays * dayMs)))
    else pure ())) ()

/-- `cleanupOldFullBackups()`: the same two rules over the full backups. -/
def cleanupOldFullBackups (cfg : BackupConfig) : Act Unit :=
  attempt (do
    let bs ← listBackups
    let backups := bs.filter (fun b => b.isFull)
    (if backups.length > cfg.maxBackupsPerSection then
      unlinkRecords (backups.drop cfg.maxBackupsPerSection)
    else pure ())
    (if cfg.retentionDays > 0 then do
      let now ← getNow
      unlinkRecords (backups.filter
        (fun b => decide (b.date < now - cfg.retentionDays * dayMs)))
    else pure ())) ()

/-- `backupSection(section, rotate)`; `ts` is the ISO timestamp with `:`
and `.` replaced by `-`. -/
def backupSection (cfg : BackupConfig) (sec ts : String) (rotate : Bool) :
    Act (Option String) :=
  attempt (do
    let logFilePath := pathJoin sectionsDir (sec ++ ".txt")
    let ex ← existsSync logFilePath
    if !ex then pure none
    else do
      let backupFileName := sec ++ "-" ++ ts ++ backupExtension
      let backupPath := pathJoin backupDir backupFileName
      let content ← readFileSync logFilePath
      if cfg.useCompression then do
        let compressedPath := backupPath ++ ".gz"
        writeFileSync compressedPath (gzipSync content)
        if rotate then writeFileSync logFilePath (Content.text "")
        cleanupOldBackups cfg sec
        pure (some compressedPath)
      else do
        writeFileSync backupPath content
        if rotate then writeFileSync logFilePath (Content.text "")
        cleanupOldBackups cfg sec
        pure (some backupPath)) none

/-- The section-capture loop of `createFullBackup`. -/
def captureSections : List String → List (String × JVal) → Act (List (String × JVal))
  | [], acc => pure acc
  | s :: rest, acc => do
    let p := pathJoin sectionsDir (s ++ ".txt")
    let ex ← existsSync p
    if ex then do
      let c ← readFileSync p
      captureSections rest (assocSet acc s (JVal.str c.utf8))
    else captureSections rest acc

/-- `createFullBackup()`; `iso` is the raw ISO timestamp stored in the
payload, `ts` its filename-safe form. -/
def createFullBackup (cfg : BackupConfig) (iso ts : String) : Act (Option String) :=
  attempt (do
    let ex ← existsSync backupDir
    if !ex then mkdirSync backupDir
    let backupFileName := fullBackupMark ++ ts ++ backupExtension
    let backupPath := pathJoin backupDir backupFileName
    let sections ← getSections
    let exm ← existsSync metadataFile
    let meta ←
      if exm then do
        let mc ← readFileSync metadataFile
        jsonParse mc
      else pure (JVal.obj [])
    let secPairs ← captureSections sections []
    let payload := JVal.obj
      [("timestamp", JVal.str iso), ("metadata", meta), ("sections", JVal.obj secPairs)]
    if cfg.useCompression then do
      let compressedPath := backupPath ++ ".gz"
      writeFileSync compressedPath (gzipSync (Content.json payload))
      cleanupOldFullBackups cfg
      pure (some compressedPath)
    else do
      writeFileSync backupPath (Content.json payload)
      cleanupOldFullBackups cfg
      pure (some backupPath)) none

/-- `Object.entries(backupData.sections)`: throws on undefined, yields
index/character pairs on a string primitive, the fields on an object. -/
def jEntries (v : Option JVal) : Act (List (String × JVal)) :=
  match v with
  | none => throwErr
  | some (.obj fields) => pure fields
  | some (.str s) =>
    pure ((s.data.enum).map (fun ic => (toString ic.1, JVal.str ⟨[ic.2]⟩)))

/-- `fs.writeFileSync(path, content)` for a JS value: strings are written
as text; a plain object throws a TypeError. -/
def writeJContent (p : String) (v : JVal) : Act Unit :=
  match v with
  | .str s => writeFileSync p (Content.text s)
  | .obj _ => throwErr

/-- The per-section loop of `restoreFullBackup`, accumulating
`successCount`. -/
def restoreSectionsLoop (overwrite : Bool) :
    List (String × JVal) → Nat → Act Nat
  | [], n => pure n
  | (sec, v) :: rest, n => do
    let p := pathJoin sectionsDir (sec ++ ".txt")
    let ex ← existsSync p
    if overwrite || !ex then do
      writeJContent p v
      restoreSectionsLoop overwrite rest (n + 1)
    else do
      emitEvent (FsEvent.skip sec)
      restoreSectionsLoop overwrite rest n

/-- `restoreFullBackup(backupData, overwrite)`. -/
def restoreFullBackup (payload : JVal) (overwrite : Bool) : Act Bool :=
  attempt (do
    let exd ← existsSync sectionsDir
    if !exd then mkdirSync sectionsDir
    (match jGet payload "metadata" with
     | some m =>
       if jTruthy m then do
         let exm ← existsSync metadataFile
         if overwrite || !exm then writeFileSync metadataFile (Content.json m)
       else pure ()
     | none => pure ())
    let entries ← jEntries (jGet payload "sections")
    let sectionCount := entries.length
    let successCount ← restoreSectionsLoop overwrite entries 0
    emitEvent (FsEvent.report successCount sectionCount)
    pure true) false

/-- `restoreSectionBackup(section, content, overwrite)`. -/
def restoreSectionBackup (sec : String) (content : Content) (overwrite : Bool) :
    Act Bool :=
  attempt (do
    let p := pathJoin sectionsDir (sec ++ ".txt")
    let ex ← existsSync p
    if overwrite || !ex then do
      writeFileSync p content
      pure true
    else do
      emitEvent (FsEvent.skip sec)
      pure false) false

/-- `restoreFromBackup(backupPath, section, overwrite)`. -/
def restoreFromBackup (backupPath : String) (sec : Option String)
    (overwrite : Bool) : Act Bool :=
  attempt (do
    let ex ← existsSync backupPath
    if !ex then pure false
    else do
      let raw ← readFileSync backupPath
      let backupContent ←
        if strEndsWith backupPath ".gz" then gunzipSync raw else pure raw
      if strStartsWith (basename backupPath) fullBackupMark then do
        let v ← jsonParse backupContent
        restoreFullBackup v overwrite
      else
        match sec with
        | some s => restoreSectionBackup s backupContent overwrite
        | none => pure false) false

/-! ## Basic lemmas about the string helpers -/

theorem matchAfterBracket_append (g : List Char) (rest : List Char)
    (h1 : ']' ∉ g) (h2 : ∀ c ∈ g, jsLineTerm c = false) :
    matchAfterBracket (g ++ ']' :: rest) = some g := by
  induction g with
  | nil => simp [matchAfterBracket]
  | cons c t ih =>
    have hc : c ≠ ']' := by intro he; exact h1 (he ▸ List.mem_cons_self c t)
    have hlt : jsLineTerm c = false := h2 c (List.mem_cons_self c t)
    have ht1 : ']' ∉ t := fun hm => h1 (List.mem_cons_of_mem c hm)
    have ht2 : ∀ x ∈ t, jsLineTerm x = false := fun x hx => h2 x (List.mem_cons_of_mem c hx)
    simp [matchAfterBracket, hc, hlt, ih ht1 ht2]

theorem firstTagGroup_cons_bracket (l : List Char) (g : List Char)
    (h : matchAfterBracket l = some g) :
    firstTagGroup ('[' :: l) = some g := by
  simp [firstTagGroup, h]

theorem data_createTaggedMessage (tag msg : String) :
    (createTaggedMessage tag msg).data = '[' :: (tag.data ++ ']' :: ' ' :: msg.data) := by
  simp [createTaggedMessage, String.data_append]

/-- C10 (counterexample): for a tag containing a newline — permitted by the
claim, which only excludes the character `]` — the extraction does not
return the tag: `.` in the tag regexp cannot match a line terminator, so the
match fails entirely and `extractTag` yields `null`. -/
theorem claim10_counterexample :
    extractTag (createTaggedMessage "a\nb" "m") = none ∧
      extractTag (createTaggedMessage "a\nb" "m") ≠ some "a\nb" := by
  constructor
  · rfl
  · intro h
    exact Option.noConfusion (Eq.trans (Eq.symm rfl) h)

/-- C10 (amended): for every tag containing neither `]` nor a line
terminator, and every message, `extractTag (createTaggedMessage tag message)`
returns exactly the tag: the tagged message `[tag] message` satisfies
`hasTag` and the first non-greedy bracket match recovers the tag. -/
theorem claim10_extract_roundtrip (tag msg : String)
    (h1 : ']' ∉ tag.data) (h2 : ∀ c ∈ tag.data, jsLineTerm c = false) :
    extractTag (createTaggedMessage tag msg) = some tag := by
  have hmatch : matchAfterBracket (tag.data ++ ']' :: ' ' :: msg.data) = some tag.data :=
    matchAfterBracket_append tag.data (' ' :: msg.data) h1 h2
  have hfirst : firstTagGroup (createTaggedMessage tag msg).data = some tag.data := by
    rw [data_createTaggedMessage]
    exact firstTagGroup_cons_bracket _ _ hmatch
  have hhas : hasTag (createTaggedMessage tag msg) = true := by
    unfold hasTag
    rw [data_createTaggedMessage, firstTagGroup_cons_bracket _ _ hmatch]
    simp [List.contains_cons]
  unfold extractTag
  rw [hhas, hfirst]
  simp

/-- Witness for the amended C10 at a concrete tag and message. -/
theorem claim10_extract_roundtrip_witness :
    extractTag (createTaggedMessage "todo" "buy milk") = some "todo" :=
  claim10_extract_roundtrip "todo" "buy milk" (by decide)
    (by intro c hc; fin_cases hc <;> rfl)

/-! ## Run lemmas for the monad and the filesystem primitives -/

@[simp] theorem Act.run_bind {α β : Type} (x : Act α) (f : α → Act β) (w : W) :
    (x >>= f) w =
      match x w with
      | (Except.ok a, w') => f a w'
      | (Except.error e, w') => (Except.error e, w') := rfl

@[simp] theorem Act.run_pure {α : Type} (a : α) (w : W) :
    (pure a : Act α) w = (Except.ok a, w) := rfl

@[simp] theorem Act.run_map {α β : Type} (g : α → β) (x : Act α) (w : W) :
    (g <$> x) w =
      match x w with
      | (Except.ok a, w') => (Except.ok (g a), w')
      | (Except.error e, w') => (Except.error e, w') := rfl

theorem fsGet_cons_ne (e : String × FsFile) (rest : List (String × FsFile))
    (q : String) (h : e.1 ≠ q) : fsGet (e :: rest) q = fsGet rest q := by
  simp [fsGet, List.find?, beq_false_of_ne h]

theorem fsGet_cons_self (e : String × FsFile) (rest : List (String × FsFile))
    (q : String) (h : e.1 = q) : fsGet (e :: rest) q = some e.2 := by
  simp [fsGet, List.find?, h]

theorem fsGet_fsSet_self (fs : List (String × FsFile)) (p : String) (f : FsFile) :
    fsGet (fsSet fs p f) p = some f := by
  induction fs with
  | nil => simp [fsSet, fsGet, List.find?]
  | cons e rest ih =>
    cases hep : (e.1 == p) with
    | true => simp [fsSet, hep, fsGet, List.find?]
    | false =>
      simp only [fsSet, hep, Bool.false_eq_true, if_false]
      rw [fsGet_cons_ne _ _ _ (ne_of_beq_false hep)]
      exact ih

theorem fsGet_fsSet_ne (fs : List (String × FsFile)) (p q : String) (f : FsFile)
    (h : q ≠ p) : fsGet (fsSet fs p f) q = fsGet fs q := by
  have hpq : (p == q) = false := beq_false_of_ne (Ne.symm h)
  induction fs with
  | nil => simp [fsSet, fsGet, List.find?, hpq]
  | cons e rest ih =>
    cases hep : (e.1 == p) with
    | true =>
      have he : e.1 = p := eq_of_beq hep
      have heq : e.1 ≠ q := by rw [he]; exact Ne.symm h
      simp only [fsSet, hep, if_true]
      rw [fsGet_cons_ne _ _ _ (Ne.symm h), fsGet_cons_ne _ _ _ heq]
    | false =>
      simp only [fsSet, hep, Bool.false_eq_true, if_false]
      cases heq : (e.1 == q) with
      | true =>
        rw [fsGet_cons_self _ _ _ (eq_of_beq heq), fsGet_cons_self _ _ _ (eq_of_beq heq)]
      | false =>
        rw [fsGet_cons_ne _ _ _ (ne_of_beq_false heq),
          fsGet_cons_ne _ _ _ (ne_of_beq_false heq)]
        exact ih

theorem fsGet_fsDel_self (fs : List (String × FsFile)) (p : String) :
    fsGet (fsDel fs p) p = none := by
  induction fs with
  | nil => simp [fsDel, fsGet, List.find?]
  | cons e rest ih =>
    cases hep : (e.1 == p) with
    | true =>
      simpa [fsDel, List.filter, hep] using ih
    | false =>
      have : fsDel (e :: rest) p = e :: fsDel rest p := by simp [fsDel, List.filter, hep]
      rw [this, fsGet_cons_ne _ _ _ (ne_of_beq_false hep)]
      exact ih

theorem fsGet_fsDel_ne (fs : List (String × FsFile)) (p q : String)
    (h : q ≠ p) : fsGet (fsDel fs p) q = fsGet fs q := by
  induction fs with
  | nil => simp [fsDel, fsGet, List.find?]
  | cons e rest ih =>
    cases hep : (e.1 == p) with
    | true =>
      have he : e.1 = p := eq_of_beq hep
      have heq : e.1 ≠ q := by rw [he]; exact Ne.symm h
      have hd : fsDel (e :: rest) p = fsDel rest p := by simp [fsDel, List.filter, hep]
      rw [hd, fsGet_cons_ne _ _ _ heq]
      exact ih
    | false =>
      have hd : fsDel (e :: rest) p = e :: fsDel rest p := by
        simp [fsDel, List.filter, hep]
      rw [hd]
      cases heq : (e.1 == q) with
      | true =>
        rw [fsGet_cons_self _ _ _ (eq_of_beq heq), fsGet_cons_self _ _ _ (eq_of_beq heq)]
      | false =>
        rw [fsGet_cons_ne _ _ _ (ne_of_beq_false heq),
          fsGet_cons_ne _ _ _ (ne_of_beq_false heq)]
        exact ih

/-! ## Pure lemmas for append/load (C5) -/

/-- An entry the claim quantifies over: single-line, non-blank, and (per the
amendment) carrying no leading or trailing whitespace. -/
def cleanEntry (e : String) : Prop :=
  '\n' ∉ e.data ∧ jsTrim e = e ∧ e ≠ ""

theorem jsTrim_self_parts (e : String) (h : jsTrim e = e) :
    e.data.dropWhile jsWhitespace = e.data ∧
      e.data.reverse.dropWhile jsWhitespace = e.data.reverse := by
  have hd : ((e.data.dropWhile jsWhitespace).reverse.dropWhile jsWhitespace).reverse
      = e.data := congrArg String.data h
  have l1 : (e.data.dropWhile jsWhitespace).length ≤ e.data.length :=
    (List.dropWhile_sublist _).length_le
  have l2 : ((e.data.dropWhile jsWhitespace).reverse.dropWhile jsWhitespace).length ≤
      (e.data.dropWhile jsWhitespace).length := by
    have := (List.dropWhile_sublist
      (p := jsWhitespace) (l := (e.data.dropWhile jsWhitespace).reverse)).length_le
    simpa using this
  have l3 : e.data.length =
      ((e.data.dropWhile jsWhitespace).reverse.dropWhile jsWhitespace).length := by
    conv_lhs => rw [← hd]
    simp
  have e1 : (e.data.dropWhile jsWhitespace).length = e.data.length := by omega
  have h1 : e.data.dropWhile jsWhitespace = e.data :=
    (List.dropWhile_sublist _).eq_of_length e1
  refine ⟨h1, ?_⟩
  have e2 : (e.data.reverse.dropWhile jsWhitespace).length = e.data.reverse.length := by
    rw [h1] at l3
    simp only [List.length_reverse]
    omega
  exact (List.dropWhile_sublist _).eq_of_length e2

theorem clean_head_not_ws (e : String) (h : jsTrim e = e) (c : Char) (t : List Char)
    (hd : e.data = c :: t) : jsWhitespace c = false := by
  have h1 := (jsTrim_self_parts e h).1
  rw [hd] at h1
  by_contra hb
  have hc : jsWhitespace c = true := by
    cases hcc : jsWhitespace c with
    | true => rfl
    | false => exact absurd hcc hb
  rw [List.dropWhile_cons_of_pos hc] at h1
  have := congrArg List.length h1
  have hle := (List.dropWhile_sublist (p := jsWhitespace) (l := t)).length_le
  simp at this
  omega

theorem clean_last_not_ws (e : String) (h : jsTrim e = e) (c : Char) (t : List Char)
    (hd : e.data.reverse = c :: t) : jsWhitespace c = false := by
  have h1 := (jsTrim_self_parts e h).2
  rw [hd] at h1
  by_contra hb
  have hc : jsWhitespace c = true := by
    cases hcc : jsWhitespace c with
    | true => rfl
    | false => exact absurd hcc hb
  rw [List.dropWhile_cons_of_pos hc] at h1
  have := congrArg List.length h1
  have hle := (List.dropWhile_sublist (p := jsWhitespace) (l := t)).length_le
  simp at this
  omega

/-- The file bytes produced by appending each entry plus a newline. -/
def joinData : List String → List Char
  | [] => []
  | e :: r => e.data ++ '\n' :: joinData r

/-- The same sequence joined by newlines without a trailing one: the result
of trimming the file bytes. -/
def joinN : List String → List Char
  | [] => []
  | [e] => e.data
  | e :: f :: r => e.data ++ '\n' :: joinN (f :: r)

theorem data_ne_nil_of_ne_empty (e : String) (h : e ≠ "") : e.data ≠ [] := by
  intro hd
  apply h
  cases e
  simp at hd
  simp [hd]

theorem joinN_ne_nil (entries : List String) (hne : entries ≠ [])
    (hcl : ∀ e ∈ entries, cleanEntry e) : joinN entries ≠ [] := by
  match entries with
  | [] => exact absurd rfl hne
  | [e] =>
    exact data_ne_nil_of_ne_empty e (hcl e (List.mem_singleton.mpr rfl)).2.2
  | e :: f :: r =>
    simp [joinN]

theorem dropWhile_joinData (e : String) (r : List String) (hcl : cleanEntry e) :
    (joinData (e :: r)).dropWhile jsWhitespace = joinData (e :: r) := by
  obtain ⟨hnl, htrim, hne⟩ := hcl
  have hdne := data_ne_nil_of_ne_empty e hne
  cases hd : e.data with
  | nil => exact absurd hd hdne
  | cons c t =>
    have hw : jsWhitespace c = false := clean_head_not_ws e htrim c t hd
    show ((e.data ++ '\n' :: joinData r).dropWhile jsWhitespace) = _
    rw [hd]
    rw [List.cons_append, List.dropWhile_cons_of_neg (by simp [hw])]
    simp [joinData, hd]

theorem dropWhile_reverse_joinData (entries : List String) (hne : entries ≠ [])
    (hcl : ∀ e ∈ entries, cleanEntry e) :
    (joinData entries).reverse.dropWhile jsWhitespace = (joinN entries).reverse := by
  induction entries with
  | nil => exact absurd rfl hne
  | cons e r ih =>
    obtain ⟨hnl, htrim, hnee⟩ := hcl e (List.mem_cons_self _ _)
    have hdne := data_ne_nil_of_ne_empty e hnee
    cases r with
    | nil =>
      show ((e.data ++ '\n' :: joinData []).reverse.dropWhile jsWhitespace) = _
      have : (e.data ++ '\n' :: joinData []).reverse = '\n' :: e.data.reverse := by
        simp [joinData]
      rw [this, List.dropWhile_cons_of_pos (by simp [jsWhitespace])]
      show List.dropWhile jsWhitespace e.data.reverse = (joinN [e]).reverse
      exact (jsTrim_self_parts e htrim).2
    | cons f r' =>
      have hclr : ∀ x ∈ (f :: r'), cleanEntry x :=
        fun x hx => hcl x (List.mem_cons_of_mem e hx)
      have ihr := ih (by simp) hclr
      have hrev : (joinData (e :: f :: r')).reverse =
          (joinData (f :: r')).reverse ++ '\n' :: e.data.reverse := by
        show (e.data ++ '\n' :: joinData (f :: r')).reverse = _
        simp
      rw [hrev, List.dropWhile_append]
      have hjn : ¬ ((joinData (f :: r')).reverse.dropWhile jsWhitespace).isEmpty = true := by
        rw [ihr]
        simp [joinN_ne_nil (f :: r') (by simp) hclr]
      rw [if_neg hjn, ihr]
      show _ = (joinN (e :: f :: r')).reverse
      simp [joinN]

theorem jsTrim_joinData (entries : List String) (hne : entries ≠ [])
    (hcl : ∀ e ∈ entries, cleanEntry e) :
    jsTrim ⟨joinData entries⟩ = (⟨joinN entries⟩ : String) := by
  cases entries with
  | nil => exact absurd rfl hne
  | cons e r =>
    show (⟨((joinData (e :: r)).dropWhile jsWhitespace).reverse.dropWhile jsWhitespace
      |>.reverse⟩ : String) = _
    rw [dropWhile_joinData e r (hcl e (List.mem_cons_self _ _)),
      dropWhile_reverse_joinData (e :: r) hne hcl]
    simp

theorem splitNl_ne_nil (l : List Char) : splitNl l ≠ [] := by
  induction l with
  | nil => simp [splitNl]
  | cons c rest ih =>
    simp only [splitNl]
    by_cases h : c = '\n'
    · simp [h]
    · simp only [h, if_false]
      cases hr : splitNl rest with
      | nil => simp
      | cons x xs => simp

theorem splitNl_append (a l : List Char) (ha : '\n' ∉ a) (h : List Char)
    (t : List (List Char)) (hs : splitNl l = h :: t) :
    splitNl (a ++ l) = (a ++ h) :: t := by
  induction a with
  | nil => simpa using hs
  | cons c a' ih =>
    have hc : c ≠ '\n' := fun he => ha (he ▸ List.mem_cons_self c a')
    have ha' : '\n' ∉ a' := fun hm => ha (List.mem_cons_of_mem c hm)
    show splitNl (c :: (a' ++ l)) = _
    simp only [splitNl, hc, if_false]
    rw [ih ha']
    simp

theorem splitNl_no_nl (d : List Char) (hd : '\n' ∉ d) : splitNl d = [d] := by
  have := splitNl_append d [] hd [] [] rfl
  simpa using this

theorem splitNl_joinN (entries : List String) (hne : entries ≠ [])
    (hcl : ∀ e ∈ entries, cleanEntry e) :
    splitNl (joinN entries) = entries.map String.data := by
  induction entries with
  | nil => exact absurd rfl hne
  | cons e r ih =>
    obtain ⟨hnl, _, _⟩ := hcl e (List.mem_cons_self _ _)
    cases r with
    | nil => simpa [joinN] using splitNl_no_nl e.data hnl
    | cons f r' =>
      have hclr : ∀ x ∈ (f :: r'), cleanEntry x :=
        fun x hx => hcl x (List.mem_cons_of_mem e hx)
      have ihr := ih (by simp) hclr
      have hstep : splitNl ('\n' :: joinN (f :: r')) =
          [] :: splitNl (joinN (f :: r')) := by
        simp [splitNl]
      show splitNl (e.data ++ '\n' :: joinN (f :: r')) = _
      rw [splitNl_append e.data _ hnl [] (splitNl (joinN (f :: r'))) hstep, ihr]
      simp

theorem loadFilter_joinData (entries : List String) (hcl : ∀ e ∈ entries, cleanEntry e) :
    (strSplitNl (jsTrim ⟨joinData entries⟩)).filter (fun l => !(jsTrim l == ""))
      = entries := by
  cases hne : entries with
  | nil =>
    simp [joinData, jsTrim, strSplitNl, splitNl]
  | cons e r =>
    rw [← hne]
    have hne' : entries ≠ [] := by rw [hne]; simp
    rw [jsTrim_joinData entries hne' hcl]
    unfold strSplitNl
    rw [show (⟨joinN entries⟩ : String).data = joinN entries from rfl]
    rw [splitNl_joinN entries hne' hcl]
    rw [List.map_map]
    have hid : (entries.map String.data).map (fun l => (⟨l⟩ : String)) = entries := by
      rw [List.map_map]
      apply List.map_id''
      intro x
      rfl
    rw [List.map_map] at hid
    rw [hid]
    apply List.filter_eq_self.mpr
    intro x hx
    obtain ⟨_, htrim, hnee⟩ := hcl x hx
    rw [htrim]
    simp [hnee]

/-! ## Run lemmas for the store operations -/

theorem fallible_run_nofault {α : Type} (act : W → Except Unit (α × W)) (w : W)
    (hf : w.faults = []) :
    fallible act w =
      match act { w with tick := w.tick + 1 } with
      | Except.ok (a, w2) => (Except.ok a, w2)
      | Except.error _ => (Except.error (), { w with tick := w.tick + 1 }) := by
  unfold fallible
  rw [hf]
  simp only [List.contains_nil, Bool.false_eq_true, if_false]


theorem saveLog_run_text (sec e : String) (w : W) (s0 : String) (t0 : Int)
    (hf : w.faults = [])
    (h : fsGet w.files (getLogFilePath sec) = some ⟨Content.text s0, t0⟩) :
    saveLog sec e w =
      (Except.ok (decide ((Content.text (s0 ++ (e ++ "\n"))).byteSize > logRotationSize)),
        { w with files := (fsSet w.files (getLogFilePath sec)
            ⟨Content.text (s0 ++ (e ++ "\n")), w.now⟩), tick := w.tick + 2 }) := by
  unfold saveLog attempt appendFileSync statSync
  rw [Act.run_bind]
  rw [fallible_run_nofault _ _ hf]
  simp only [h, fsGet_fsSet_self]
  rw [Act.run_bind]
  rw [fallible_run_nofault _
    { files := fsSet w.files (getLogFilePath sec)
        ⟨Content.text (s0 ++ (e ++ "\n")), w.now⟩,
      dirs := w.dirs, events := w.events, tick := w.tick + 1,
      faults := w.faults, now := w.now } hf]
  simp only [fsGet_fsSet_self]

theorem saveLog_run_absent (sec e : String) (w : W)
    (hf : w.faults = [])
    (h : fsGet w.files (getLogFilePath sec) = none) :
    saveLog sec e w =
      (Except.ok (decide ((Content.text (e ++ "\n")).byteSize > logRotationSize)),
        { w with files := (fsSet w.files (getLogFilePath sec)
            ⟨Content.text (e ++ "\n"), w.now⟩), tick := w.tick + 2 }) := by
  unfold saveLog attempt appendFileSync statSync
  rw [Act.run_bind]
  rw [fallible_run_nofault _ _ hf]
  simp only [h, fsGet_fsSet_self]
  rw [Act.run_bind]
  rw [fallible_run_nofault _
    { files := fsSet w.files (getLogFilePath sec)
        ⟨Content.text (e ++ "\n"), w.now⟩,
      dirs := w.dirs, events := w.events, tick := w.tick + 1,
      faults := w.faults, now := w.now } hf]
  simp only [fsGet_fsSet_self]

theorem fsSet_fsSet (fs : List (String × FsFile)) (p : String) (f1 f2 : FsFile) :
    fsSet (fsSet fs p f1) p f2 = fsSet fs p f2 := by
  induction fs with
  | nil => simp [fsSet]
  | cons e rest ih =>
    cases hep : (e.1 == p) with
    | true =>
      simp [fsSet, hep]
    | false =>
      simp only [fsSet, hep, Bool.false_eq_true, if_false]
      rw [ih]

/-- The claim's sequence of `appendEntry` calls on one section. -/
def appendRun (sec : String) : List String → Act Unit
  | [] => pure ()
  | e :: rest => do
    let _ ← saveLog sec e
    appendRun sec rest

/-- The file content produced by the appends, as a string. -/
def joinStr (entries : List String) : String := ⟨joinData entries⟩

theorem joinStr_cons (e : String) (rest : List String) :
    (e ++ "\n") ++ joinStr rest = joinStr (e :: rest) := by
  apply String.ext
  show ((e ++ "\n") ++ joinStr rest).data = e.data ++ '\n' :: joinData rest
  rw [String.data_append, String.data_append]
  simp [joinStr]

theorem appendRun_run (sec : String) (entries : List String) :
    ∀ (w : W) (s0 : String) (t0 : Int), w.faults = [] →
    fsGet w.files (getLogFilePath sec) = some ⟨Content.text s0, t0⟩ →
    ∃ k F, appendRun sec entries w = (Except.ok (), { w with files := F, tick := k }) ∧
      ∃ t1, fsGet F (getLogFilePath sec) =
        some ⟨Content.text (s0 ++ joinStr entries), t1⟩ := by
  induction entries with
  | nil =>
    intro w s0 t0 hf h
    refine ⟨w.tick, w.files, rfl, t0, ?_⟩
    have : s0 ++ joinStr [] = s0 := by
      apply String.ext
      simp [joinStr, joinData, String.data_append]
    rw [this]
    exact h
  | cons e rest ih =>
    intro w s0 t0 hf h
    have h1 := saveLog_run_text sec e w s0 t0 hf h
    have hget1 : fsGet (fsSet w.files (getLogFilePath sec)
        ⟨Content.text (s0 ++ (e ++ "\n")), w.now⟩) (getLogFilePath sec) =
        some ⟨Content.text (s0 ++ (e ++ "\n")), w.now⟩ := fsGet_fsSet_self _ _ _
    obtain ⟨k, F, hrun, t1, hget⟩ := ih
      { w with files := (fsSet w.files (getLogFilePath sec)
          ⟨Content.text (s0 ++ (e ++ "\n")), w.now⟩), tick := w.tick + 2 }
      (s0 ++ (e ++ "\n")) w.now hf hget1
    refine ⟨k, F, ?_, t1, ?_⟩
    · show (saveLog sec e >>= fun _ => appendRun sec rest) w = _
      rw [Act.run_bind, h1]
      dsimp only
      dsimp only at hrun
      rw [hrun]
    · rw [show s0 ++ (e ++ "\n") ++ joinStr rest = s0 ++ joinStr (e :: rest) by
        rw [String.append_assoc, joinStr_cons]] at hget
      exact hget

theorem loadAllLogs_run_text (sec : String) (w : W) (s : String) (t : Int)
    (hf : w.faults = [])
    (h : fsGet w.files (getLogFilePath sec) = some ⟨Content.text s, t⟩) :
    (loadAllLogs sec w).1 = Except.ok
      ((strSplitNl (jsTrim s)).filter (fun l => !(jsTrim l == ""))) := by
  unfold loadAllLogs attempt existsSync readFileSync
  rw [Act.run_bind]
  simp only [h, Option.isSome_some, Bool.true_or, if_true]
  rw [Act.run_bind]
  rw [fallible_run_nofault _ _ hf]
  simp only [h]
  rfl

theorem loadAllLogs_run_absent (sec : String) (w : W)
    (h : fsGet w.files (getLogFilePath sec) = none) :
    (loadAllLogs sec w).1 = Except.ok [] := by
  unfold loadAllLogs attempt existsSync readFileSync
  rw [Act.run_bind]
  simp only [h, Option.isSome_none, Bool.false_or]
  cases hd : w.dirs.contains (getLogFilePath sec) with
  | false => simp
  | true =>
    simp only [if_true]
    rw [Act.run_bind]
    unfold fallible
    cases hft : w.faults.contains w.tick with
    | true => simp [hft]
    | false => simp [hft, h]

instance cleanEntryDec (e : String) : Decidable (cleanEntry e) :=
  inferInstanceAs (Decidable (('\n' ∉ e.data) ∧ jsTrim e = e ∧ e ≠ ""))

/-- C5 (counterexample): with the file initially absent, appending the
single-line non-blank entry `"a "` and loading returns `["a"]`, not the
appended entry `["a "]` — the whole-file trim removed the last entry's
trailing whitespace; and appending `"a "` then `"b"` returns
`["a ", "b"]`, so the result is not the entries with trailing whitespace
trimmed either: `loadAllLogs` trims only the extremities of the file. -/
theorem claim5_counterexample :
    (loadAllLogs "s" ((appendRun "s" ["a "] ⟨[], [], [], 0, [], 0⟩).2)).1 =
        Except.ok ["a"] ∧
      (["a"] : List String) ≠ ["a "] ∧
      (loadAllLogs "s" ((appendRun "s" ["a ", "b"] ⟨[], [], [], 0, [], 0⟩).2)).1 =
        Except.ok ["a ", "b"] ∧
      (["a ", "b"] : List String) ≠ ["a", "b"] := by
  refine ⟨?_, by decide, ?_, by decide⟩ <;> rfl

/-- C5 (amended): for every sequence of `appendEntry` calls on one section
whose file is initially absent, with single-line, non-blank entry texts that
carry no leading or trailing whitespace, `loadEntries` returns exactly those
entries in append order — none duplicated, none dropped, blank lines
filtered — and the empty sequence is returned when the section's file is
absent. -/
theorem claim5_append_load (sec : String) (entries : List String) (w : W)
    (hf : w.faults = [])
    (habs : fsGet w.files (getLogFilePath sec) = none)
    (hcl : ∀ e ∈ entries, cleanEntry e) :
    (loadAllLogs sec ((appendRun sec entries w).2)).1 = Except.ok entries ∧
      (loadAllLogs sec w).1 = Except.ok [] := by
  refine ⟨?_, loadAllLogs_run_absent sec w habs⟩
  cases entries with
  | nil =>
    show (loadAllLogs sec ((pure () : Act Unit) w).2).1 = _
    exact loadAllLogs_run_absent sec w habs
  | cons e rest =>
    have h1 := saveLog_run_absent sec e w hf habs
    have hget1 : fsGet (fsSet w.files (getLogFilePath sec)
        ⟨Content.text (e ++ "\n"), w.now⟩) (getLogFilePath sec) =
        some ⟨Content.text (e ++ "\n"), w.now⟩ := fsGet_fsSet_self _ _ _
    obtain ⟨k, F, hrun, t1, hget⟩ := appendRun_run sec rest
      { w with files := (fsSet w.files (getLogFilePath sec)
          ⟨Content.text (e ++ "\n"), w.now⟩), tick := w.tick + 2 }
      (e ++ "\n") w.now hf hget1
    have hstep : (appendRun sec (e :: rest) w).2 =
        (appendRun sec rest { w with files := (fsSet w.files (getLogFilePath sec)
          ⟨Content.text (e ++ "\n"), w.now⟩), tick := w.tick + 2 }).2 := by
      show ((saveLog sec e >>= fun _ => appendRun sec rest) w).2 = _
      rw [Act.run_bind, h1]
    rw [hstep, hrun]
    rw [joinStr_cons] at hget
    dsimp only at hget ⊢
    rw [loadAllLogs_run_text sec
      { files := F, dirs := w.dirs, events := w.events, tick := k,
        faults := w.faults, now := w.now } (joinStr (e :: rest)) t1 hf hget]
    exact congrArg Except.ok (loadFilter_joinData (e :: rest) hcl)

/-- Witness for the amended C5 at a concrete section, entry list and
initial state. -/
theorem claim5_append_load_witness :
    (loadAllLogs "s" ((appendRun "s" ["x", "y"] ⟨[], [], [], 0, [], 0⟩).2)).1 =
        Except.ok ["x", "y"] ∧
      (loadAllLogs "s" (⟨[], [], [], 0, [], 0⟩ : W)).1 = Except.ok [] :=
  claim5_append_load "s" ["x", "y"] ⟨[], [], [], 0, [], 0⟩ rfl rfl (by decide)

/-! ## Run lemmas for metadata and createSection (C6) -/

theorem existsSync_run (p : String) (w : W) :
    existsSync p w = (Except.ok ((fsGet w.files p).isSome || w.dirs.contains p), w) := rfl

theorem writeFileSync_run (p : String) (c : Content) (w : W) (hf : w.faults = []) :
    writeFileSync p c w = (Except.ok (),
      { w with files := (fsSet w.files p ⟨c, w.now⟩),
               events := FsEvent.write p c :: w.events, tick := w.tick + 1 }) := by
  unfold writeFileSync
  rw [fallible_run_nofault _ _ hf]

theorem strEndsWith_append (a b : String) : strEndsWith (a ++ b) b = true := by
  unfold strEndsWith
  rw [String.data_append]
  exact List.isPrefixOf_iff_prefix.mpr (by
    rw [List.reverse_append]
    exact List.prefix_append _ _)

theorem logPath_ne_metadata (s : String) : getLogFilePath s ≠ metadataFile := by
  intro h
  have h1 : strEndsWith (getLogFilePath s) ".txt" = true := by
    show strEndsWith (("sections" ++ "/") ++ (s ++ ".txt")) ".txt" = true
    have : ("sections" ++ "/") ++ (s ++ ".txt") = (("sections" ++ "/") ++ s) ++ ".txt" :=
      (String.append_assoc ("sections" ++ "/") s ".txt").symm
    rw [this]
    exact strEndsWith_append _ _
  rw [h] at h1
  have h2 : strEndsWith metadataFile ".txt" = false := by decide
  rw [h1] at h2
  exact Bool.noConfusion h2

theorem jLookup_assocSet_self (l : List (String × JVal)) (k : String) (v : JVal) :
    jLookup k (assocSet l k v) = some v := by
  induction l with
  | nil => simp [assocSet, jLookup]
  | cons e rest ih =>
    cases hek : (e.1 == k) with
    | true => simp [assocSet, hek, jLookup]
    | false =>
      simp only [assocSet, hek, Bool.false_eq_true, if_false]
      cases e with
      | mk k' v' =>
        simp only [jLookup]
        simp only at hek
        rw [hek]
        simp only [Bool.false_eq_true, if_false]
        exact ih

/-- Well-formed sidecar state: absent, or a serialized JSON object (as the
store itself always writes). -/
def sidecarOk (w : W) : Prop :=
  fsGet w.files metadataFile = none ∨
    ∃ f m, fsGet w.files metadataFile = some f ∧ f.content = Content.json (JVal.obj m)

theorem getSectionMetadata_run_absent (w : W)
    (h : fsGet w.files metadataFile = none) :
    ∃ k, getSectionMetadata w = (Except.ok (JVal.obj []), { w with tick := k }) := by
  unfold getSectionMetadata attempt readFileSync
  rw [Act.run_bind, existsSync_run]
  simp only [h, Option.isSome_none, Bool.false_or]
  cases hd : w.dirs.contains metadataFile with
  | false =>
    refine ⟨w.tick, ?_⟩
    simp
  | true =>
    refine ⟨w.tick + 1, ?_⟩
    simp only [if_true]
    rw [Act.run_bind]
    unfold fallible
    cases hft : w.faults.contains w.tick with
    | true => simp [hft]
    | false => simp [hft, h]

theorem getSectionMetadata_run_json (w : W) (f : FsFile) (v : JVal)
    (hf : w.faults = [])
    (h : fsGet w.files metadataFile = some f) (hc : f.content = Content.json v) :
    getSectionMetadata w = (Except.ok v, { w with tick := w.tick + 1 }) := by
  unfold getSectionMetadata attempt readFileSync
  rw [Act.run_bind, existsSync_run]
  simp only [h, Option.isSome_some, Bool.true_or, if_true]
  rw [Act.run_bind]
  rw [fallible_run_nofault _ _ hf]
  simp only [h, hc]
  rfl

theorem saveSectionMetadata_run (md : JVal) (w : W) (hf : w.faults = []) :
    saveSectionMetadata md w = (Except.ok (),
      { w with files := (fsSet w.files metadataFile ⟨Content.json md, w.now⟩),
               events := FsEvent.write metadataFile (Content.json md) :: w.events,
               tick := w.tick + 1 }) := by
  unfold saveSectionMetadata attempt
  rw [writeFileSync_run _ _ _ hf]

theorem createSection_run (name desc : String) (w : W)
    (hf : w.faults = []) (hmeta : sidecarOk w) :
    ∃ w', createSection name desc w = (Except.ok (sanitizeName name), w') ∧
      w'.faults = [] ∧ w'.dirs = w.dirs ∧ w'.now = w.now ∧
      (∀ f, fsGet w.files (getLogFilePath (sanitizeName name)) = some f →
        fsGet w'.files (getLogFilePath (sanitizeName name)) = some f) ∧
      ((fsGet w.files (getLogFilePath (sanitizeName name)) = none ∧
          w.dirs.contains (getLogFilePath (sanitizeName name)) = false) →
        fsGet w'.files (getLogFilePath (sanitizeName name)) =
          some ⟨Content.text "", w.now⟩) ∧
      (∃ m', fsGet w'.files metadataFile =
          some ⟨Content.json (JVal.obj m'), w.now⟩ ∧
        jLookup (sanitizeName name) m' =
          some (JVal.obj [("description", JVal.str desc)])) ∧
      sidecarOk w' := by
  have hpm : getLogFilePath (sanitizeName name) ≠ metadataFile :=
    logPath_ne_metadata (sanitizeName name)
  have hcs : createSection name desc w
      = (existsSync (getLogFilePath (sanitizeName name)) >>= fun ex =>
          if !ex then
            (writeFileSync (getLogFilePath (sanitizeName name))
              (Content.text "") >>= fun _ =>
            getSectionMetadata >>= fun md =>
            saveSectionMetadata (jSetKey md (sanitizeName name)
              (JVal.obj [("description", JVal.str desc)])) >>= fun _ =>
            pure (sanitizeName name))
          else
            (getSectionMetadata >>= fun md =>
            saveSectionMetadata (jSetKey md (sanitizeName name)
              (JVal.obj [("description", JVal.str desc)])) >>= fun _ =>
            pure (sanitizeName name))) w := by
    rfl
  have main : ∀ w1 : W, w1.faults = [] → w1.now = w.now → w1.dirs = w.dirs →
      sidecarOk w1 →
      ∃ w', (getSectionMetadata >>= fun md =>
          saveSectionMetadata (jSetKey md (sanitizeName name)
            (JVal.obj [("description", JVal.str desc)])) >>= fun _ =>
          pure (sanitizeName name) : Act String) w1
          = (Except.ok (sanitizeName name), w') ∧
        w'.faults = [] ∧ w'.dirs = w.dirs ∧ w'.now = w.now ∧
        (∀ g, fsGet w1.files (getLogFilePath (sanitizeName name)) = some g →
          fsGet w'.files (getLogFilePath (sanitizeName name)) = some g) ∧
        (∃ m', fsGet w'.files metadataFile =
            some ⟨Content.json (JVal.obj m'), w.now⟩ ∧
          jLookup (sanitizeName name) m' =
            some (JVal.obj [("description", JVal.str desc)])) ∧
        sidecarOk w' := by
    intro w1 hf1 hnow1 hdirs1 hm1
    have hrunmeta : ∃ m0 k, getSectionMetadata w1 =
        (Except.ok (JVal.obj m0), { w1 with tick := k }) := by
      rcases hm1 with habs | ⟨f, m, hg, hc⟩
      · obtain ⟨k, hk⟩ := getSectionMetadata_run_absent w1 habs
        exact ⟨[], k, hk⟩
      · exact ⟨m, w1.tick + 1, getSectionMetadata_run_json w1 f _ hf1 hg hc⟩
    obtain ⟨m0, k, hmk⟩ := hrunmeta
    refine ⟨W.mk
      (fsSet w1.files metadataFile
        ⟨Content.json (jSetKey (JVal.obj m0) (sanitizeName name)
          (JVal.obj [("description", JVal.str desc)])), w1.now⟩)
      w1.dirs
      (FsEvent.write metadataFile (Content.json (jSetKey (JVal.obj m0)
        (sanitizeName name) (JVal.obj [("description", JVal.str desc)])))
        :: w1.events)
      (k + 1) w1.faults w1.now, ?_, ?_, ?_, ?_, ?_, ?_, ?_⟩
    · rw [Act.run_bind, hmk]
      dsimp only
      rw [Act.run_bind, saveSectionMetadata_run _ { w1 with tick := k } hf1]
      rfl
    · exact hf1
    · exact hdirs1
    · exact hnow1
    · intro g hg
      show fsGet (fsSet w1.files metadataFile _)
        (getLogFilePath (sanitizeName name)) = some g
      rw [fsGet_fsSet_ne _ _ _ _ hpm]
      exact hg
    · refine ⟨assocSet m0 (sanitizeName name)
        (JVal.obj [("description", JVal.str desc)]), ?_, ?_⟩
      · show fsGet (fsSet w1.files metadataFile
          ⟨Content.json (jSetKey (JVal.obj m0) (sanitizeName name)
            (JVal.obj [("description", JVal.str desc)])), w1.now⟩) metadataFile
          = some ⟨Content.json (JVal.obj (assocSet m0 (sanitizeName name)
              (JVal.obj [("description", JVal.str desc)]))), w.now⟩
        rw [← hnow1]
        exact fsGet_fsSet_self _ _ _
      · exact jLookup_assocSet_self m0 (sanitizeName name) _
    · right
      exact ⟨_, assocSet m0 (sanitizeName name)
        (JVal.obj [("description", JVal.str desc)]), fsGet_fsSet_self _ _ _, rfl⟩
  cases hgl : fsGet w.files (getLogFilePath (sanitizeName name)) with
  | some f =>
    obtain ⟨w', hrun, c1, c2, c3, c4, c5, c6⟩ := main w hf rfl rfl hmeta
    refine ⟨w', ?_, c1, c2, c3, ?_, ?_, c5, c6⟩
    · rw [hcs, Act.run_bind, existsSync_run]
      simp only [hgl, Option.isSome_some, Bool.true_or, Bool.not_true,
        Bool.false_eq_true, if_false]
      exact hrun
    · intro g hg
      exact c4 g (hgl.trans hg)
    · intro ⟨habs, _⟩
      exact Option.noConfusion habs
  | none =>
    cases hd : w.dirs.contains (getLogFilePath (sanitizeName name)) with
    | true =>
      obtain ⟨w', hrun, c1, c2, c3, c4, c5, c6⟩ := main w hf rfl rfl hmeta
      refine ⟨w', ?_, c1, c2, c3, ?_, ?_, c5, c6⟩
      · rw [hcs, Act.run_bind, existsSync_run]
        simp only [hgl, hd, Option.isSome_none, Bool.false_or, Bool.not_true,
          Bool.false_eq_true, if_false]
        exact hrun
      · intro g hg
        exact Option.noConfusion hg
      · intro ⟨_, hdf⟩
        exact Bool.noConfusion hdf
    | false =>
      obtain ⟨w', hrun, c1, c2, c3, c4, c5, c6⟩ := main
        (W.mk (fsSet w.files (getLogFilePath (sanitizeName name))
            ⟨Content.text "", w.now⟩)
          w.dirs
          (FsEvent.write (getLogFilePath (sanitizeName name))
            (Content.text "") :: w.events)
          (w.tick + 1) w.faults w.now)
        hf rfl rfl (by
          rcases hmeta with habs | ⟨f, m, hg, hc⟩
          · refine Or.inl ?_
            show fsGet (fsSet w.files _ _) metadataFile = none
            rw [fsGet_fsSet_ne _ _ _ _ (Ne.symm hpm)]
            exact habs
          · refine Or.inr ⟨f, m, ?_, hc⟩
            show fsGet (fsSet w.files _ _) metadataFile = some f
            rw [fsGet_fsSet_ne _ _ _ _ (Ne.symm hpm)]
            exact hg)
      refine ⟨w', ?_, c1, c2, c3, ?_, ?_, c5, c6⟩
      · rw [hcs, Act.run_bind, existsSync_run]
        simp only [hgl, hd, Option.isSome_none, Bool.false_or, Bool.not_false,
          if_true]
        rw [Act.run_bind, writeFileSync_run _ _ _ hf]
        dsimp only
        exact hrun
      · intro g hg
        exact Option.noConfusion hg
      · intro _
        apply c4
        show fsGet (fsSet w.files (getLogFilePath (sanitizeName name))
          ⟨Content.text "", w.now⟩) (getLogFilePath (sanitizeName name))
          = some ⟨Content.text "", w.now⟩
        exact fsGet_fsSet_self _ _ _

/-- C6: for every name and description (in a faultless run over a state
whose sidecar is absent or a serialized JSON object), `createSection`
returns the id obtained by replacing each character of the name outside
`[A-Za-z0-9_-]` with `_` (this is `sanitizeName` by definition); it creates
an empty log file only if none exists — a second call with a name having
the same sanitized id leaves the file of the first call untouched and never
duplicates it (paths are unique keys of the store) — and it unconditionally
rewrites that id's sidecar entry, so after each call the sidecar holds
exactly the latest description. -/
theorem claim6_createSection (name desc name2 desc2 : String) (w : W)
    (hf : w.faults = []) (hmeta : sidecarOk w)
    (hsan : sanitizeName name2 = sanitizeName name) :
    ∃ w' w'',
      createSection name desc w = (Except.ok (sanitizeName name), w') ∧
      (∀ f, fsGet w.files (getLogFilePath (sanitizeName name)) = some f →
        fsGet w'.files (getLogFilePath (sanitizeName name)) = some f) ∧
      ((fsGet w.files (getLogFilePath (sanitizeName name)) = none ∧
          w.dirs.contains (getLogFilePath (sanitizeName name)) = false) →
        fsGet w'.files (getLogFilePath (sanitizeName name)) =
          some ⟨Content.text "", w.now⟩) ∧
      (∃ m', fsGet w'.files metadataFile =
          some ⟨Content.json (JVal.obj m'), w.now⟩ ∧
        jLookup (sanitizeName name) m' =
          some (JVal.obj [("description", JVal.str desc)])) ∧
      createSection name2 desc2 w' = (Except.ok (sanitizeName name), w'') ∧
      (∀ f, fsGet w'.files (getLogFilePath (sanitizeName name)) = some f →
        fsGet w''.files (getLogFilePath (sanitizeName name)) = some f) ∧
      (∃ m'', fsGet w''.files metadataFile =
          some ⟨Content.json (JVal.obj m''), w.now⟩ ∧
        jLookup (sanitizeName name) m'' =
          some (JVal.obj [("description", JVal.str desc2)])) := by
  obtain ⟨w', hrun1, d1, d2, d3, d4, d5, d6, d7⟩ :=
    createSection_run name desc w hf hmeta
  obtain ⟨w'', hrun2, e1, e2, e3, e4, e5, e6, e7⟩ :=
    createSection_run name2 desc2 w' d1 d7
  rw [hsan] at hrun2 e4 e5 e6
  refine ⟨w', w'', hrun1, d4, d5, d6, hrun2, e4, ?_⟩
  obtain ⟨m'', hm1, hm2⟩ := e6
  rw [d3] at hm1
  exact ⟨m'', hm1, hm2⟩

/-- Witness for C6 at a concrete name, description and state (the scenario
of the spec: `"work notes!"` sanitizes to `"work_notes_"`). -/
theorem claim6_createSection_witness :
    ∃ w' w'',
      createSection "work notes!" "d1" ⟨[], [], [], 0, [], 0⟩ =
        (Except.ok (sanitizeName "work notes!"), w') ∧
      (∀ f, fsGet ([] : List (String × FsFile))
          (getLogFilePath (sanitizeName "work notes!")) = some f →
        fsGet w'.files (getLogFilePath (sanitizeName "work notes!")) = some f) ∧
      ((fsGet ([] : List (String × FsFile))
          (getLogFilePath (sanitizeName "work notes!")) = none ∧
          ([] : List String).contains
            (getLogFilePath (sanitizeName "work notes!")) = false) →
        fsGet w'.files (getLogFilePath (sanitizeName "work notes!")) =
          some ⟨Content.text "", 0⟩) ∧
      (∃ m', fsGet w'.files metadataFile =
          some ⟨Content.json (JVal.obj m'), 0⟩ ∧
        jLookup (sanitizeName "work notes!") m' =
          some (JVal.obj [("description", JVal.str "d1")])) ∧
      createSection "work?notes." "d2" w' =
        (Except.ok (sanitizeName "work notes!"), w'') ∧
      (∀ f, fsGet w'.files (getLogFilePath (sanitizeName "work notes!")) = some f →
        fsGet w''.files (getLogFilePath (sanitizeName "work notes!")) = some f) ∧
      (∃ m'', fsGet w''.files metadataFile =
          some ⟨Content.json (JVal.obj m''), 0⟩ ∧
        jLookup (sanitizeName "work notes!") m'' =
          some (JVal.obj [("description", JVal.str "d2")])) :=
  claim6_createSection "work notes!" "d1" "work?notes." "d2"
    ⟨[], [], [], 0, [], 0⟩ rfl (Or.inl rfl) (by decide)

/-! ## Record-shape lemmas for the backup scan (C9, C2) -/

theorem statSync_run_cases (p : String) (w : W) :
    statSync p w = (Except.error (), { w with tick := w.tick + 1 }) ∨
    ∃ mt sz, statSync p w = (Except.ok (mt, sz), { w with tick := w.tick + 1 }) := by
  unfold statSync fallible
  cases hft : w.faults.contains w.tick with
  | true => left; simp [hft]
  | false =>
    cases hg : fsGet ({ w with tick := w.tick + 1 } : W).files p with
    | some f => right; exact ⟨f.mtime, f.content.byteSize, by simp [hft, hg]⟩
    | none => left; simp [hft, hg]

theorem buildRecords_shape (names : List String) : ∀ w : W,
    ∃ k, (buildRecords names w).2 = { w with tick := k } ∧
      ∀ rs, (buildRecords names w).1 = Except.ok rs →
        ∀ b ∈ rs, ∃ n mt sz, b = mkRecord n mt sz := by
  induction names with
  | nil =>
    intro w
    refine ⟨w.tick, rfl, ?_⟩
    intro rs h b hb
    have h2 : ([] : List BackupRecord) = rs := by injection h
    rw [← h2] at hb
    exact absurd hb (List.not_mem_nil b)
  | cons n rest ih =>
    intro w
    have hbr : buildRecords (n :: rest) w =
        (statSync (pathJoin backupDir n) >>= fun st =>
          buildRecords rest >>= fun rs =>
          pure (mkRecord n st.1 st.2 :: rs)) w := rfl
    rcases statSync_run_cases (pathJoin backupDir n) w with hst | ⟨mt, sz, hst⟩
    · refine ⟨w.tick + 1, ?_, ?_⟩
      · rw [hbr, Act.run_bind, hst]
      · intro rs h
        rw [hbr, Act.run_bind, hst] at h
        exact Except.noConfusion h
    · obtain ⟨k, hk, hres⟩ := ih { w with tick := w.tick + 1 }
      rcases hbr2 : buildRecords rest { w with tick := w.tick + 1 } with ⟨r1, w2⟩
      have hw2 : w2 = { w with tick := k } := by
        rw [hbr2] at hk
        exact hk
      cases r1 with
      | ok rs0 =>
        refine ⟨k, ?_, ?_⟩
        · rw [hbr, Act.run_bind, hst]
          dsimp only
          rw [Act.run_bind, hbr2]
          dsimp only
          exact hw2
        · intro rs h b hb
          rw [hbr, Act.run_bind, hst] at h
          dsimp only at h
          rw [Act.run_bind, hbr2] at h
          dsimp only at h
          have h2 : mkRecord n mt sz :: rs0 = rs := by injection h
          rw [← h2] at hb
          rcases List.mem_cons.mp hb with hbh | hbt
          · exact ⟨n, mt, sz, hbh⟩
          · exact hres rs0 (by rw [hbr2]) b hbt
      | error e =>
        refine ⟨k, ?_, ?_⟩
        · rw [hbr, Act.run_bind, hst]
          dsimp only
          rw [Act.run_bind, hbr2]
          dsimp only
          exact hw2
        · intro rs h
          rw [hbr, Act.run_bind, hst] at h
          dsimp only at h
          rw [Act.run_bind, hbr2] at h
          dsimp only at h
          exact Except.noConfusion h

theorem readdirSync_run_cases (d : String) (w : W) :
    readdirSync d w = (Except.error (), { w with tick := w.tick + 1 }) ∨
    ∃ names, readdirSync d w = (Except.ok names, { w with tick := w.tick + 1 }) := by
  unfold readdirSync fallible
  cases hft : w.faults.contains w.tick with
  | true => left; simp [hft]
  | false =>
    cases hd : w.dirs.contains d with
    | true =>
      right
      refine ⟨w.files.filterMap (fun e => childNameOf d e.1), ?_⟩
      have hd' : d ∈ w.dirs := by simpa using hd
      simp [hft, hd']
    | false =>
      left
      have hd' : ¬ d ∈ w.dirs := by simpa using hd
      simp [hft, hd']

theorem listAllBackups_shape (w : W) :
    ∃ k rs, listAllBackups w = (Except.ok rs, { w with tick := k }) ∧
      ∀ b ∈ rs, ∃ n mt sz, b = mkRecord n mt sz := by
  have hlb : listAllBackups w = (attempt (existsSync backupDir >>= fun ex =>
      if !ex then pure [] else
        (readdirSync backupDir >>= fun files => buildRecords files)) []) w := rfl
  cases hex : (fsGet w.files backupDir).isSome || w.dirs.contains backupDir with
  | false =>
    refine ⟨w.tick, [], ?_, by simp⟩
    rw [hlb]
    unfold attempt
    rw [Act.run_bind, existsSync_run]
    simp only [hex, Bool.not_false, if_true]
  | true =>
    rcases readdirSync_run_cases backupDir w with hrd | ⟨names, hrd⟩
    · refine ⟨w.tick + 1, [], ?_, by simp⟩
      rw [hlb]
      unfold attempt
      rw [Act.run_bind, existsSync_run]
      simp only [hex, Bool.not_true, Bool.false_eq_true, if_false]
      rw [Act.run_bind, hrd]
    · obtain ⟨k2, hk2, hres⟩ := buildRecords_shape names { w with tick := w.tick + 1 }
      rcases hbr : buildRecords names { w with tick := w.tick + 1 } with ⟨r1, w2⟩
      have hw2 : w2 = { w with tick := k2 } := by
        rw [hbr] at hk2
        exact hk2
      cases r1 with
      | ok rs0 =>
        refine ⟨k2, rs0, ?_, ?_⟩
        · rw [hlb]
          unfold attempt
          rw [Act.run_bind, existsSync_run]
          simp only [hex, Bool.not_true, Bool.false_eq_true, if_false]
          rw [Act.run_bind, hrd]
          dsimp only
          rw [hbr, hw2]
        · intro b hb
          exact hres rs0 (by rw [hbr]) b hb
      | error e =>
        refine ⟨k2, [], ?_, by simp⟩
        rw [hlb]
        unfold attempt
        rw [Act.run_bind, existsSync_run]
        simp only [hex, Bool.not_true, Bool.false_eq_true, if_false]
        rw [Act.run_bind, hrd]
        dsimp only
        rw [hbr, hw2]

theorem dashHead_no_hyphen (n s : String) (h : dashHead n = some s) :
    '-' ∉ s.data := by
  unfold dashHead at h
  dsimp only at h
  cases he : (n.data.takeWhile (fun c => c ≠ '-')).isEmpty with
  | true => rw [he] at h; simp at h
  | false =>
    rw [he] at h
    cases hl : ((n.data.takeWhile (fun c => c ≠ '-')).length == n.data.length) with
    | true => rw [hl] at h; simp at h
    | false =>
      rw [hl] at h
      simp only [Bool.false_eq_true, if_false] at h
      have hs : s.data = n.data.takeWhile (fun c => c ≠ '-') := by
        have h2 : (⟨n.data.takeWhile (fun c => c ≠ '-')⟩ : String) = s := by
          injection h
        rw [← h2]
      intro hm
      rw [hs] at hm
      have hall := List.all_takeWhile (p := fun c => c ≠ '-') (l := n.data)
      have := List.all_eq_true.mp hall '-' hm
      simp at this

theorem mkRecord_filter_false (n : String) (mt : Int) (sz : Nat) (sec : String)
    (hh : '-' ∈ sec.data) :
    (!(mkRecord n mt sz).isFull && ((mkRecord n mt sz).sec == some sec)) = false := by
  unfold mkRecord
  cases hful : strStartsWith n fullBackupMark with
  | true => simp
  | false =>
    simp only [Bool.false_eq_true, if_false]
    cases hdh : dashHead n with
    | none => simp
    | some pre =>
      have hne : pre ≠ sec := by
        intro he
        exact (dashHead_no_hyphen n pre hdh) (he ▸ hh)
      have : ((some pre == some sec) : Bool) = false :=
        beq_false_of_ne (fun hc => hne (Option.some.inj hc))
      simp [this]

/-- C9: for every section id containing a hyphen (permitted by the
sanitized charset), `cleanupOldBackups` deletes no files at all, in any
state and under any fault pattern: `listAllBackups` derives each section
backup's owner as the hyphen-free text before the first `-` of the
filename, which can never equal an id containing `-`, so the per-section
filter is empty and both the count rule and the age rule match nothing. -/
theorem claim9_cleanup_hyphen (cfg : BackupConfig) (sec : String) (w : W)
    (hh : '-' ∈ sec.data) :
    ((cleanupOldBackups cfg sec w).2).files = w.files ∧
    ((cleanupOldBackups cfg sec w).2).events = w.events ∧
    (cleanupOldBackups cfg sec w).1 = Except.ok () ∧
    ∀ rs, (listAllBackups w).1 = Except.ok rs →
      rs.filter (fun b => !b.isFull && b.sec == some sec) = [] := by
  obtain ⟨k, rs, hlab, hrec⟩ := listAllBackups_shape w
  have hfilt : rs.filter (fun b => !b.isFull && b.sec == some sec) = [] := by
    rw [List.filter_eq_nil_iff]
    intro b hb
    obtain ⟨n, mt, sz, rfl⟩ := hrec b hb
    rw [mkRecord_filter_false n mt sz sec hh]
    simp
  have hcl : cleanupOldBackups cfg sec w = (attempt (listAllBackups >>=
      fun allBackups =>
      (if (allBackups.filter (fun b => !b.isFull && b.sec == some sec)).length >
          cfg.maxBackupsPerSection then
        unlinkRecords ((allBackups.filter (fun b => !b.isFull && b.sec == some sec)).drop
          cfg.maxBackupsPerSection)
      else pure ()) >>= fun _ =>
      (if cfg.retentionDays > 0 then
        getNow >>= fun now =>
        unlinkRecords ((allBackups.filter (fun b => !b.isFull && b.sec == some sec)).filter
          (fun b => decide (b.date < now - cfg.retentionDays * dayMs)))
      else pure ())) ()) w := rfl
  have hrun : cleanupOldBackups cfg sec w = (Except.ok (), { w with tick := k }) := by
    rw [hcl]
    unfold attempt
    rw [Act.run_bind, hlab]
    dsimp only
    rw [hfilt]
    simp only [List.length_nil, List.drop_nil, List.filter_nil]
    rw [if_neg (Nat.not_lt_zero cfg.maxBackupsPerSection)]
    rw [Act.run_bind, Act.run_pure]
    by_cases hrd : cfg.retentionDays > 0
    · rw [if_pos hrd]
      rfl
    · rw [if_neg hrd]
  refine ⟨by rw [hrun], by rw [hrun], by rw [hrun], ?_⟩
  intro rs2 h2
  rw [hlab] at h2
  have : rs = rs2 := by injection h2
  rw [← this]
  exact hfilt

/-- Witness for C9 at a concrete state holding a backup of section `a-b`. -/
theorem claim9_cleanup_hyphen_witness :
    ((cleanupOldBackups ⟨5, 30, true⟩ "a-b"
        ⟨[("backups/a-b-T.bak", ⟨Content.text "c", 0⟩)],
          ["sections", "backups"], [], 0, [], 0⟩).2).files =
      [("backups/a-b-T.bak", ⟨Content.text "c", 0⟩)] ∧
    ((cleanupOldBackups ⟨5, 30, true⟩ "a-b"
        ⟨[("backups/a-b-T.bak", ⟨Content.text "c", 0⟩)],
          ["sections", "backups"], [], 0, [], 0⟩).2).events = [] ∧
    (cleanupOldBackups ⟨5, 30, true⟩ "a-b"
        ⟨[("backups/a-b-T.bak", ⟨Content.text "c", 0⟩)],
          ["sections", "backups"], [], 0, [], 0⟩).1 = Except.ok () ∧
    ∀ rs, (listAllBackups ⟨[("backups/a-b-T.bak", ⟨Content.text "c", 0⟩)],
          ["sections", "backups"], [], 0, [], 0⟩).1 = Except.ok rs →
      rs.filter (fun b => !b.isFull && b.sec == some "a-b") = [] :=
  claim9_cleanup_hyphen ⟨5, 30, true⟩ "a-b"
    ⟨[("backups/a-b-T.bak", ⟨Content.text "c", 0⟩)],
      ["sections", "backups"], [], 0, [], 0⟩ (by decide)

/-! ## Run lemmas for section restore (C8, C1) -/

theorem emitEvent_run (e : FsEvent) (w : W) :
    emitEvent e w = (Except.ok (), { w with events := e :: w.events }) := rfl

/-- The payload a section-restore of artifact `P` would write: the raw
bytes, gunzipped first when the path says so; `none` when the artifact is
absent or not gzip data despite its name. -/
def artifactPayload (w : W) (P : String) : Option Content :=
  match fsGet w.files P with
  | none => none
  | some f =>
    if strEndsWith P ".gz" then
      match f.content with
      | Content.gz c => some c
      | _ => none
    else some f.content

theorem restoreSectionBackup_run_write (s : String) (c : Content) (ov : Bool)
    (w : W) (hf : w.faults = [])
    (h : (ov || !((fsGet w.files (pathJoin sectionsDir (s ++ ".txt"))).isSome ||
      w.dirs.contains (pathJoin sectionsDir (s ++ ".txt")))) = true) :
    restoreSectionBackup s c ov w = (Except.ok true,
      { w with files := (fsSet w.files (pathJoin sectionsDir (s ++ ".txt")) ⟨c, w.now⟩),
               events := FsEvent.write (pathJoin sectionsDir (s ++ ".txt")) c :: w.events,
               tick := w.tick + 1 }) := by
  unfold restoreSectionBackup attempt
  rw [Act.run_bind, existsSync_run]
  simp only [h, if_true]
  rw [Act.run_bind, writeFileSync_run _ _ _ hf]

theorem restoreSectionBackup_run_skip (s : String) (c : Content) (ov : Bool)
    (w : W) (h : (ov || !((fsGet w.files (pathJoin sectionsDir (s ++ ".txt"))).isSome ||
      w.dirs.contains (pathJoin sectionsDir (s ++ ".txt")))) = false) :
    restoreSectionBackup s c ov w = (Except.ok false,
      { w with events := FsEvent.skip s :: w.events }) := by
  unfold restoreSectionBackup attempt
  rw [Act.run_bind, existsSync_run]
  simp only [h, Bool.false_eq_true, if_false]
  rw [Act.run_bind, emitEvent_run]

theorem attempt_always_ok {α : Type} (body : Act α) (d : α) (w : W) :
    ∃ r w2, attempt body d w = (Except.ok r, w2) := by
  unfold attempt
  rcases hb : body w with ⟨r1, w2⟩
  cases r1 with
  | ok a => exact ⟨a, w2, rfl⟩
  | error e => exact ⟨d, w2, rfl⟩

theorem restoreSectionBackup_always_ok (s : String) (c : Content) (ov : Bool)
    (w : W) : ∃ r w2, restoreSectionBackup s c ov w = (Except.ok r, w2) :=
  attempt_always_ok _ false w

theorem restoreFromBackup_section_run (P s : String) (ov : Bool) (w : W)
    (c : Content) (hf : w.faults = [])
    (hart : artifactPayload w P = some c)
    (hnotfull : strStartsWith (basename P) fullBackupMark = false) :
    restoreFromBackup P (some s) ov w
      = restoreSectionBackup s c ov { w with tick := w.tick + 1 } := by
  unfold artifactPayload at hart
  cases hm : fsGet w.files P with
  | none => rw [hm] at hart; exact Option.noConfusion hart
  | some f =>
    rw [hm] at hart
    obtain ⟨r, w2, hok⟩ :=
      restoreSectionBackup_always_ok s c ov { w with tick := w.tick + 1 }
    unfold restoreFromBackup attempt readFileSync
    rw [Act.run_bind, existsSync_run]
    simp only [hm, Option.isSome_some, Bool.true_or, Bool.not_true,
      Bool.false_eq_true, if_false]
    rw [Act.run_bind, fallible_run_nofault _ _ hf]
    simp only [hm]
    cases hgz : strEndsWith P ".gz" with
    | true =>
      rw [hgz] at hart
      simp only [if_true] at hart
      cases hc : f.content with
      | gz c0 =>
        rw [hc] at hart
        have hcc : c0 = c := by injection hart
        simp only [hgz, if_true, hc]
        rw [Act.run_bind]
        simp only [gunzipSync, Act.run_pure]
        simp only [hnotfull, Bool.false_eq_true, if_false]
        rw [hcc, hok]
      | text s0 => rw [hc] at hart; exact Option.noConfusion hart
      | json v0 => rw [hc] at hart; exact Option.noConfusion hart
    | false =>
      rw [hgz] at hart
      simp only [Bool.false_eq_true, if_false] at hart
      have hcc : f.content = c := by injection hart
      simp only [hgz, Bool.false_eq_true, if_false]
      rw [Act.run_bind, Act.run_pure]
      simp only [hnotfull, Bool.false_eq_true, if_false]
      rw [hcc, hok]

/-- C8: for a section-backup restore (artifact present, decompressing per
its name, not carrying the full-backup name mark), with `overwrite=false`
and the target section's file already existing, `restoreFromBackup` skips
the item — returning false after logging the skip (the yellow "skipping
section" message, not an error) — and the section's file and the whole
store are byte-for-byte unchanged; and the file is (over)written exactly
when `overwrite` is true or the file does not exist. -/
theorem claim8_restore_skip (P s : String) (ov : Bool) (w : W) (c : Content)
    (hf : w.faults = [])
    (hart : artifactPayload w P = some c)
    (hnotfull : strStartsWith (basename P) fullBackupMark = false) :
    ((ov || !((fsGet w.files (pathJoin sectionsDir (s ++ ".txt"))).isSome ||
        w.dirs.contains (pathJoin sectionsDir (s ++ ".txt")))) = false →
      (restoreFromBackup P (some s) ov w).1 = Except.ok false ∧
      ((restoreFromBackup P (some s) ov w).2).files = w.files ∧
      FsEvent.skip s ∈ ((restoreFromBackup P (some s) ov w).2).events) ∧
    ((ov || !((fsGet w.files (pathJoin sectionsDir (s ++ ".txt"))).isSome ||
        w.dirs.contains (pathJoin sectionsDir (s ++ ".txt")))) = true →
      (restoreFromBackup P (some s) ov w).1 = Except.ok true ∧
      fsGet ((restoreFromBackup P (some s) ov w).2).files
        (pathJoin sectionsDir (s ++ ".txt")) = some ⟨c, w.now⟩ ∧
      ∀ q, q ≠ pathJoin sectionsDir (s ++ ".txt") →
        fsGet ((restoreFromBackup P (some s) ov w).2).files q = fsGet w.files q) := by
  have hrun := restoreFromBackup_section_run P s ov w c hf hart hnotfull
  constructor
  · intro h
    rw [hrun, restoreSectionBackup_run_skip s c ov { w with tick := w.tick + 1 } h]
    refine ⟨rfl, rfl, ?_⟩
    exact List.mem_cons_self _ _
  · intro h
    rw [hrun,
      restoreSectionBackup_run_write s c ov { w with tick := w.tick + 1 } hf h]
    refine ⟨rfl, ?_, ?_⟩
    · exact fsGet_fsSet_self _ _ _
    · intro q hq
      exact fsGet_fsSet_ne _ _ _ _ hq

/-- Witness for C8: an existing section file, `overwrite=false`, and a plain
section artifact — the restore reports the skip and leaves the file
unchanged. -/
theorem claim8_restore_skip_witness :
    ((false || !((fsGet ([("sections/s.txt", ⟨Content.text "orig", 1⟩),
          ("backups/s-T.bak", ⟨Content.text "bk", 1⟩)])
          (pathJoin sectionsDir ("s" ++ ".txt"))).isSome ||
        (["sections", "backups"] : List String).contains
          (pathJoin sectionsDir ("s" ++ ".txt")))) = false →
      (restoreFromBackup "backups/s-T.bak" (some "s") false
          ⟨[("sections/s.txt", ⟨Content.text "orig", 1⟩),
            ("backups/s-T.bak", ⟨Content.text "bk", 1⟩)],
            ["sections", "backups"], [], 0, [], 9⟩).1 = Except.ok false ∧
      ((restoreFromBackup "backups/s-T.bak" (some "s") false
          ⟨[("sections/s.txt", ⟨Content.text "orig", 1⟩),
            ("backups/s-T.bak", ⟨Content.text "bk", 1⟩)],
            ["sections", "backups"], [], 0, [], 9⟩).2).files =
        [("sections/s.txt", ⟨Content.text "orig", 1⟩),
          ("backups/s-T.bak", ⟨Content.text "bk", 1⟩)] ∧
      FsEvent.skip "s" ∈ ((restoreFromBackup "backups/s-T.bak" (some "s") false
          ⟨[("sections/s.txt", ⟨Content.text "orig", 1⟩),
            ("backups/s-T.bak", ⟨Content.text "bk", 1⟩)],
            ["sections", "backups"], [], 0, [], 9⟩).2).events) ∧
    ((false || !((fsGet ([("sections/s.txt", ⟨Content.text "orig", 1⟩),
          ("backups/s-T.bak", ⟨Content.text "bk", 1⟩)])
          (pathJoin sectionsDir ("s" ++ ".txt"))).isSome ||
        (["sections", "backups"] : List String).contains
          (pathJoin sectionsDir ("s" ++ ".txt")))) = true →
      (restoreFromBackup "backups/s-T.bak" (some "s") false
          ⟨[("sections/s.txt", ⟨Content.text "orig", 1⟩),
            ("backups/s-T.bak", ⟨Content.text "bk", 1⟩)],
            ["sections", "backups"], [], 0, [], 9⟩).1 = Except.ok true ∧
      fsGet ((restoreFromBackup "backups/s-T.bak" (some "s") false
          ⟨[("sections/s.txt", ⟨Content.text "orig", 1⟩),
            ("backups/s-T.bak", ⟨Content.text "bk", 1⟩)],
            ["sections", "backups"], [], 0, [], 9⟩).2).files
        (pathJoin sectionsDir ("s" ++ ".txt")) = some ⟨Content.text "bk", 9⟩ ∧
      ∀ q, q ≠ pathJoin sectionsDir ("s" ++ ".txt") →
        fsGet ((restoreFromBackup "backups/s-T.bak" (some "s") false
            ⟨[("sections/s.txt", ⟨Content.text "orig", 1⟩),
              ("backups/s-T.bak", ⟨Content.text "bk", 1⟩)],
              ["sections", "backups"], [], 0, [], 9⟩).2).files q =
          fsGet ([("sections/s.txt", ⟨Content.text "orig", 1⟩),
            ("backups/s-T.bak", ⟨Content.text "bk", 1⟩)]) q) :=
  claim8_restore_skip "backups/s-T.bak" "s" false
    ⟨[("sections/s.txt", ⟨Content.text "orig", 1⟩),
      ("backups/s-T.bak", ⟨Content.text "bk", 1⟩)],
      ["sections", "backups"], [], 0, [], 9⟩
    (Content.text "bk") rfl rfl rfl

/-! ## Outcome lemmas under arbitrary fault patterns (C7) -/

theorem readFileSync_run_cases (p : String) (w : W) :
    readFileSync p w = (Except.error (), { w with tick := w.tick + 1 }) ∨
    ∃ f, fsGet w.files p = some f ∧
      readFileSync p w = (Except.ok f.content, { w with tick := w.tick + 1 }) := by
  unfold readFileSync fallible
  cases hft : w.faults.contains w.tick with
  | true => left; simp [hft]
  | false =>
    cases hg : fsGet w.files p with
    | some f => right; exact ⟨f, rfl, by simp [hft, hg]⟩
    | none => left; simp [hft, hg]

theorem writeFileSync_run_cases (p : String) (c : Content) (w : W) :
    writeFileSync p c w = (Except.error (), { w with tick := w.tick + 1 }) ∨
    writeFileSync p c w = (Except.ok (),
      { w with files := (fsSet w.files p ⟨c, w.now⟩),
               events := FsEvent.write p c :: w.events, tick := w.tick + 1 }) := by
  unfold writeFileSync fallible
  cases hft : w.faults.contains w.tick with
  | true => left; simp [hft]
  | false => right; simp [hft]

theorem unlinkSync_run_cases (p : String) (w : W) :
    unlinkSync p w = (Except.error (), { w with tick := w.tick + 1 }) ∨
    unlinkSync p w = (Except.ok (),
      { w with files := fsDel w.files p, tick := w.tick + 1 }) := by
  unfold unlinkSync fallible
  cases hft : w.faults.contains w.tick with
  | true => left; simp [hft]
  | false =>
    cases hg : (fsGet w.files p).isSome with
    | true => right; simp [hft, hg]
    | false => left; simp [hft, hg]

theorem unlinkRecords_frame (l : List BackupRecord) : ∀ w : W,
    ((unlinkRecords l w).2).events = w.events ∧
    ((unlinkRecords l w).2).dirs = w.dirs ∧
    ((unlinkRecords l w).2).faults = w.faults ∧
    ((unlinkRecords l w).2).now = w.now ∧
    ∀ p, (∀ b ∈ l, b.path ≠ p) →
      fsGet ((unlinkRecords l w).2).files p = fsGet w.files p := by
  induction l with
  | nil => intro w; exact ⟨rfl, rfl, rfl, rfl, fun p _ => rfl⟩
  | cons b rest ih =>
    intro w
    have hur : unlinkRecords (b :: rest) w =
        (unlinkSync b.path >>= fun _ => unlinkRecords rest) w := rfl
    rcases unlinkSync_run_cases b.path w with hu | hu
    · rw [hur, Act.run_bind, hu]
      exact ⟨rfl, rfl, rfl, rfl, fun p _ => rfl⟩
    · obtain ⟨e1, d1, f1, n1, g1⟩ := ih
        { w with files := fsDel w.files b.path, tick := w.tick + 1 }
      rw [hur, Act.run_bind, hu]
      dsimp only
      refine ⟨e1, d1, f1, n1, ?_⟩
      intro p hp
      rw [g1 p (fun b' hb' => hp b' (List.mem_cons_of_mem b hb'))]
      exact fsGet_fsDel_ne _ _ _ (fun he => hp b (List.mem_cons_self b rest) he.symm)

theorem strStartsWith_append_self (a b : String) : strStartsWith (a ++ b) a = true := by
  unfold strStartsWith
  rw [String.data_append]
  exact List.isPrefixOf_iff_prefix.mpr (List.prefix_append _ _)

theorem mkRecord_path (n : String) (mt : Int) (sz : Nat) :
    (mkRecord n mt sz).path = pathJoin backupDir n := by
  unfold mkRecord
  cases h : strStartsWith n fullBackupMark <;> simp [h]

theorem record_path_starts (n : String) (mt : Int) (sz : Nat) :
    strStartsWith (mkRecord n mt sz).path (backupDir ++ "/") = true := by
  rw [mkRecord_path]
  show strStartsWith ((backupDir ++ "/") ++ n) (backupDir ++ "/") = true
  exact strStartsWith_append_self _ _

/-- Both cleanup routines only delete files under the backup directory and
touch nothing else: they always succeed, never write, never log events, and
preserve every path outside `backups/`. -/
theorem cleanupOldBackups_frame (cfg : BackupConfig) (sec : String) (w : W) :
    ∃ w', cleanupOldBackups cfg sec w = (Except.ok (), w') ∧
      w'.events = w.events ∧ w'.dirs = w.dirs ∧ w'.faults = w.faults ∧
      w'.now = w.now ∧
      ∀ p, strStartsWith p (backupDir ++ "/") = false →
        fsGet w'.files p = fsGet w.files p := by
  obtain ⟨k, rs, hlab, hrec⟩ := listAllBackups_shape w
  have hcl : cleanupOldBackups cfg sec w = (attempt (listAllBackups >>=
      fun allBackups =>
      (if (allBackups.filter (fun b => !b.isFull && b.sec == some sec)).length >
          cfg.maxBackupsPerSection then
        unlinkRecords ((allBackups.filter (fun b => !b.isFull && b.sec == some sec)).drop
          cfg.maxBackupsPerSection)
      else pure ()) >>= fun _ =>
      (if cfg.retentionDays > 0 then
        getNow >>= fun now =>
        unlinkRecords ((allBackups.filter (fun b => !b.isFull && b.sec == some sec)).filter
          (fun b => decide (b.date < now - cfg.retentionDays * dayMs)))
      else pure ())) ()) w := rfl
  have hsafe : ∀ (l : List BackupRecord), (∀ b ∈ l, b ∈ rs) →
      ∀ p, strStartsWith p (backupDir ++ "/") = false → ∀ b ∈ l, b.path ≠ p := by
    intro l hl p hp b hb he
    obtain ⟨n, mt, sz, hb2⟩ := hrec b (hl b hb)
    rw [hb2] at he
    have := record_path_starts n mt sz
    rw [he] at this
    rw [this] at hp
    exact Bool.noConfusion hp
  have hbsub : ∀ b ∈ rs.filter (fun b => !b.isFull && b.sec == some sec), b ∈ rs :=
    fun b hb => List.mem_of_mem_filter hb
  rw [hcl]
  unfold attempt
  rw [Act.run_bind, hlab]
  dsimp only
  by_cases hc1 : (rs.filter (fun b => !b.isFull && b.sec == some sec)).length >
      cfg.maxBackupsPerSection
  · rw [if_pos hc1]
    rcases hu1 : unlinkRecords ((rs.filter (fun b => !b.isFull && b.sec == some sec)).drop
        cfg.maxBackupsPerSection) { w with tick := k } with ⟨r1, w2⟩
    obtain ⟨e1, d1, f1, n1, g1⟩ :=
      unlinkRecords_frame ((rs.filter (fun b => !b.isFull && b.sec == some sec)).drop
        cfg.maxBackupsPerSection) { w with tick := k }
    rw [hu1] at e1 d1 f1 n1 g1
    have hg2 : ∀ p, strStartsWith p (backupDir ++ "/") = false →
        fsGet w2.files p = fsGet w.files p := by
      intro p hp
      exact g1 p (hsafe _ (fun b hb => hbsub b (List.mem_of_mem_drop hb)) p hp)
    rw [Act.run_bind, hu1]
    cases r1 with
    | error e => exact ⟨w2, rfl, e1, d1, f1, n1, hg2⟩
    | ok u =>
      dsimp only
      by_cases hc2 : cfg.retentionDays > 0
      · rw [if_pos hc2]
        rw [Act.run_bind]
        rw [show getNow w2 = (Except.ok w2.now, w2) from rfl]
        dsimp only
        rcases hu2 : unlinkRecords ((rs.filter (fun b => !b.isFull && b.sec == some sec)).filter
            (fun b => decide (b.date < w2.now - cfg.retentionDays * dayMs))) w2
          with ⟨r2, w3⟩
        obtain ⟨e2, d2, f2, n2, g2⟩ := unlinkRecords_frame
          ((rs.filter (fun b => !b.isFull && b.sec == some sec)).filter
            (fun b => decide (b.date < w2.now - cfg.retentionDays * dayMs))) w2
        rw [hu2] at e2 d2 f2 n2 g2
        have hg3 : ∀ p, strStartsWith p (backupDir ++ "/") = false →
            fsGet w3.files p = fsGet w.files p := by
          intro p hp
          rw [g2 p (hsafe _ (fun b hb => hbsub b (List.mem_of_mem_filter hb)) p hp)]
          exact hg2 p hp
        rw [hu2]
        cases r2 with
        | error e => exact ⟨w3, rfl, e2.trans e1, d2.trans d1, f2.trans f1,
            n2.trans n1, hg3⟩
        | ok u2 => exact ⟨w3, rfl, e2.trans e1, d2.trans d1, f2.trans f1,
            n2.trans n1, hg3⟩
      · rw [if_neg hc2]
        exact ⟨w2, rfl, e1, d1, f1, n1, hg2⟩
  · rw [if_neg hc1]
    rw [Act.run_bind, Act.run_pure]
    dsimp only
    by_cases hc2 : cfg.retentionDays > 0
    · rw [if_pos hc2]
      rw [Act.run_bind]
      rw [show getNow { w with tick := k } = (Except.ok w.now, { w with tick := k })
        from rfl]
      dsimp only
      rcases hu2 : unlinkRecords ((rs.filter (fun b => !b.isFull && b.sec == some sec)).filter
          (fun b => decide (b.date < w.now - cfg.retentionDays * dayMs)))
          { w with tick := k } with ⟨r2, w3⟩
      obtain ⟨e2, d2, f2, n2, g2⟩ := unlinkRecords_frame
        ((rs.filter (fun b => !b.isFull && b.sec == some sec)).filter
          (fun b => decide (b.date < w.now - cfg.retentionDays * dayMs)))
          { w with tick := k }
      rw [hu2] at e2 d2 f2 n2 g2
      have hg3 : ∀ p, strStartsWith p (backupDir ++ "/") = false →
          fsGet w3.files p = fsGet w.files p := by
        intro p hp
        exact g2 p (hsafe _ (fun b hb => hbsub b (List.mem_of_mem_filter hb)) p hp)
      rw [hu2]
      cases r2 with
      | error e => exact ⟨w3, rfl, e2, d2, f2, n2, hg3⟩
      | ok u2 => exact ⟨w3, rfl, e2, d2, f2, n2, hg3⟩
    · rw [if_neg hc2]
      exact ⟨{ w with tick := k }, rfl, rfl, rfl, rfl, rfl, fun p _ => rfl⟩

theorem backupsSlash_data : ("backups" ++ "/" : String).data = 'b' :: "ackups/".data := by
  decide

theorem sectionsSlash_data : ("sections" ++ "/" : String).data = 's' :: "ections/".data := by
  decide

theorem artifact_ne_logPath (x suf y : String) :
    pathJoin backupDir x ++ suf ≠ pathJoin sectionsDir y := by
  intro h
  have hd := congrArg String.data h
  simp only [pathJoin, backupDir, sectionsDir, String.data_append] at hd
  simp [List.cons_append] at hd

theorem backup_ne_logPath (x y : String) :
    pathJoin backupDir x ≠ pathJoin sectionsDir y := by
  intro h
  have h2 : pathJoin backupDir x ++ "" ≠ pathJoin sectionsDir y :=
    artifact_ne_logPath x "" y
  apply h2
  rw [String.append_empty]
  exact h

theorem sections_not_under_backups (y : String) :
    strStartsWith (pathJoin sectionsDir y) (backupDir ++ "/") = false := by
  unfold strStartsWith
  simp only [pathJoin, backupDir, sectionsDir, String.data_append]
  simp [List.cons_append, List.isPrefixOf]

/-- Outcomes of the artifact-write / optional-truncate / cleanup suffix of
`backupSection`, for any fault pattern: the artifact path differs from the
log path, so whatever happens the live log file is unchanged on error, the
only successful result is the artifact path, and any recorded truncate write
is accompanied by the recorded artifact write. -/
theorem backupTail_facts (cfg : BackupConfig) (sec : String) (ap : String)
    (payload : Content) (rotate : Bool) (w1 : W)
    (hne : ap ≠ pathJoin sectionsDir (sec ++ ".txt")) :
    ∃ r w', (writeFileSync ap payload >>= fun _ =>
        if rotate then
          (writeFileSync (pathJoin sectionsDir (sec ++ ".txt")) (Content.text "") >>=
            fun _ => cleanupOldBackups cfg sec >>= fun _ => pure (some ap))
        else
          (cleanupOldBackups cfg sec >>= fun _ => pure (some ap)) : Act (Option String)) w1
        = (r, w') ∧
      (r = Except.error () → fsGet w'.files (pathJoin sectionsDir (sec ++ ".txt")) =
        fsGet w1.files (pathJoin sectionsDir (sec ++ ".txt"))) ∧
      (∀ v, r = Except.ok v → v = some ap) ∧
      ((FsEvent.write (pathJoin sectionsDir (sec ++ ".txt")) (Content.text "") ∈ w'.events →
        ∃ cA, FsEvent.write ap cA ∈ w'.events)
        ∨ w'.events = w1.events) := by
  rcases writeFileSync_run_cases ap payload w1 with hw | hw
  · refine ⟨Except.error (), { w1 with tick := w1.tick + 1 }, ?_, ?_, ?_, ?_⟩
    · rw [Act.run_bind, hw]
    · intro _; rfl
    · intro v hv; exact Except.noConfusion hv
    · right; rfl
  · cases rotate with
    | true =>
      rcases writeFileSync_run_cases (pathJoin sectionsDir (sec ++ ".txt"))
          (Content.text "")
          { w1 with files := (fsSet w1.files ap ⟨payload, w1.now⟩),
                    events := FsEvent.write ap payload :: w1.events,
                    tick := w1.tick + 1 } with ht | ht
      · refine ⟨Except.error (),
          { w1 with files := (fsSet w1.files ap ⟨payload, w1.now⟩),
                    events := FsEvent.write ap payload :: w1.events,
                    tick := w1.tick + 2 }, ?_, ?_, ?_, ?_⟩
        · rw [Act.run_bind, hw]
          dsimp only
          rw [if_pos rfl, Act.run_bind, ht]
        · intro _
          show fsGet (fsSet w1.files ap ⟨payload, w1.now⟩) _ = _
          exact fsGet_fsSet_ne _ _ _ _ (Ne.symm hne)
        · intro v hv; exact Except.noConfusion hv
        · left
          intro _
          exact ⟨payload, by
            show FsEvent.write ap payload ∈ FsEvent.write ap payload :: w1.events
            exact List.mem_cons_self _ _⟩
      · dsimp only at ht
        obtain ⟨w4, hcl4, ev4, d4, f4, n4, g4⟩ := cleanupOldBackups_frame cfg sec
          { w1 with
            files := (fsSet (fsSet w1.files ap ⟨payload, w1.now⟩)
              (pathJoin sectionsDir (sec ++ ".txt")) ⟨Content.text "", w1.now⟩),
            events := FsEvent.write (pathJoin sectionsDir (sec ++ ".txt"))
                (Content.text "")
              :: FsEvent.write ap payload :: w1.events,
            tick := w1.tick + 1 + 1 }
        refine ⟨Except.ok (some ap), w4, ?_, ?_, ?_, ?_⟩
        · rw [Act.run_bind, hw]
          dsimp only
          rw [if_pos rfl, Act.run_bind, ht]
          dsimp only
          rw [Act.run_bind]
          rw [hcl4]
          rfl
        · intro hcontra; exact Except.noConfusion hcontra
        · intro v hv
          injection hv with hv2
          exact hv2.symm
        · left
          intro _
          refine ⟨payload, ?_⟩
          rw [ev4]
          exact List.mem_cons_of_mem _ (List.mem_cons_self _ _)
    | false =>
      obtain ⟨w4, hcl4, ev4, d4, f4, n4, g4⟩ := cleanupOldBackups_frame cfg sec
        { w1 with files := (fsSet w1.files ap ⟨payload, w1.now⟩),
                  events := FsEvent.write ap payload :: w1.events,
                  tick := w1.tick + 1 }
      refine ⟨Except.ok (some ap), w4, ?_, ?_, ?_, ?_⟩
      · rw [Act.run_bind, hw]
        dsimp only
        rw [if_neg (by simp), Act.run_bind, hcl4]
        rfl
      · intro hcontra; exact Except.noConfusion hcontra
      · intro v hv
        injection hv with hv2
        exact hv2.symm
      · left
        intro _
        refine ⟨payload, ?_⟩
        rw [ev4]
        exact List.mem_cons_self _ _

theorem backupSection_master (cfg : BackupConfig) (sec ts : String)
    (rotate : Bool) (w : W) :
    ∃ r w', backupSection cfg sec ts rotate w = (Except.ok r, w') ∧
      (r = none → fsGet w'.files (pathJoin sectionsDir (sec ++ ".txt")) =
        fsGet w.files (pathJoin sectionsDir (sec ++ ".txt"))) ∧
      (w.events = [] →
        FsEvent.write (pathJoin sectionsDir (sec ++ ".txt")) (Content.text "") ∈
          w'.events →
        ∃ cA, FsEvent.write (if cfg.useCompression then
            pathJoin backupDir (sec ++ "-" ++ ts ++ backupExtension) ++ ".gz"
          else pathJoin backupDir (sec ++ "-" ++ ts ++ backupExtension)) cA ∈
          w'.events) ∧
      (((fsGet w.files (pathJoin sectionsDir (sec ++ ".txt"))).isSome ||
          w.dirs.contains (pathJoin sectionsDir (sec ++ ".txt"))) = false →
        r = none ∧ w' = w) := by
  have hbs : backupSection cfg sec ts rotate w =
      (attempt (existsSync (pathJoin sectionsDir (sec ++ ".txt")) >>= fun ex =>
        if !ex then pure none
        else
          (readFileSync (pathJoin sectionsDir (sec ++ ".txt")) >>= fun content =>
            if cfg.useCompression then
              (writeFileSync
                  (pathJoin backupDir (sec ++ "-" ++ ts ++ backupExtension) ++ ".gz")
                  (gzipSync content) >>= fun _ =>
                if rotate then
                  (writeFileSync (pathJoin sectionsDir (sec ++ ".txt"))
                      (Content.text "") >>= fun _ =>
                    cleanupOldBackups cfg sec >>= fun _ =>
                    pure (some (pathJoin backupDir
                      (sec ++ "-" ++ ts ++ backupExtension) ++ ".gz")))
                else
                  (cleanupOldBackups cfg sec >>= fun _ =>
                    pure (some (pathJoin backupDir
                      (sec ++ "-" ++ ts ++ backupExtension) ++ ".gz"))))
            else
              (writeFileSync (pathJoin backupDir (sec ++ "-" ++ ts ++ backupExtension))
                  content >>= fun _ =>
                if rotate then
                  (writeFileSync (pathJoin sectionsDir (sec ++ ".txt"))
                      (Content.text "") >>= fun _ =>
                    cleanupOldBackups cfg sec >>= fun _ =>
                    pure (some (pathJoin backupDir
                      (sec ++ "-" ++ ts ++ backupExtension))))
                else
                  (cleanupOldBackups cfg sec >>= fun _ =>
                    pure (some (pathJoin backupDir
                      (sec ++ "-" ++ ts ++ backupExtension))))))) none) w := by
    rfl
  cases hex : ((fsGet w.files (pathJoin sectionsDir (sec ++ ".txt"))).isSome ||
      w.dirs.contains (pathJoin sectionsDir (sec ++ ".txt"))) with
  | false =>
    refine ⟨none, w, ?_, fun _ => rfl, ?_, fun _ => ⟨rfl, rfl⟩⟩
    · rw [hbs]
      unfold attempt
      rw [Act.run_bind, existsSync_run]
      simp only [hex, Bool.not_false, if_true]
    · intro hev hm
      rw [hev] at hm
      exact absurd hm (List.not_mem_nil _)
  | true =>
    rcases readFileSync_run_cases (pathJoin sectionsDir (sec ++ ".txt")) w with
      hr | ⟨f, hgf, hr⟩
    · refine ⟨none, { w with tick := w.tick + 1 }, ?_, fun _ => rfl, ?_, ?_⟩
      · rw [hbs]
        unfold attempt
        rw [Act.run_bind, existsSync_run]
        simp only [hex, Bool.not_true, Bool.false_eq_true, if_false]
        rw [Act.run_bind, hr]
      · intro hev hm
        rw [show ({ w with tick := w.tick + 1 } : W).events = w.events from rfl,
          hev] at hm
        exact absurd hm (List.not_mem_nil _)
      · intro hc; exact Bool.noConfusion hc
    · cases hcmp : cfg.useCompression with
      | true =>
        obtain ⟨r, w', htf, c1, c2, c3⟩ := backupTail_facts cfg sec
          (pathJoin backupDir (sec ++ "-" ++ ts ++ backupExtension) ++ ".gz")
          (gzipSync f.content) rotate { w with tick := w.tick + 1 }
          (artifact_ne_logPath _ _ _)
        cases r with
        | error e =>
          have hrunfull : backupSection cfg sec ts rotate w = (Except.ok none, w') := by
            rw [hbs]
            unfold attempt
            rw [Act.run_bind, existsSync_run]
            simp only [hex, Bool.not_true, Bool.false_eq_true, if_false]
            rw [Act.run_bind, hr]
            dsimp only
            simp only [hcmp, if_true]
            rw [htf]
          refine ⟨none, w', hrunfull, ?_, ?_, ?_⟩
          · intro _
            exact c1 rfl
          · intro hev hm
            rcases c3 with himp | heq
            · obtain ⟨cA, hcA⟩ := himp hm
              exact ⟨cA, hcA⟩
            · rw [heq, show ({ w with tick := w.tick + 1 } : W).events = w.events
                from rfl, hev] at hm
              exact absurd hm (List.not_mem_nil _)
          · intro hc; exact Bool.noConfusion hc
        | ok v =>
          have hv := c2 v rfl
          have hrunfull : backupSection cfg sec ts rotate w = (Except.ok v, w') := by
            rw [hbs]
            unfold attempt
            rw [Act.run_bind, existsSync_run]
            simp only [hex, Bool.not_true, Bool.false_eq_true, if_false]
            rw [Act.run_bind, hr]
            dsimp only
            simp only [hcmp, if_true]
            rw [htf]
          refine ⟨v, w', hrunfull, ?_, ?_, ?_⟩
          · intro hn
            rw [hv] at hn
            exact Option.noConfusion hn
          · intro hev hm
            rcases c3 with himp | heq
            · obtain ⟨cA, hcA⟩ := himp hm
              exact ⟨cA, hcA⟩
            · rw [heq, show ({ w with tick := w.tick + 1 } : W).events = w.events
                from rfl, hev] at hm
              exact absurd hm (List.not_mem_nil _)
          · intro hc; exact Bool.noConfusion hc
      | false =>
        obtain ⟨r, w', htf, c1, c2, c3⟩ := backupTail_facts cfg sec
          (pathJoin backupDir (sec ++ "-" ++ ts ++ backupExtension))
          f.content rotate { w with tick := w.tick + 1 }
          (backup_ne_logPath _ _)
        cases r with
        | error e =>
          have hrunfull : backupSection cfg sec ts rotate w = (Except.ok none, w') := by
            rw [hbs]
            unfold attempt
            rw [Act.run_bind, existsSync_run]
            simp only [hex, Bool.not_true, Bool.false_eq_true, if_false]
            rw [Act.run_bind, hr]
            dsimp only
            simp only [hcmp, Bool.false_eq_true, if_false]
            rw [htf]
          refine ⟨none, w', hrunfull, ?_, ?_, ?_⟩
          · intro _
            exact c1 rfl
          · intro hev hm
            rcases c3 with himp | heq
            · obtain ⟨cA, hcA⟩ := himp hm
              exact ⟨cA, hcA⟩
            · rw [heq, show ({ w with tick := w.tick + 1 } : W).events = w.events
                from rfl, hev] at hm
              exact absurd hm (List.not_mem_nil _)
          · intro hc; exact Bool.noConfusion hc
        | ok v =>
          have hv := c2 v rfl
          have hrunfull : backupSection cfg sec ts rotate w = (Except.ok v, w') := by
            rw [hbs]
            unfold attempt
            rw [Act.run_bind, existsSync_run]
            simp only [hex, Bool.not_true, Bool.false_eq_true, if_false]
            rw [Act.run_bind, hr]
            dsimp only
            simp only [hcmp, Bool.false_eq_true, if_false]
            rw [htf]
          refine ⟨v, w', hrunfull, ?_, ?_, ?_⟩
          · intro hn
            rw [hv] at hn
            exact Option.noConfusion hn
          · intro hev hm
            rcases c3 with himp | heq
            · obtain ⟨cA, hcA⟩ := himp hm
              exact ⟨cA, hcA⟩
            · rw [heq, show ({ w with tick := w.tick + 1 } : W).events = w.events
                from rfl, hev] at hm
              exact absurd hm (List.not_mem_nil _)
          · intro hc; exact Bool.noConfusion hc

/-- C7: starting from a state with an empty event trace, `backupSection` never
throws (errors in the attempted block are caught and turned into a `none`
return, the modelled form of "returns null and logs an error"); when the
section has no existing log file it returns `none` and leaves the state
untouched; whenever it returns `none` — which covers every run in which any
I/O step failed — the live log file's content is exactly what it was before
the call; and in every execution, under every fault pattern, if the live log
was truncated (a write of empty text to the log path appears in the trace)
then the snapshot artifact was successfully written (a write to the artifact
path appears in the trace): truncation never precedes a successful snapshot
write. -/
theorem claim7_backupSection (cfg : BackupConfig) (sec ts : String)
    (rotate : Bool) (w : W) (hev : w.events = []) :
    ∃ r w', backupSection cfg sec ts rotate w = (Except.ok r, w') ∧
      (r = none → fsGet w'.files (pathJoin sectionsDir (sec ++ ".txt")) =
        fsGet w.files (pathJoin sectionsDir (sec ++ ".txt"))) ∧
      (FsEvent.write (pathJoin sectionsDir (sec ++ ".txt")) (Content.text "") ∈
          w'.events →
        ∃ cA, FsEvent.write (if cfg.useCompression then
            pathJoin backupDir (sec ++ "-" ++ ts ++ backupExtension) ++ ".gz"
          else pathJoin backupDir (sec ++ "-" ++ ts ++ backupExtension)) cA ∈
          w'.events) ∧
      (((fsGet w.files (pathJoin sectionsDir (sec ++ ".txt"))).isSome ||
          w.dirs.contains (pathJoin sectionsDir (sec ++ ".txt"))) = false →
        r = none ∧ w' = w) := by
  obtain ⟨r, w', h1, h2, h3, h4⟩ := backupSection_master cfg sec ts rotate w
  exact ⟨r, w', h1, h2, h3 hev, h4⟩

theorem claim7_backupSection_witness :
    (W.mk [(pathJoin sectionsDir ("notes" ++ ".txt"), ⟨Content.text "a", 0⟩)]
        [] [] 0 [] 0).events = [] ∧
    ∃ r w', backupSection ⟨5, 30, true⟩ "notes" "t" true
        (W.mk [(pathJoin sectionsDir ("notes" ++ ".txt"), ⟨Content.text "a", 0⟩)]
          [] [] 0 [] 0) = (Except.ok r, w') ∧
      (r = none → fsGet w'.files (pathJoin sectionsDir ("notes" ++ ".txt")) =
        fsGet (W.mk [(pathJoin sectionsDir ("notes" ++ ".txt"),
            ⟨Content.text "a", 0⟩)] [] [] 0 [] 0).files
          (pathJoin sectionsDir ("notes" ++ ".txt"))) ∧
      (FsEvent.write (pathJoin sectionsDir ("notes" ++ ".txt")) (Content.text "") ∈
          w'.events →
        ∃ cA, FsEvent.write (if (⟨5, 30, true⟩ : BackupConfig).useCompression then
            pathJoin backupDir ("notes" ++ "-" ++ "t" ++ backupExtension) ++ ".gz"
          else pathJoin backupDir ("notes" ++ "-" ++ "t" ++ backupExtension)) cA ∈
          w'.events) ∧
      (((fsGet (W.mk [(pathJoin sectionsDir ("notes" ++ ".txt"),
            ⟨Content.text "a", 0⟩)] [] [] 0 [] 0).files
          (pathJoin sectionsDir ("notes" ++ ".txt"))).isSome ||
          (W.mk [(pathJoin sectionsDir ("notes" ++ ".txt"),
            ⟨Content.text "a", 0⟩)] [] [] 0 [] 0).dirs.contains
            (pathJoin sectionsDir ("notes" ++ ".txt"))) = false →
        r = none ∧ w' = (W.mk [(pathJoin sectionsDir ("notes" ++ ".txt"),
          ⟨Content.text "a", 0⟩)] [] [] 0 [] 0)) :=
  ⟨rfl, claim7_backupSection ⟨5, 30, true⟩ "notes" "t" true _ rfl⟩

theorem sectionPathInj (a b : String)
    (h : pathJoin sectionsDir (a ++ ".txt") = pathJoin sectionsDir (b ++ ".txt")) :
    a = b := by
  apply String.ext
  have hd := congrArg String.data h
  simp only [pathJoin, String.data_append] at hd
  exact List.append_cancel_right (List.append_cancel_left hd)

theorem countP_congr_local {α : Type} (p q : α → Bool) :
    ∀ l : List α, (∀ a ∈ l, p a = q a) → l.countP p = l.countP q := by
  intro l
  induction l with
  | nil => intro _; rfl
  | cons x xs ih =>
    intro h
    rw [List.countP_cons, List.countP_cons,
      ih (fun a ha => h a (List.mem_cons_of_mem _ ha)),
      h x (List.mem_cons_self _ _)]

theorem restoreSectionsLoop_run (ov : Bool) (entries : List (String × JVal)) :
    ∀ (n : Nat) (w : W),
    w.faults = [] →
    (∀ e ∈ entries, ∃ s, e.2 = JVal.str s) →
    entries.Pairwise (fun a b => a.1 ≠ b.1) →
    ∃ w',
      restoreSectionsLoop ov entries n w =
        (Except.ok (n + entries.countP (fun e =>
          ov || !((fsGet w.files (pathJoin sectionsDir (e.1 ++ ".txt"))).isSome ||
            w.dirs.contains (pathJoin sectionsDir (e.1 ++ ".txt"))))), w') ∧
      w'.faults = [] ∧ w'.dirs = w.dirs ∧ w'.now = w.now ∧
      (∃ new, w'.events = new ++ w.events) ∧
      (∀ q, (∀ e ∈ entries, q ≠ pathJoin sectionsDir (e.1 ++ ".txt")) →
        fsGet w'.files q = fsGet w.files q) ∧
      (∀ e ∈ entries, ∀ s, e.2 = JVal.str s →
        ((ov || !((fsGet w.files (pathJoin sectionsDir (e.1 ++ ".txt"))).isSome ||
            w.dirs.contains (pathJoin sectionsDir (e.1 ++ ".txt")))) = true →
          fsGet w'.files (pathJoin sectionsDir (e.1 ++ ".txt")) =
            some ⟨Content.text s, w.now⟩) ∧
        ((ov || !((fsGet w.files (pathJoin sectionsDir (e.1 ++ ".txt"))).isSome ||
            w.dirs.contains (pathJoin sectionsDir (e.1 ++ ".txt")))) = false →
          fsGet w'.files (pathJoin sectionsDir (e.1 ++ ".txt")) =
            fsGet w.files (pathJoin sectionsDir (e.1 ++ ".txt")) ∧
          FsEvent.skip e.1 ∈ w'.events)) := by
  induction entries with
  | nil =>
    intro n w hf _ _
    refine ⟨w, ?_, hf, rfl, rfl, ⟨[], rfl⟩, fun q _ => rfl,
      fun e he => absurd he (List.not_mem_nil _)⟩
    simp [restoreSectionsLoop]
  | cons hd rest ih =>
    intro n w hf hstr hpw
    obtain ⟨sec, v⟩ := hd
    obtain ⟨s, hs⟩ := hstr (sec, v) (List.mem_cons_self _ _)
    dsimp only at hs
    subst hs
    rw [List.pairwise_cons] at hpw
    obtain ⟨hhd, hpwr⟩ := hpw
    have hstr' : ∀ e ∈ rest, ∃ s, e.2 = JVal.str s :=
      fun e he => hstr e (List.mem_cons_of_mem _ he)
    have hpath : ∀ e ∈ rest,
        pathJoin sectionsDir (e.1 ++ ".txt") ≠
          pathJoin sectionsDir (sec ++ ".txt") :=
      fun e he h => hhd e he (sectionPathInj e.1 sec h).symm
    have hstep : restoreSectionsLoop ov ((sec, JVal.str s) :: rest) n w =
        (existsSync (pathJoin sectionsDir (sec ++ ".txt")) >>= fun ex =>
          if ov || !ex then
            (writeJContent (pathJoin sectionsDir (sec ++ ".txt")) (JVal.str s) >>=
              fun _ => restoreSectionsLoop ov rest (n + 1))
          else
            (emitEvent (FsEvent.skip sec) >>= fun _ =>
              restoreSectionsLoop ov rest n)) w := rfl
    cases hcond : (ov || !((fsGet w.files
        (pathJoin sectionsDir (sec ++ ".txt"))).isSome ||
        w.dirs.contains (pathJoin sectionsDir (sec ++ ".txt")))) with
    | true =>
      obtain ⟨w', hrun, hfa, hdirs, hnow, ⟨new, hev⟩, hframe, hper⟩ :=
        ih (n + 1) ({ w with
          files := fsSet w.files (pathJoin sectionsDir (sec ++ ".txt"))
            ⟨Content.text s, w.now⟩,
          events := FsEvent.write (pathJoin sectionsDir (sec ++ ".txt"))
            (Content.text s) :: w.events,
          tick := w.tick + 1 }) hf hstr' hpwr
      have hcnt : rest.countP (fun e =>
          ov || !((fsGet ({ w with
            files := fsSet w.files (pathJoin sectionsDir (sec ++ ".txt"))
              ⟨Content.text s, w.now⟩,
            events := FsEvent.write (pathJoin sectionsDir (sec ++ ".txt"))
              (Content.text s) :: w.events,
            tick := w.tick + 1 } : W).files
              (pathJoin sectionsDir (e.1 ++ ".txt"))).isSome ||
            ({ w with
              files := fsSet w.files (pathJoin sectionsDir (sec ++ ".txt"))
                ⟨Content.text s, w.now⟩,
              events := FsEvent.write (pathJoin sectionsDir (sec ++ ".txt"))
                (Content.text s) :: w.events,
              tick := w.tick + 1 } : W).dirs.contains
              (pathJoin sectionsDir (e.1 ++ ".txt")))) =
          rest.countP (fun e =>
          ov || !((fsGet w.files (pathJoin sectionsDir (e.1 ++ ".txt"))).isSome ||
            w.dirs.contains (pathJoin sectionsDir (e.1 ++ ".txt")))) := by
        apply countP_congr_local
        intro a ha
        dsimp only
        rw [fsGet_fsSet_ne _ _ _ _ (hpath a ha)]
      refine ⟨w', ?_, hfa, hdirs, hnow,
        ⟨new ++ [FsEvent.write (pathJoin sectionsDir (sec ++ ".txt"))
          (Content.text s)], ?_⟩, ?_, ?_⟩
      · rw [hstep, Act.run_bind, existsSync_run]
        dsimp only
        rw [if_pos hcond]
        dsimp only [writeJContent]
        rw [Act.run_bind, writeFileSync_run _ _ _ hf]
        dsimp only
        rw [hrun, List.countP_cons, if_pos hcond, hcnt]
        simp only [Prod.mk.injEq, Except.ok.injEq]
        refine ⟨?_, trivial⟩
        omega
      · rw [hev]
        simp
      · intro q hq
        have hqh : q ≠ pathJoin sectionsDir (sec ++ ".txt") :=
          hq (sec, JVal.str s) (List.mem_cons_self _ _)
        rw [hframe q (fun e he => hq e (List.mem_cons_of_mem _ he))]
        dsimp only
        exact fsGet_fsSet_ne _ _ _ _ hqh
      · intro e he s' hs'
        rcases List.mem_cons.mp he with heq | her
        · subst heq
          dsimp only at hs'
          injection hs' with hss
          subst hss
          constructor
          · intro _
            rw [hframe (pathJoin sectionsDir (sec ++ ".txt"))
              (fun e he => (hpath e he).symm)]
            dsimp only
            exact fsGet_fsSet_self _ _ _
          · intro hfalse
            exact absurd (hcond.symm.trans hfalse) (by decide)
        · have hper' := hper e her s' hs'
          have hceq : (ov || !((fsGet (fsSet w.files
              (pathJoin sectionsDir (sec ++ ".txt")) ⟨Content.text s, w.now⟩)
              (pathJoin sectionsDir (e.1 ++ ".txt"))).isSome ||
              w.dirs.contains (pathJoin sectionsDir (e.1 ++ ".txt")))) =
              (ov || !((fsGet w.files
                (pathJoin sectionsDir (e.1 ++ ".txt"))).isSome ||
              w.dirs.contains (pathJoin sectionsDir (e.1 ++ ".txt")))) := by
            rw [fsGet_fsSet_ne _ _ _ _ (hpath e her)]
          constructor
          · intro ht
            exact hper'.1 (hceq.trans ht)
          · intro hfalse
            obtain ⟨hu, hsk⟩ := hper'.2 (hceq.trans hfalse)
            refine ⟨?_, hsk⟩
            rw [hu]
            exact fsGet_fsSet_ne _ _ _ _ (hpath e her)
    | false =>
      obtain ⟨w', hrun, hfa, hdirs, hnow, ⟨new, hev⟩, hframe, hper⟩ :=
        ih n ({ w with events := FsEvent.skip sec :: w.events }) hf hstr' hpwr
      have hncP : ¬((ov || !((fsGet w.files
          (pathJoin sectionsDir (sec ++ ".txt"))).isSome ||
          w.dirs.contains (pathJoin sectionsDir (sec ++ ".txt")))) = true) :=
        fun h => Bool.noConfusion (hcond.symm.trans h)
      have hcnt2 : rest.countP (fun e =>
          ov || !((fsGet ({ w with
            events := FsEvent.skip sec :: w.events } : W).files
              (pathJoin sectionsDir (e.1 ++ ".txt"))).isSome ||
            ({ w with events := FsEvent.skip sec :: w.events } : W).dirs.contains
              (pathJoin sectionsDir (e.1 ++ ".txt")))) =
          rest.countP (fun e =>
          ov || !((fsGet w.files (pathJoin sectionsDir (e.1 ++ ".txt"))).isSome ||
            w.dirs.contains (pathJoin sectionsDir (e.1 ++ ".txt")))) := by
        apply countP_congr_local
        intro a _
        rfl
      refine ⟨w', ?_, hfa, hdirs, hnow,
        ⟨new ++ [FsEvent.skip sec], ?_⟩, ?_, ?_⟩
      · rw [hstep, Act.run_bind, existsSync_run]
        dsimp only
        rw [if_neg hncP]
        rw [Act.run_bind, emitEvent_run]
        dsimp only
        rw [hrun, List.countP_cons, if_neg hncP, hcnt2]
        simp only [Prod.mk.injEq, Except.ok.injEq]
        refine ⟨?_, trivial⟩
        omega
      · rw [hev]
        simp
      · intro q hq
        rw [hframe q (fun e he => hq e (List.mem_cons_of_mem _ he))]
      · intro e he s' hs'
        rcases List.mem_cons.mp he with heq | her
        · subst heq
          dsimp only at hs'
          injection hs' with hss
          subst hss
          constructor
          · intro ht
            exact absurd (hcond.symm.trans ht) (by decide)
          · intro _
            constructor
            · exact hframe (pathJoin sectionsDir (sec ++ ".txt"))
                (fun e he => (hpath e he).symm)
            · rw [hev]
              exact List.mem_append_right _ (List.mem_cons_self _ _)
        · have hper' := hper e her s' hs'
          constructor
          · intro ht
            exact hper'.1 ht
          · intro hfalse
            obtain ⟨hu, hsk⟩ := hper'.2 hfalse
            exact ⟨hu, hsk⟩

/-- C4: restoring a full backup whose payload carries `sections` entries with
pairwise-distinct names and string contents is a per-item merge (faultless
run, sections directory present): the call succeeds, each contained section's
file afterwards holds the backed-up content exactly when `overwrite` is true
or that section's file did not exist (otherwise the file is byte-unchanged
and the skip is reported), every path that is not a contained section's file
is untouched — in particular sections on disk but absent from the backup are
never deleted — and the run reports the count of sections written out of the
total contained. -/
theorem claim4_restoreFullBackup (ov : Bool) (entries : List (String × JVal))
    (w : W) (hf : w.faults = []) (hd : w.dirs.contains sectionsDir = true)
    (hstr : ∀ e ∈ entries, ∃ s, e.2 = JVal.str s)
    (hpw : entries.Pairwise (fun a b => a.1 ≠ b.1)) :
    ∃ w', restoreFullBackup (JVal.obj [("sections", JVal.obj entries)]) ov w =
        (Except.ok true, w') ∧
      FsEvent.report (entries.countP (fun e =>
          ov || !((fsGet w.files (pathJoin sectionsDir (e.1 ++ ".txt"))).isSome ||
            w.dirs.contains (pathJoin sectionsDir (e.1 ++ ".txt")))))
        entries.length ∈ w'.events ∧
      (∀ q, (∀ e ∈ entries, q ≠ pathJoin sectionsDir (e.1 ++ ".txt")) →
        fsGet w'.files q = fsGet w.files q) ∧
      (∀ e ∈ entries, ∀ s, e.2 = JVal.str s →
        ((ov || !((fsGet w.files (pathJoin sectionsDir (e.1 ++ ".txt"))).isSome ||
            w.dirs.contains (pathJoin sectionsDir (e.1 ++ ".txt")))) = true →
          fsGet w'.files (pathJoin sectionsDir (e.1 ++ ".txt")) =
            some ⟨Content.text s, w.now⟩) ∧
        ((ov || !((fsGet w.files (pathJoin sectionsDir (e.1 ++ ".txt"))).isSome ||
            w.dirs.contains (pathJoin sectionsDir (e.1 ++ ".txt")))) = false →
          fsGet w'.files (pathJoin sectionsDir (e.1 ++ ".txt")) =
            fsGet w.files (pathJoin sectionsDir (e.1 ++ ".txt")) ∧
          FsEvent.skip e.1 ∈ w'.events)) := by
  have hbody : restoreFullBackup (JVal.obj [("sections", JVal.obj entries)]) ov w =
      (attempt (existsSync sectionsDir >>= fun exd =>
        if !exd then
          (mkdirSync sectionsDir >>= fun _ =>
            (restoreSectionsLoop ov entries 0 >>= fun successCount =>
              emitEvent (FsEvent.report successCount entries.length) >>= fun _ =>
              pure true))
        else
          (restoreSectionsLoop ov entries 0 >>= fun successCount =>
            emitEvent (FsEvent.report successCount entries.length) >>= fun _ =>
            pure true)) false) w := rfl
  have hex : ((fsGet w.files sectionsDir).isSome || w.dirs.contains sectionsDir) =
      true := by rw [hd, Bool.or_true]
  obtain ⟨w1, hrun, hfa, hdirs, hnow, ⟨new, hev⟩, hframe, hper⟩ :=
    restoreSectionsLoop_run ov entries 0 w hf hstr hpw
  refine ⟨{ w1 with events := (FsEvent.report (0 + entries.countP (fun e =>
      ov || !((fsGet w.files (pathJoin sectionsDir (e.1 ++ ".txt"))).isSome ||
        w.dirs.contains (pathJoin sectionsDir (e.1 ++ ".txt")))))
      entries.length :: w1.events) }, ?_, ?_, ?_, ?_⟩
  · rw [hbody]
    unfold attempt
    rw [Act.run_bind, existsSync_run]
    simp only [hex, Bool.not_true, Bool.false_eq_true, if_false]
    rw [Act.run_bind, hrun]
    dsimp only
    rw [Act.run_bind, emitEvent_run]
  · rw [Nat.zero_add]
    exact List.mem_cons_self _ _
  · intro q hq
    exact hframe q hq
  · intro e he s hs
    obtain ⟨h1, h2⟩ := hper e he s hs
    refine ⟨h1, fun hfalse => ?_⟩
    obtain ⟨hu, hsk⟩ := h2 hfalse
    exact ⟨hu, List.mem_cons_of_mem _ hsk⟩

theorem claim4_restoreFullBackup_witness :
    ∃ w', restoreFullBackup (JVal.obj [("sections", JVal.obj
        [("a", JVal.str "x"), ("b", JVal.str "y"), ("c", JVal.str "z")])]) false
        (W.mk [(pathJoin sectionsDir ("a" ++ ".txt"), ⟨Content.text "oldA", 0⟩),
          (pathJoin sectionsDir ("b" ++ ".txt"), ⟨Content.text "oldB", 0⟩)]
          [sectionsDir] [] 0 [] 7) = (Except.ok true, w') ∧
      FsEvent.report 1 3 ∈ w'.events ∧
      (∀ q, (∀ e ∈ [("a", JVal.str "x"), ("b", JVal.str "y"), ("c", JVal.str "z")],
          q ≠ pathJoin sectionsDir (e.1 ++ ".txt")) →
        fsGet w'.files q = fsGet (W.mk
          [(pathJoin sectionsDir ("a" ++ ".txt"), ⟨Content.text "oldA", 0⟩),
           (pathJoin sectionsDir ("b" ++ ".txt"), ⟨Content.text "oldB", 0⟩)]
          [sectionsDir] [] 0 [] 7).files q) ∧
      (∀ e ∈ [("a", JVal.str "x"), ("b", JVal.str "y"), ("c", JVal.str "z")],
        ∀ s, e.2 = JVal.str s →
        ((false || !((fsGet (W.mk
            [(pathJoin sectionsDir ("a" ++ ".txt"), ⟨Content.text "oldA", 0⟩),
             (pathJoin sectionsDir ("b" ++ ".txt"), ⟨Content.text "oldB", 0⟩)]
            [sectionsDir] [] 0 [] 7).files
            (pathJoin sectionsDir (e.1 ++ ".txt"))).isSome ||
            (W.mk [(pathJoin sectionsDir ("a" ++ ".txt"), ⟨Content.text "oldA", 0⟩),
              (pathJoin sectionsDir ("b" ++ ".txt"), ⟨Content.text "oldB", 0⟩)]
              [sectionsDir] [] 0 [] 7).dirs.contains
              (pathJoin sectionsDir (e.1 ++ ".txt")))) = true →
          fsGet w'.files (pathJoin sectionsDir (e.1 ++ ".txt")) =
            some ⟨Content.text s, 7⟩) ∧
        ((false || !((fsGet (W.mk
            [(pathJoin sectionsDir ("a" ++ ".txt"), ⟨Content.text "oldA", 0⟩),
             (pathJoin sectionsDir ("b" ++ ".txt"), ⟨Content.text "oldB", 0⟩)]
            [sectionsDir] [] 0 [] 7).files
            (pathJoin sectionsDir (e.1 ++ ".txt"))).isSome ||
            (W.mk [(pathJoin sectionsDir ("a" ++ ".txt"), ⟨Content.text "oldA", 0⟩),
              (pathJoin sectionsDir ("b" ++ ".txt"), ⟨Content.text "oldB", 0⟩)]
              [sectionsDir] [] 0 [] 7).dirs.contains
              (pathJoin sectionsDir (e.1 ++ ".txt")))) = false →
          fsGet w'.files (pathJoin sectionsDir (e.1 ++ ".txt")) =
            fsGet (W.mk
              [(pathJoin sectionsDir ("a" ++ ".txt"), ⟨Content.text "oldA", 0⟩),
               (pathJoin sectionsDir ("b" ++ ".txt"), ⟨Content.text "oldB", 0⟩)]
              [sectionsDir] [] 0 [] 7).files
              (pathJoin sectionsDir (e.1 ++ ".txt")) ∧
          FsEvent.skip e.1 ∈ w'.events)) :=
  claim4_restoreFullBackup false
    [("a", JVal.str "x"), ("b", JVal.str "y"), ("c", JVal.str "z")]
    (W.mk [(pathJoin sectionsDir ("a" ++ ".txt"), ⟨Content.text "oldA", 0⟩),
      (pathJoin sectionsDir ("b" ++ ".txt"), ⟨Content.text "oldB", 0⟩)]
      [sectionsDir] [] 0 [] 7) rfl (by decide)
    (by
      intro e he
      simp only [List.mem_cons, List.not_mem_nil, or_false] at he
      rcases he with rfl | rfl | rfl
      · exact ⟨"x", rfl⟩
      · exact ⟨"y", rfl⟩
      · exact ⟨"z", rfl⟩)
    (by decide)

/-- C1 counterexample: for the section id `full-backup` — a legal sanitized
id — the artifact written by `backupSection` is named
`full-backup-<ts>.bak`, whose basename starts with the full-backup filename
mark, so `restoreFromBackup` misclassifies it as a full-repository backup.
When the log's bytes happen to parse as JSON (here the log is the single
line mapping the section to `X`), the restore succeeds as a full restore
and overwrites the section's log with the payload entry `X` instead of the
log's backup-time bytes: the round trip is not byte-identical. -/
theorem claim1_counterexample :
    (backupSection ⟨5, 30, false⟩ "full-backup" "T" false
      (W.mk [("sections/full-backup.txt",
        ⟨Content.text "\x7b\"sections\":\x7b\"full-backup\":\"X\"\x7d\x7d", 0⟩)]
        ["sections", "backups"] [] 0 [] 0)).1 =
      Except.ok (some "backups/full-backup-T.bak") ∧
    fsGet (W.mk [("sections/full-backup.txt",
        ⟨Content.text "\x7b\"sections\":\x7b\"full-backup\":\"X\"\x7d\x7d", 0⟩)]
        ["sections", "backups"] [] 0 [] 0).files "sections/full-backup.txt" =
      some ⟨Content.text "\x7b\"sections\":\x7b\"full-backup\":\"X\"\x7d\x7d", 0⟩ ∧
    (restoreFromBackup "backups/full-backup-T.bak" (some "full-backup") true
      (backupSection ⟨5, 30, false⟩ "full-backup" "T" false
        (W.mk [("sections/full-backup.txt",
          ⟨Content.text "\x7b\"sections\":\x7b\"full-backup\":\"X\"\x7d\x7d", 0⟩)]
          ["sections", "backups"] [] 0 [] 0)).2).1 = Except.ok true ∧
    fsGet ((restoreFromBackup "backups/full-backup-T.bak" (some "full-backup") true
      (backupSection ⟨5, 30, false⟩ "full-backup" "T" false
        (W.mk [("sections/full-backup.txt",
          ⟨Content.text "\x7b\"sections\":\x7b\"full-backup\":\"X\"\x7d\x7d", 0⟩)]
          ["sections", "backups"] [] 0 [] 0)).2).2).files
        "sections/full-backup.txt" = some ⟨Content.text "X", 0⟩ ∧
    ("X" : String) ≠ "\x7b\"sections\":\x7b\"full-backup\":\"X\"\x7d\x7d" :=
  ⟨rfl, rfl, rfl, rfl, by decide⟩

theorem readdirSync_run_ok (d : String) (w : W) (hf : w.faults = [])
    (hd : w.dirs.contains d = true) :
    readdirSync d w =
      (Except.ok (w.files.filterMap (fun e => childNameOf d e.1)),
        { w with tick := w.tick + 1 }) := by
  unfold readdirSync fallible
  have hft : w.faults.contains w.tick = false := by rw [hf]; rfl
  have hd' : d ∈ w.dirs := by simpa using hd
  have hfn : w.tick ∉ w.faults := by rw [hf]; exact List.not_mem_nil _
  simp [hft, hd', hfn]

theorem statSync_run_ok (p : String) (w : W) (f : FsFile) (hf : w.faults = [])
    (hg : fsGet w.files p = some f) :
    statSync p w = (Except.ok (f.mtime, f.content.byteSize),
      { w with tick := w.tick + 1 }) := by
  unfold statSync fallible
  have hft : w.faults.contains w.tick = false := by rw [hf]; rfl
  have hfn : w.tick ∉ w.faults := by rw [hf]; exact List.not_mem_nil _
  simp [hft, hg, hfn]

theorem fsGet_isSome_of_mem (files : List (String × FsFile)) (p : String)
    (f : FsFile) (h : (p, f) ∈ files) : (fsGet files p).isSome = true := by
  induction files with
  | nil => exact absurd h (List.not_mem_nil _)
  | cons e rest ih =>
    rcases List.mem_cons.mp h with heq | hmem
    · rw [← heq]
      simp [fsGet, List.find?]
    · unfold fsGet
      cases hep : (e.1 == p) with
      | true => simp [List.find?, hep]
      | false =>
        simp only [List.find?, hep]
        exact ih hmem

theorem childNameOf_eq (d p n : String) (h : childNameOf d p = some n) :
    p = pathJoin d n := by
  unfold childNameOf at h
  dsimp only at h
  cases hsp : strStartsWith p (d ++ "/") with
  | false => rw [hsp] at h; simp at h
  | true =>
    rw [hsp] at h
    simp only [if_true] at h
    cases hsl : (p.data.drop (d ++ "/").data.length).contains '/' with
    | true => rw [hsl] at h; simp at h
    | false =>
      rw [hsl] at h
      simp only [Bool.false_eq_true, if_false, Option.some.injEq] at h
      obtain ⟨t, ht⟩ := List.isPrefixOf_iff_prefix.mp hsp
      apply String.ext
      show p.data = (pathJoin d n).data
      have hnd : n.data = p.data.drop (d ++ "/").data.length := by
        rw [← h]
      have hpj : (pathJoin d n).data = (d ++ "/").data ++ n.data := by
        show ((d ++ "/") ++ n).data = _
        rw [String.data_append]
      rw [hpj, hnd, ← ht, List.drop_left]

theorem childNameOf_pathJoin (d n : String) (hsl : n.data.contains '/' = false) :
    childNameOf d (pathJoin d n) = some n := by
  unfold childNameOf
  dsimp only
  have hsp : strStartsWith (pathJoin d n) (d ++ "/") = true := by
    show strStartsWith ((d ++ "/") ++ n) (d ++ "/") = true
    exact strStartsWith_append_self _ _
  rw [hsp]
  simp only [if_true]
  have hdrop : (pathJoin d n).data.drop (d ++ "/").data.length = n.data := by
    simp only [pathJoin, String.data_append]
    exact List.drop_left _ _
  rw [hdrop, hsl]
  simp

theorem childNameOf_none (d p : String)
    (h : strStartsWith p (d ++ "/") = false) : childNameOf d p = none := by
  unfold childNameOf
  dsimp only
  rw [h]
  simp

theorem fsSet_absent (files : List (String × FsFile)) (p : String) (f : FsFile)
    (h : fsGet files p = none) : fsSet files p f = files ++ [(p, f)] := by
  induction files with
  | nil => rfl
  | cons e rest ih =>
    unfold fsGet at h
    cases hep : (e.1 == p) with
    | true => simp [List.find?, hep] at h
    | false =>
      simp only [List.find?, hep] at h
      unfold fsSet
      rw [hep]
      simp only [Bool.false_eq_true, if_false, List.cons_append]
      rw [ih h]

theorem buildRecords_ok (names : List String) : ∀ (w : W), w.faults = [] →
    (∀ n ∈ names, (fsGet w.files (pathJoin backupDir n)).isSome = true) →
    ∃ k, buildRecords names w =
      (Except.ok (names.map (fun n =>
        match fsGet w.files (pathJoin backupDir n) with
        | some f => mkRecord n f.mtime f.content.byteSize
        | none => mkRecord n 0 0)), { w with tick := k }) := by
  induction names with
  | nil =>
    intro w _ _
    exact ⟨w.tick, rfl⟩
  | cons n rest ih =>
    intro w hf hex
    have hbr : buildRecords (n :: rest) w =
        (statSync (pathJoin backupDir n) >>= fun st =>
          buildRecords rest >>= fun rs =>
          pure (mkRecord n st.1 st.2 :: rs)) w := rfl
    obtain ⟨f, hgf⟩ := Option.isSome_iff_exists.mp
      (hex n (List.mem_cons_self _ _))
    obtain ⟨k, hk⟩ := ih { w with tick := w.tick + 1 } hf
      (fun m hm => hex m (List.mem_cons_of_mem _ hm))
    refine ⟨k, ?_⟩
    rw [hbr, Act.run_bind, statSync_run_ok _ _ _ hf hgf]
    dsimp only
    rw [Act.run_bind, hk]
    dsimp only
    rw [Act.run_pure, List.map_cons, hgf]

theorem listAllBackups_ok (w : W) (hf : w.faults = [])
    (hbd : w.dirs.contains backupDir = true) :
    ∃ k, listAllBackups w =
      (Except.ok ((w.files.filterMap (fun e => childNameOf backupDir e.1)).map
        (fun n => match fsGet w.files (pathJoin backupDir n) with
          | some f => mkRecord n f.mtime f.content.byteSize
          | none => mkRecord n 0 0)), { w with tick := k }) := by
  have hlb : listAllBackups w = (attempt (existsSync backupDir >>= fun ex =>
      if !ex then pure [] else
        (readdirSync backupDir >>= fun files => buildRecords files)) []) w := rfl
  have hex : ((fsGet w.files backupDir).isSome || w.dirs.contains backupDir) =
      true := by rw [hbd, Bool.or_true]
  obtain ⟨k, hk⟩ := buildRecords_ok
    (w.files.filterMap (fun e => childNameOf backupDir e.1))
    { w with tick := w.tick + 1 } hf
    (by
      intro n hn
      obtain ⟨e, he, hcn⟩ := List.mem_filterMap.mp hn
      have hpe : e.1 = pathJoin backupDir n := childNameOf_eq _ _ _ hcn
      show (fsGet w.files (pathJoin backupDir n)).isSome = true
      rw [← hpe]
      exact fsGet_isSome_of_mem w.files e.1 e.2 (by rw [← hpe] at *; simpa using he))
  refine ⟨k, ?_⟩
  rw [hlb]
  unfold attempt
  rw [Act.run_bind, existsSync_run]
  simp only [hex, Bool.not_true, Bool.false_eq_true, if_false]
  rw [Act.run_bind, readdirSync_run_ok _ _ hf hbd]
  dsimp only
  rw [hk]

theorem cleanupOldBackups_noop (cfg : BackupConfig) (sec : String) (w : W)
    (rs : List BackupRecord) (k : Nat)
    (hlist : listAllBackups w = (Except.ok rs, { w with tick := k }))
    (hlen : (rs.filter (fun b => !b.isFull && b.sec == some sec)).length ≤
      cfg.maxBackupsPerSection)
    (hexp : 0 < cfg.retentionDays →
      (rs.filter (fun b => !b.isFull && b.sec == some sec)).filter
      (fun b => decide (b.date < w.now - cfg.retentionDays * dayMs)) = []) :
    cleanupOldBackups cfg sec w = (Except.ok (), { w with tick := k }) := by
  have hcl : cleanupOldBackups cfg sec w = (attempt (listAllBackups >>=
      fun allBackups =>
      (if (allBackups.filter (fun b => !b.isFull && b.sec == some sec)).length >
          cfg.maxBackupsPerSection then
        unlinkRecords ((allBackups.filter (fun b =>
          !b.isFull && b.sec == some sec)).drop cfg.maxBackupsPerSection)
      else pure ()) >>= fun _ =>
      (if cfg.retentionDays > 0 then
        (getNow >>= fun now =>
          unlinkRecords ((allBackups.filter (fun b =>
            !b.isFull && b.sec == some sec)).filter
            (fun b => decide (b.date < now - cfg.retentionDays * dayMs))))
      else pure ())) ()) w := rfl
  rw [hcl]
  unfold attempt
  rw [Act.run_bind, hlist]
  dsimp only
  rw [if_neg (Nat.not_lt.mpr hlen)]
  rw [Act.run_bind, Act.run_pure]
  dsimp only
  by_cases hret : cfg.retentionDays > 0
  · rw [if_pos hret]
    rw [Act.run_bind]
    have hgn : getNow { w with tick := k } =
        (Except.ok w.now, { w with tick := k }) := rfl
    rw [hgn]
    dsimp only
    rw [hexp hret]
    rfl
  · rw [if_neg hret]

theorem fsGet_none_of_no_pre (files : List (String × FsFile)) (pre p : String)
    (hall : ∀ e ∈ files, strStartsWith e.1 pre = false)
    (hp : strStartsWith p pre = true) : fsGet files p = none := by
  induction files with
  | nil => rfl
  | cons e rest ih =>
    have hep : (e.1 == p) = false := by
      apply beq_false_of_ne
      intro hc
      rw [← hc] at hp
      rw [hall e (List.mem_cons_self _ _)] at hp
      exact Bool.noConfusion hp
    unfold fsGet
    simp only [List.find?, hep]
    exact ih (fun a ha => hall a (List.mem_cons_of_mem _ ha))

theorem takeWhile_append_stop (p : Char → Bool) (x : Char) :
    ∀ (l1 l2 : List Char), (∀ a ∈ l1, p a = true) → p x = false →
    List.takeWhile p (l1 ++ x :: l2) = l1 := by
  intro l1 l2 hall hx
  induction l1 with
  | nil => simp [List.takeWhile, hx]
  | cons a as ih =>
    have ha : p a = true := hall a (List.mem_cons_self _ _)
    simp only [List.cons_append, List.takeWhile, ha]
    exact congrArg (List.cons a) (ih (fun b hb => hall b (List.mem_cons_of_mem _ hb)))

theorem basename_pathJoin (d n : String) (hsl : n.data.contains '/' = false) :
    basename (pathJoin d n) = n := by
  unfold basename
  have hdata : (pathJoin d n).data = (d.data ++ ['/']) ++ n.data := by
    show ((d ++ "/") ++ n).data = _
    rw [String.data_append, String.data_append]
  have hnmem : ∀ a ∈ n.data.reverse, (a ≠ '/' : Bool) = true := by
    intro a ha
    have ham : a ∈ n.data := List.mem_reverse.mp ha
    have hnm : '/' ∉ n.data := by simpa using hsl
    have : a ≠ '/' := by
      intro hc
      rw [hc] at ham
      exact hnm ham
    simpa using this
  apply String.ext
  show ((pathJoin d n).data.reverse.takeWhile (fun c => c ≠ '/')).reverse = n.data
  rw [hdata, List.reverse_append, List.reverse_append]
  show ((n.data.reverse ++ ('/' :: d.data.reverse)).takeWhile
    (fun c => c ≠ '/')).reverse = n.data
  rw [takeWhile_append_stop _ _ _ _ hnmem (by simp)]
  exact List.reverse_reverse _

theorem strEndsWith_bak_gz (a : String) :
    strEndsWith (a ++ ".bak") ".gz" = false := by
  unfold strEndsWith
  rw [String.data_append]
  show List.isPrefixOf ['z', 'g', '.']
    ((a.data ++ ['.', 'b', 'a', 'k']).reverse) = false
  rw [List.reverse_append]
  rfl

theorem pathJoin_gz (d n : String) :
    pathJoin d n ++ ".gz" = pathJoin d (n ++ ".gz") := by
  show (d ++ "/" ++ n) ++ ".gz" = d ++ "/" ++ (n ++ ".gz")
  rw [String.append_assoc]

theorem contains_append_false (l1 l2 : List Char) (c : Char)
    (h : (l1 ++ l2).contains c = false) : l1.contains c = false := by
  have h1 : ¬ c ∈ (l1 ++ l2) := by simpa using h
  have h2 : ¬ c ∈ l1 := fun hm => h1 (List.mem_append_left _ hm)
  simpa using h2

theorem cleanup_after_fresh_write (cfg : BackupConfig) (sec : String)
    (nm : String) (F : FsFile) (w w1 : W)
    (hbd : w.dirs.contains backupDir = true)
    (hmax : 1 ≤ cfg.maxBackupsPerSection)
    (hnb : ∀ e ∈ w.files, strStartsWith e.1 (backupDir ++ "/") = false)
    (hsl : nm.data.contains '/' = false)
    (hmt : F.mtime = w.now)
    (hfiles1 : w1.files = fsSet w.files (pathJoin backupDir nm) F)
    (hdirs1 : w1.dirs = w.dirs)
    (hf1 : w1.faults = [])
    (hnow1 : w1.now = w.now) :
    ∃ k, cleanupOldBackups cfg sec w1 = (Except.ok (), { w1 with tick := k }) := by
  have hget0 : fsGet w.files (pathJoin backupDir nm) = none :=
    fsGet_none_of_no_pre _ _ _ hnb (strStartsWith_append_self (backupDir ++ "/") nm)
  have happ : w1.files = w.files ++ [(pathJoin backupDir nm, F)] := by
    rw [hfiles1, fsSet_absent _ _ _ hget0]
  have hbd1 : w1.dirs.contains backupDir = true := by rw [hdirs1]; exact hbd
  obtain ⟨k, hlist⟩ := listAllBackups_ok w1 hf1 hbd1
  have hnames : w1.files.filterMap (fun e => childNameOf backupDir e.1) = [nm] := by
    rw [happ, List.filterMap_append]
    have h1 : w.files.filterMap (fun e => childNameOf backupDir e.1) = [] :=
      List.filterMap_eq_nil.mpr (fun e he => childNameOf_none _ _ (hnb e he))
    rw [h1]
    simp [List.filterMap_cons, childNameOf_pathJoin _ _ hsl]
  have hgart : fsGet w1.files (pathJoin backupDir nm) = some F := by
    rw [hfiles1]
    exact fsGet_fsSet_self _ _ _
  rw [hnames] at hlist
  have hrs : (([nm] : List String).map
      (fun n => match fsGet w1.files (pathJoin backupDir n) with
        | some f => mkRecord n f.mtime f.content.byteSize
        | none => mkRecord n 0 0)) =
      [mkRecord nm F.mtime F.content.byteSize] := by
    rw [List.map_cons, hgart]
    rfl
  rw [hrs] at hlist
  refine ⟨k, cleanupOldBackups_noop cfg sec w1 _ k hlist ?_ ?_⟩
  · calc (([mkRecord nm F.mtime F.content.byteSize].filter
        (fun b => !b.isFull && b.sec == some sec))).length
        ≤ ([mkRecord nm F.mtime F.content.byteSize]).length :=
          List.length_filter_le _ _
      _ = 1 := rfl
      _ ≤ cfg.maxBackupsPerSection := hmax
  · intro hret
    apply List.filter_eq_nil.mpr
    intro b hb
    have hbm : b ∈ [mkRecord nm F.mtime F.content.byteSize] :=
      List.mem_of_mem_filter hb
    have hbe : b = mkRecord nm F.mtime F.content.byteSize :=
      List.mem_singleton.mp hbm
    have hdate : b.date = w1.now := by
      rw [hbe, hnow1, ← hmt]
      unfold mkRecord
      cases hsw : strStartsWith nm fullBackupMark with
      | true => simp
      | false => simp
    simp only [hdate]
    intro hc
    have hc2 : w1.now < w1.now - cfg.retentionDays * dayMs := of_decide_eq_true hc
    unfold dayMs at hc2
    omega

theorem backupSection_fresh_gz (cfg : BackupConfig) (sec ts orig : String)
    (t0 : Int) (w : W) (hf : w.faults = [])
    (hlog : fsGet w.files (pathJoin sectionsDir (sec ++ ".txt")) =
      some ⟨Content.text orig, t0⟩)
    (hnb : ∀ e ∈ w.files, strStartsWith e.1 (backupDir ++ "/") = false)
    (hbd : w.dirs.contains backupDir = true)
    (hmax : 1 ≤ cfg.maxBackupsPerSection)
    (hsl : ((sec ++ "-" ++ ts ++ backupExtension) ++ ".gz").data.contains '/' =
      false)
    (hcmp : cfg.useCompression = true) :
    ∃ k, backupSection cfg sec ts false w =
      (Except.ok (some (pathJoin backupDir
          (sec ++ "-" ++ ts ++ backupExtension) ++ ".gz")),
        { w with
          files := (fsSet w.files
            (pathJoin backupDir (sec ++ "-" ++ ts ++ backupExtension) ++ ".gz")
            ⟨Content.gz (Content.text orig), w.now⟩),
          events := (FsEvent.write
            (pathJoin backupDir (sec ++ "-" ++ ts ++ backupExtension) ++ ".gz")
            (Content.gz (Content.text orig)) :: w.events),
          tick := k }) := by
  have hbs : backupSection cfg sec ts false w =
      (attempt (existsSync (pathJoin sectionsDir (sec ++ ".txt")) >>= fun ex =>
        if !ex then pure none
        else
          (readFileSync (pathJoin sectionsDir (sec ++ ".txt")) >>= fun content =>
            if cfg.useCompression then
              (writeFileSync
                  (pathJoin backupDir (sec ++ "-" ++ ts ++ backupExtension) ++ ".gz")
                  (gzipSync content) >>= fun _ =>
                cleanupOldBackups cfg sec >>= fun _ =>
                pure (some (pathJoin backupDir
                  (sec ++ "-" ++ ts ++ backupExtension) ++ ".gz")))
            else
              (writeFileSync (pathJoin backupDir (sec ++ "-" ++ ts ++ backupExtension))
                  content >>= fun _ =>
                cleanupOldBackups cfg sec >>= fun _ =>
                pure (some (pathJoin backupDir
                  (sec ++ "-" ++ ts ++ backupExtension)))))) none) w := rfl
  have hex : ((fsGet w.files (pathJoin sectionsDir (sec ++ ".txt"))).isSome ||
      w.dirs.contains (pathJoin sectionsDir (sec ++ ".txt"))) = true := by
    rw [hlog]
    rfl
  have hrd : readFileSync (pathJoin sectionsDir (sec ++ ".txt")) w =
      (Except.ok (Content.text orig), { w with tick := w.tick + 1 }) := by
    unfold readFileSync
    rw [fallible_run_nofault _ _ hf]
    simp [hlog]
  have hwr : writeFileSync
      (pathJoin backupDir (sec ++ "-" ++ ts ++ backupExtension) ++ ".gz")
      (gzipSync (Content.text orig)) { w with tick := w.tick + 1 } =
      (Except.ok (), { w with
        files := (fsSet w.files
          (pathJoin backupDir (sec ++ "-" ++ ts ++ backupExtension) ++ ".gz")
          ⟨Content.gz (Content.text orig), w.now⟩),
        events := (FsEvent.write
          (pathJoin backupDir (sec ++ "-" ++ ts ++ backupExtension) ++ ".gz")
          (Content.gz (Content.text orig)) :: w.events),
        tick := w.tick + 1 + 1 }) := by
    rw [writeFileSync_run _ _ ({ w with tick := w.tick + 1 }) hf]
    rfl
  obtain ⟨k, hcl⟩ := cleanup_after_fresh_write cfg sec
    ((sec ++ "-" ++ ts ++ backupExtension) ++ ".gz")
    ⟨Content.gz (Content.text orig), w.now⟩ w
    ({ w with
        files := (fsSet w.files
          (pathJoin backupDir (sec ++ "-" ++ ts ++ backupExtension) ++ ".gz")
          ⟨Content.gz (Content.text orig), w.now⟩),
        events := (FsEvent.write
          (pathJoin backupDir (sec ++ "-" ++ ts ++ backupExtension) ++ ".gz")
          (Content.gz (Content.text orig)) :: w.events),
        tick := w.tick + 1 + 1 })
    hbd hmax hnb hsl rfl (by rw [pathJoin_gz]) rfl hf rfl
  refine ⟨k, ?_⟩
  rw [hbs]
  unfold attempt
  rw [Act.run_bind, existsSync_run]
  simp only [hex, Bool.not_true, Bool.false_eq_true, if_false]
  rw [Act.run_bind, hrd]
  dsimp only
  simp only [hcmp, if_true]
  rw [Act.run_bind, hwr]
  dsimp only
  rw [Act.run_bind, hcl]

theorem backupSection_fresh_plain (cfg : BackupConfig) (sec ts orig : String)
    (t0 : Int) (w : W) (hf : w.faults = [])
    (hlog : fsGet w.files (pathJoin sectionsDir (sec ++ ".txt")) =
      some ⟨Content.text orig, t0⟩)
    (hnb : ∀ e ∈ w.files, strStartsWith e.1 (backupDir ++ "/") = false)
    (hbd : w.dirs.contains backupDir = true)
    (hmax : 1 ≤ cfg.maxBackupsPerSection)
    (hsl : ((sec ++ "-" ++ ts ++ backupExtension) ++ ".gz").data.contains '/' =
      false)
    (hcmp : cfg.useCompression = false) :
    ∃ k, backupSection cfg sec ts false w =
      (Except.ok (some (pathJoin backupDir
          (sec ++ "-" ++ ts ++ backupExtension))),
        { w with
          files := (fsSet w.files
            (pathJoin backupDir (sec ++ "-" ++ ts ++ backupExtension))
            ⟨Content.text orig, w.now⟩),
          events := (FsEvent.write
            (pathJoin backupDir (sec ++ "-" ++ ts ++ backupExtension))
            (Content.text orig) :: w.events),
          tick := k }) := by
  have hsl2 : (sec ++ "-" ++ ts ++ backupExtension).data.contains '/' = false := by
    apply contains_append_false _ (".gz").data
    rw [← String.data_append]
    exact hsl
  have hbs : backupSection cfg sec ts false w =
      (attempt (existsSync (pathJoin sectionsDir (sec ++ ".txt")) >>= fun ex =>
        if !ex then pure none
        else
          (readFileSync (pathJoin sectionsDir (sec ++ ".txt")) >>= fun content =>
            if cfg.useCompression then
              (writeFileSync
                  (pathJoin backupDir (sec ++ "-" ++ ts ++ backupExtension) ++ ".gz")
                  (gzipSync content) >>= fun _ =>
                cleanupOldBackups cfg sec >>= fun _ =>
                pure (some (pathJoin backupDir
                  (sec ++ "-" ++ ts ++ backupExtension) ++ ".gz")))
            else
              (writeFileSync (pathJoin backupDir (sec ++ "-" ++ ts ++ backupExtension))
                  content >>= fun _ =>
                cleanupOldBackups cfg sec >>= fun _ =>
                pure (some (pathJoin backupDir
                  (sec ++ "-" ++ ts ++ backupExtension)))))) none) w := rfl
  have hex : ((fsGet w.files (pathJoin sectionsDir (sec ++ ".txt"))).isSome ||
      w.dirs.contains (pathJoin sectionsDir (sec ++ ".txt"))) = true := by
    rw [hlog]
    rfl
  have hrd : readFileSync (pathJoin sectionsDir (sec ++ ".txt")) w =
      (Except.ok (Content.text orig), { w with tick := w.tick + 1 }) := by
    unfold readFileSync
    rw [fallible_run_nofault _ _ hf]
    simp [hlog]
  have hwr : writeFileSync
      (pathJoin backupDir (sec ++ "-" ++ ts ++ backupExtension))
      (Content.text orig) { w with tick := w.tick + 1 } =
      (Except.ok (), { w with
        files := (fsSet w.files
          (pathJoin backupDir (sec ++ "-" ++ ts ++ backupExtension))
          ⟨Content.text orig, w.now⟩),
        events := (FsEvent.write
          (pathJoin backupDir (sec ++ "-" ++ ts ++ backupExtension))
          (Content.text orig) :: w.events),
        tick := w.tick + 1 + 1 }) := by
    rw [writeFileSync_run _ _ ({ w with tick := w.tick + 1 }) hf]
  obtain ⟨k, hcl⟩ := cleanup_after_fresh_write cfg sec
    (sec ++ "-" ++ ts ++ backupExtension)
    ⟨Content.text orig, w.now⟩ w
    ({ w with
        files := (fsSet w.files
          (pathJoin backupDir (sec ++ "-" ++ ts ++ backupExtension))
          ⟨Content.text orig, w.now⟩),
        events := (FsEvent.write
          (pathJoin backupDir (sec ++ "-" ++ ts ++ backupExtension))
          (Content.text orig) :: w.events),
        tick := w.tick + 1 + 1 })
    hbd hmax hnb hsl2 rfl rfl rfl hf rfl
  refine ⟨k, ?_⟩
  rw [hbs]
  unfold attempt
  rw [Act.run_bind, existsSync_run]
  simp only [hex, Bool.not_true, Bool.false_eq_true, if_false]
  rw [Act.run_bind, hrd]
  dsimp only
  simp only [hcmp, Bool.false_eq_true, if_false]
  rw [Act.run_bind, hwr]
  dsimp only
  rw [Act.run_bind, hcl]

/-- C1 (amended): for every section whose log file exists with text content,
with fault-free I/O, a backups directory holding no prior backup files, a
retention limit of at least one, a separator-free artifact filename that
does not begin with the full-backup name mark — the condition violated by
the `full-backup` section id of the counterexample — `backupSection` with
`rotate=false` returns the artifact path leaving the log file untouched,
and `restoreFromBackup` of that path with `overwrite=true` rewrites the
section's log byte-identical to its content at backup time, whether
`useCompression` is true (gzip round trip through the `.gz` artifact) or
false (plain artifact). -/
theorem claim1_roundtrip (cfg : BackupConfig) (sec ts orig : String)
    (t0 : Int) (w : W) (hf : w.faults = [])
    (hlog : fsGet w.files (pathJoin sectionsDir (sec ++ ".txt")) =
      some ⟨Content.text orig, t0⟩)
    (hnb : ∀ e ∈ w.files, strStartsWith e.1 (backupDir ++ "/") = false)
    (hbd : w.dirs.contains backupDir = true)
    (hmax : 1 ≤ cfg.maxBackupsPerSection)
    (hsl : ((sec ++ "-" ++ ts ++ backupExtension) ++ ".gz").data.contains '/' =
      false)
    (hnfn : strStartsWith (sec ++ "-" ++ ts ++ backupExtension)
      fullBackupMark = false)
    (hnfg : strStartsWith ((sec ++ "-" ++ ts ++ backupExtension) ++ ".gz")
      fullBackupMark = false) :
    ∃ ap wB wR,
      backupSection cfg sec ts false w = (Except.ok (some ap), wB) ∧
      fsGet wB.files (pathJoin sectionsDir (sec ++ ".txt")) =
        some ⟨Content.text orig, t0⟩ ∧
      restoreFromBackup ap (some sec) true wB = (Except.ok true, wR) ∧
      fsGet wR.files (pathJoin sectionsDir (sec ++ ".txt")) =
        some ⟨Content.text orig, w.now⟩ := by
  cases hcmp : cfg.useCompression with
  | true =>
    obtain ⟨k, hbk⟩ := backupSection_fresh_gz cfg sec ts orig t0 w hf hlog hnb
      hbd hmax hsl hcmp
    have hga : fsGet ({ w with
        files := (fsSet w.files
          (pathJoin backupDir (sec ++ "-" ++ ts ++ backupExtension) ++ ".gz")
          ⟨Content.gz (Content.text orig), w.now⟩),
        events := (FsEvent.write
          (pathJoin backupDir (sec ++ "-" ++ ts ++ backupExtension) ++ ".gz")
          (Content.gz (Content.text orig)) :: w.events),
        tick := k } : W).files
        (pathJoin backupDir (sec ++ "-" ++ ts ++ backupExtension) ++ ".gz") =
        some ⟨Content.gz (Content.text orig), w.now⟩ :=
      fsGet_fsSet_self _ _ _
    have hart : artifactPayload ({ w with
        files := (fsSet w.files
          (pathJoin backupDir (sec ++ "-" ++ ts ++ backupExtension) ++ ".gz")
          ⟨Content.gz (Content.text orig), w.now⟩),
        events := (FsEvent.write
          (pathJoin backupDir (sec ++ "-" ++ ts ++ backupExtension) ++ ".gz")
          (Content.gz (Content.text orig)) :: w.events),
        tick := k } : W)
        (pathJoin backupDir (sec ++ "-" ++ ts ++ backupExtension) ++ ".gz") =
        some (Content.text orig) := by
      unfold artifactPayload
      rw [hga]
      dsimp only
      rw [strEndsWith_append]
      rfl
    have hnotfull : strStartsWith (basename
        (pathJoin backupDir (sec ++ "-" ++ ts ++ backupExtension) ++ ".gz"))
        fullBackupMark = false := by
      rw [pathJoin_gz, basename_pathJoin _ _ hsl]
      exact hnfg
    have hrest := restoreFromBackup_section_run
      (pathJoin backupDir (sec ++ "-" ++ ts ++ backupExtension) ++ ".gz") sec
      true ({ w with
        files := (fsSet w.files
          (pathJoin backupDir (sec ++ "-" ++ ts ++ backupExtension) ++ ".gz")
          ⟨Content.gz (Content.text orig), w.now⟩),
        events := (FsEvent.write
          (pathJoin backupDir (sec ++ "-" ++ ts ++ backupExtension) ++ ".gz")
          (Content.gz (Content.text orig)) :: w.events),
        tick := k } : W) (Content.text orig) hf hart hnotfull
    refine ⟨_, _, _, hbk, ?_,
      hrest.trans (restoreSectionBackup_run_write _ _ _ _ hf rfl), ?_⟩
    · show fsGet (fsSet w.files
        (pathJoin backupDir (sec ++ "-" ++ ts ++ backupExtension) ++ ".gz")
        ⟨Content.gz (Content.text orig), w.now⟩)
        (pathJoin sectionsDir (sec ++ ".txt")) = some ⟨Content.text orig, t0⟩
      rw [fsGet_fsSet_ne _ _ _ _ (Ne.symm (artifact_ne_logPath _ _ _))]
      exact hlog
    · exact fsGet_fsSet_self _ _ _
  | false =>
    obtain ⟨k, hbk⟩ := backupSection_fresh_plain cfg sec ts orig t0 w hf hlog hnb
      hbd hmax hsl hcmp
    have hga : fsGet ({ w with
        files := (fsSet w.files
          (pathJoin backupDir (sec ++ "-" ++ ts ++ backupExtension))
          ⟨Content.text orig, w.now⟩),
        events := (FsEvent.write
          (pathJoin backupDir (sec ++ "-" ++ ts ++ backupExtension))
          (Content.text orig) :: w.events),
        tick := k } : W).files
        (pathJoin backupDir (sec ++ "-" ++ ts ++ backupExtension)) =
        some ⟨Content.text orig, w.now⟩ :=
      fsGet_fsSet_self _ _ _
    have hsl2 : (sec ++ "-" ++ ts ++ backupExtension).data.contains '/' = false := by
      apply contains_append_false _ (".gz").data
      rw [← String.data_append]
      exact hsl
    have hgz : strEndsWith (pathJoin backupDir
        (sec ++ "-" ++ ts ++ backupExtension)) ".gz" = false := by
      show strEndsWith ((pathJoin backupDir (sec ++ "-" ++ ts)) ++ ".bak") ".gz" =
        false
      exact strEndsWith_bak_gz _
    have hart : artifactPayload ({ w with
        files := (fsSet w.files
          (pathJoin backupDir (sec ++ "-" ++ ts ++ backupExtension))
          ⟨Content.text orig, w.now⟩),
        events := (FsEvent.write
          (pathJoin backupDir (sec ++ "-" ++ ts ++ backupExtension))
          (Content.text orig) :: w.events),
        tick := k } : W)
        (pathJoin backupDir (sec ++ "-" ++ ts ++ backupExtension)) =
        some (Content.text orig) := by
      unfold artifactPayload
      rw [hga]
      dsimp only
      rw [hgz]
      rfl
    have hnotfull : strStartsWith (basename
        (pathJoin backupDir (sec ++ "-" ++ ts ++ backupExtension)))
        fullBackupMark = false := by
      rw [basename_pathJoin _ _ hsl2]
      exact hnfn
    have hrest := restoreFromBackup_section_run
      (pathJoin backupDir (sec ++ "-" ++ ts ++ backupExtension)) sec
      true ({ w with
        files := (fsSet w.files
          (pathJoin backupDir (sec ++ "-" ++ ts ++ backupExtension))
          ⟨Content.text orig, w.now⟩),
        events := (FsEvent.write
          (pathJoin backupDir (sec ++ "-" ++ ts ++ backupExtension))
          (Content.text orig) :: w.events),
        tick := k } : W) (Content.text orig) hf hart hnotfull
    refine ⟨_, _, _, hbk, ?_,
      hrest.trans (restoreSectionBackup_run_write _ _ _ _ hf rfl), ?_⟩
    · show fsGet (fsSet w.files
        (pathJoin backupDir (sec ++ "-" ++ ts ++ backupExtension))
        ⟨Content.text orig, w.now⟩)
        (pathJoin sectionsDir (sec ++ ".txt")) = some ⟨Content.text orig, t0⟩
      rw [fsGet_fsSet_ne _ _ _ _ (Ne.symm (backup_ne_logPath _ _))]
      exact hlog
    · exact fsGet_fsSet_self _ _ _

theorem claim1_roundtrip_witness :
    ∃ ap wB wR,
      backupSection ⟨5, 30, true⟩ "notes" "T" false
        (W.mk [(pathJoin sectionsDir ("notes" ++ ".txt"),
          ⟨Content.text "hello", 3⟩)] ["sections", "backups"] [] 0 [] 9) =
        (Except.ok (some ap), wB) ∧
      fsGet wB.files (pathJoin sectionsDir ("notes" ++ ".txt")) =
        some ⟨Content.text "hello", 3⟩ ∧
      restoreFromBackup ap (some "notes") true wB = (Except.ok true, wR) ∧
      fsGet wR.files (pathJoin sectionsDir ("notes" ++ ".txt")) =
        some ⟨Content.text "hello", 9⟩ :=
  claim1_roundtrip ⟨5, 30, true⟩ "notes" "T" "hello" 3
    (W.mk [(pathJoin sectionsDir ("notes" ++ ".txt"),
      ⟨Content.text "hello", 3⟩)] ["sections", "backups"] [] 0 [] 9)
    rfl rfl (by decide) rfl (by decide) (by decide) (by decide) (by decide)

theorem unlinkSync_run_ok (p : String) (w : W) (hf : w.faults = [])
    (hg : (fsGet w.files p).isSome = true) :
    unlinkSync p w = (Except.ok (),
      { w with files := fsDel w.files p, tick := w.tick + 1 }) := by
  unfold unlinkSync fallible
  have hft : w.faults.contains w.tick = false := by rw [hf]; rfl
  have hfn : w.tick ∉ w.faults := by rw [hf]; exact List.not_mem_nil _
  simp [hft, hg, hfn]

theorem unlinkSync_run_enoent (p : String) (w : W) (hf : w.faults = [])
    (hg : fsGet w.files p = none) :
    unlinkSync p w = (Except.error (), { w with tick := w.tick + 1 }) := by
  unfold unlinkSync fallible
  have hft : w.faults.contains w.tick = false := by rw [hf]; rfl
  have hfn : w.tick ∉ w.faults := by rw [hf]; exact List.not_mem_nil _
  simp [hft, hg, hfn]

theorem unlinkRecords_append (l1 l2 : List BackupRecord) : ∀ w,
    unlinkRecords (l1 ++ l2) w =
      (match unlinkRecords l1 w with
       | (Except.ok _, w') => unlinkRecords l2 w'
       | (Except.error e, w') => (Except.error e, w')) := by
  induction l1 with
  | nil => intro w; rfl
  | cons b rest ih =>
    intro w
    have hur1 : unlinkRecords (b :: rest) w =
        (unlinkSync b.path >>= fun _ => unlinkRecords rest) w := rfl
    have hur2 : unlinkRecords ((b :: rest) ++ l2) w =
        (unlinkSync b.path >>= fun _ => unlinkRecords (rest ++ l2)) w := rfl
    have hstep := hur1.trans (Act.run_bind _ _ _)
    have hstep2 := hur2.trans (Act.run_bind _ _ _)
    rw [hstep2, hstep]
    rcases hu : unlinkSync b.path w with ⟨r, w2⟩
    cases r with
    | ok a =>
      dsimp only
      exact ih w2
    | error e =>
      dsimp only

theorem unlinkRecords_ok (l : List BackupRecord) : ∀ (w : W),
    w.faults = [] →
    (∀ b ∈ l, (fsGet w.files b.path).isSome = true) →
    l.Pairwise (fun a b => a.path ≠ b.path) →
    ∃ w', unlinkRecords l w = (Except.ok (), w') ∧
      w'.dirs = w.dirs ∧ w'.events = w.events ∧ w'.now = w.now ∧
      w'.faults = [] ∧
      (∀ q, (∀ b ∈ l, q ≠ b.path) → fsGet w'.files q = fsGet w.files q) ∧
      (∀ b ∈ l, fsGet w'.files b.path = none) := by
  induction l with
  | nil =>
    intro w hf _ _
    exact ⟨w, rfl, rfl, rfl, rfl, hf, fun q _ => rfl,
      fun b hb => absurd hb (List.not_mem_nil _)⟩
  | cons b rest ih =>
    intro w hf hpres hpw
    rw [List.pairwise_cons] at hpw
    obtain ⟨hbr, hpwr⟩ := hpw
    have hur : unlinkRecords (b :: rest) w =
        (unlinkSync b.path >>= fun _ => unlinkRecords rest) w := rfl
    have hu := unlinkSync_run_ok b.path w hf
      (hpres b (List.mem_cons_self _ _))
    obtain ⟨w', hrun, hdirs, hev, hnow, hfa, hframe, hdel⟩ :=
      ih { w with files := fsDel w.files b.path, tick := w.tick + 1 } hf
        (by
          intro b' hb'
          show (fsGet (fsDel w.files b.path) b'.path).isSome = true
          rw [fsGet_fsDel_ne _ _ _ (Ne.symm (hbr b' hb'))]
          exact hpres b' (List.mem_cons_of_mem _ hb'))
        hpwr
    refine ⟨w', ?_, hdirs, hev, hnow, hfa, ?_, ?_⟩
    · rw [hur, Act.run_bind, hu]
      dsimp only
      exact hrun
    · intro q hq
      rw [hframe q (fun b' hb' => hq b' (List.mem_cons_of_mem _ hb'))]
      show fsGet (fsDel w.files b.path) q = fsGet w.files q
      exact fsGet_fsDel_ne _ _ _ (hq b (List.mem_cons_self _ _))
    · intro b' hb'
      rcases List.mem_cons.mp hb' with heq | hmem
      · rw [heq]
        rw [hframe b.path (fun b2 hb2 => hbr b2 hb2)]
        show fsGet (fsDel w.files b.path) b.path = none
        exact fsGet_fsDel_self _ _
      · exact hdel b' hmem

theorem unlinkRecords_age_phase (bs : List BackupRecord) (mx : Nat)
    (age : BackupRecord → Bool) (w2 : W) (hf2 : w2.faults = [])
    (hpres2 : ∀ b ∈ bs.take mx, (fsGet w2.files b.path).isSome = true)
    (hdel2 : ∀ b ∈ bs.drop mx, fsGet w2.files b.path = none)
    (hpw : bs.Pairwise (fun a b => a.path ≠ b.path)) :
    ∃ r3 w3, unlinkRecords (bs.filter age) w2 = (r3, w3) ∧
      (∀ b ∈ (bs.take mx).filter age, fsGet w3.files b.path = none) ∧
      (∀ q, (∀ b ∈ (bs.take mx).filter age, q ≠ b.path) →
        fsGet w3.files q = fsGet w2.files q) ∧
      (∀ p, fsGet w2.files p = none → fsGet w3.files p = none) := by
  have hpw2 : (bs.take mx ++ bs.drop mx).Pairwise
      (fun a b => a.path ≠ b.path) := by
    rw [List.take_append_drop]
    exact hpw
  obtain ⟨hpwt, hpwd, hcross⟩ := List.pairwise_append.mp hpw2
  have hsplit : bs.filter age =
      (bs.take mx).filter age ++ (bs.drop mx).filter age := by
    conv_lhs => rw [← List.take_append_drop mx bs]
    rw [List.filter_append]
  have hpresE1 : ∀ b ∈ (bs.take mx).filter age,
      (fsGet w2.files b.path).isSome = true :=
    fun b hb => hpres2 b (List.mem_of_mem_filter hb)
  have hpwE1 : ((bs.take mx).filter age).Pairwise
      (fun a b => a.path ≠ b.path) :=
    List.Pairwise.sublist (List.filter_sublist _) hpwt
  obtain ⟨w3a, hrunE1, hdirs3, hev3, hnow3, hfa3, hframe3, hdel3⟩ :=
    unlinkRecords_ok ((bs.take mx).filter age) w2 hf2 hpresE1 hpwE1
  have hmono : ∀ p, fsGet w2.files p = none → fsGet w3a.files p = none := by
    intro p hp
    by_cases hmem : ∀ b ∈ (bs.take mx).filter age, p ≠ b.path
    · rw [hframe3 p hmem]
      exact hp
    · push_neg at hmem
      obtain ⟨b, hb, hbp⟩ := hmem
      rw [hbp]
      exact hdel3 b hb
  cases hE2 : (bs.drop mx).filter age with
  | nil =>
    refine ⟨Except.ok (), w3a, ?_, hdel3, hframe3, hmono⟩
    rw [hsplit, hE2, List.append_nil]
    exact hrunE1
  | cons b2 r2 =>
    have hb2d : b2 ∈ bs.drop mx := by
      have : b2 ∈ (bs.drop mx).filter age := by
        rw [hE2]
        exact List.mem_cons_self _ _
      exact List.mem_of_mem_filter this
    have hb2none : fsGet w3a.files b2.path = none := by
      rw [hframe3 b2.path (fun b hb =>
        Ne.symm (hcross _ (List.mem_of_mem_filter hb) _ hb2d))]
      exact hdel2 b2 hb2d
    refine ⟨Except.error (), { w3a with tick := w3a.tick + 1 }, ?_, hdel3,
      hframe3, hmono⟩
    rw [hsplit, hE2, unlinkRecords_append, hrunE1]
    dsimp only
    have hur : unlinkRecords (b2 :: r2) w3a =
        (unlinkSync b2.path >>= fun _ => unlinkRecords r2) w3a := rfl
    rw [hur, Act.run_bind, unlinkSync_run_enoent b2.path w3a hfa3 hb2none]

/-- C2: after a backup creation, the per-section retention cleanup — run
fault-free over the section's backups `bs` as filtered from the records
`listAllBackups` returns, with the listed artifacts present on disk at
pairwise-distinct paths — succeeds and enforces both rules: every backup
beyond the first `maxBackupsPerSection` in `listAllBackups` order is
deleted, every backup of the section older than `now - retentionDays` days
is deleted when `retentionDays > 0` (even though the age pass can abort
early on an already-deleted file, the aborted remainder is exactly the
already-deleted overlap), each of the first `maxBackupsPerSection` backups
that is not expired is retained untouched — so at most
`maxBackupsPerSection` section backups remain — and no other path is
affected. -/
theorem claim2_retention (cfg : BackupConfig) (sec : String) (w : W)
    (rs : List BackupRecord) (k : Nat) (bs : List BackupRecord)
    (hf : w.faults = [])
    (hlist : listAllBackups w = (Except.ok rs, { w with tick := k }))
    (hbs : bs = rs.filter (fun b => !b.isFull && b.sec == some sec))
    (hpres : ∀ b ∈ bs, (fsGet w.files b.path).isSome = true)
    (hpw : bs.Pairwise (fun a b => a.path ≠ b.path)) :
    ∃ w', cleanupOldBackups cfg sec w = (Except.ok (), w') ∧
      (∀ b ∈ bs.drop cfg.maxBackupsPerSection, fsGet w'.files b.path = none) ∧
      (0 < cfg.retentionDays → ∀ b ∈ bs,
        decide (b.date < w.now - cfg.retentionDays * dayMs) = true →
        fsGet w'.files b.path = none) ∧
      (∀ b ∈ bs.take cfg.maxBackupsPerSection,
        (cfg.retentionDays ≤ 0 ∨
          decide (b.date < w.now - cfg.retentionDays * dayMs) = false) →
        fsGet w'.files b.path = fsGet w.files b.path) ∧
      (∀ q, (∀ b ∈ bs, q ≠ b.path) → fsGet w'.files q = fsGet w.files q) := by
  have hcl : cleanupOldBackups cfg sec w = (attempt (listAllBackups >>=
      fun allBackups =>
      (if (allBackups.filter (fun b => !b.isFull && b.sec == some sec)).length >
          cfg.maxBackupsPerSection then
        unlinkRecords ((allBackups.filter (fun b =>
          !b.isFull && b.sec == some sec)).drop cfg.maxBackupsPerSection)
      else pure ()) >>= fun _ =>
      (if cfg.retentionDays > 0 then
        (getNow >>= fun now =>
          unlinkRecords ((allBackups.filter (fun b =>
            !b.isFull && b.sec == some sec)).filter
            (fun b => decide (b.date < now - cfg.retentionDays * dayMs))))
      else pure ())) ()) w := rfl
  have hpw2 : (bs.take cfg.maxBackupsPerSection ++
      bs.drop cfg.maxBackupsPerSection).Pairwise
      (fun a b => a.path ≠ b.path) := by
    rw [List.take_append_drop]
    exact hpw
  obtain ⟨hpwt, hpwd, hcross⟩ := List.pairwise_append.mp hpw2
  have hsym : Symmetric (fun (a b : BackupRecord) => a.path ≠ b.path) :=
    fun a b h => Ne.symm h
  by_cases hlen : bs.length > cfg.maxBackupsPerSection
  · obtain ⟨w2, hrun2, hdirs2, hev2, hnow2, hfa2, hframe2, hdel2⟩ :=
      unlinkRecords_ok (bs.drop cfg.maxBackupsPerSection)
        { w with tick := k } hf
        (fun b hb => hpres b (List.mem_of_mem_drop hb)) hpwd
    by_cases hret : cfg.retentionDays > 0
    · obtain ⟨r3, w3, hrun3, hdel3, hframe3, hmono3⟩ :=
        unlinkRecords_age_phase bs cfg.maxBackupsPerSection
          (fun b => decide (b.date < w.now - cfg.retentionDays * dayMs)) w2 hfa2
          (fun b hb => by
            rw [hframe2 b.path (fun b' hb' => hcross _ hb _ hb')]
            exact hpres b (List.mem_of_mem_take hb))
          (fun b hb => hdel2 b hb) hpw
      refine ⟨w3, ?_, ?_, ?_, ?_, ?_⟩
      · rw [hcl]
        unfold attempt
        rw [Act.run_bind, hlist]
        dsimp only
        rw [← hbs, if_pos hlen, Act.run_bind, hrun2]
        dsimp only
        rw [if_pos hret, Act.run_bind]
        rw [show getNow w2 = (Except.ok w2.now, w2) from rfl]
        dsimp only
        rw [hnow2]
        dsimp only
        rw [hrun3]
        cases r3 with
        | ok a => rfl
        | error e => rfl
      · intro b hb
        exact hmono3 b.path (hdel2 b hb)
      · intro _ b hb hage
        rcases List.mem_append.mp (by
            rw [List.take_append_drop]
            exact hb :
            b ∈ bs.take cfg.maxBackupsPerSection ++
              bs.drop cfg.maxBackupsPerSection) with ht | hd
        · exact hdel3 b (List.mem_filter.mpr ⟨ht, hage⟩)
        · exact hmono3 b.path (hdel2 b hd)
      · intro b hb hcond
        rcases hcond with hle0 | hagef
        · exact absurd hret (not_lt.mpr hle0)
        · have hnotE1 : ∀ b' ∈ (bs.take cfg.maxBackupsPerSection).filter
              (fun b => decide (b.date < w.now - cfg.retentionDays * dayMs)),
              b.path ≠ b'.path := by
            intro b' hb' heq
            obtain ⟨hb't, hb'age⟩ := List.mem_filter.mp hb'
            have hne : b ≠ b' := by
              intro hbe
              rw [hbe, hb'age] at hagef
              exact Bool.noConfusion hagef
            exact List.Pairwise.forall hsym hpwt hb hb't hne heq
          rw [hframe3 b.path hnotE1,
            hframe2 b.path (fun b' hb' => hcross _ hb _ hb')]
      · intro q hq
        rw [hframe3 q (fun b hb => hq b
            (List.mem_of_mem_take (List.mem_of_mem_filter hb))),
          hframe2 q (fun b hb => hq b (List.mem_of_mem_drop hb))]
    · refine ⟨w2, ?_, ?_, ?_, ?_, ?_⟩
      · rw [hcl]
        unfold attempt
        rw [Act.run_bind, hlist]
        dsimp only
        rw [← hbs, if_pos hlen, Act.run_bind, hrun2]
        dsimp only
        rw [if_neg hret]
      · intro b hb
        exact hdel2 b hb
      · intro hret'
        exact absurd hret' hret
      · intro b hb _
        rw [hframe2 b.path (fun b' hb' => hcross _ hb _ hb')]
      · intro q hq
        rw [hframe2 q (fun b hb => hq b (List.mem_of_mem_drop hb))]
  · have hle : bs.length ≤ cfg.maxBackupsPerSection := Nat.le_of_not_lt hlen
    have htake : bs.take cfg.maxBackupsPerSection = bs :=
      List.take_of_length_le hle
    have hdropnil : bs.drop cfg.maxBackupsPerSection = [] :=
      List.drop_eq_nil_of_le hle
    by_cases hret : cfg.retentionDays > 0
    · obtain ⟨r3, w3, hrun3, hdel3, hframe3, hmono3⟩ :=
        unlinkRecords_age_phase bs cfg.maxBackupsPerSection
          (fun b => decide (b.date < w.now - cfg.retentionDays * dayMs))
          { w with tick := k } hf
          (fun b hb => hpres b (List.mem_of_mem_take hb))
          (fun b hb => absurd (hdropnil ▸ hb) (List.not_mem_nil _)) hpw
      refine ⟨w3, ?_, ?_, ?_, ?_, ?_⟩
      · rw [hcl]
        unfold attempt
        rw [Act.run_bind, hlist]
        dsimp only
        rw [← hbs, if_neg hlen, Act.run_bind, Act.run_pure]
        dsimp only
        rw [if_pos hret, Act.run_bind]
        rw [show getNow { w with tick := k } =
          (Except.ok w.now, { w with tick := k }) from rfl]
        dsimp only
        rw [hrun3]
        cases r3 with
        | ok a => rfl
        | error e => rfl
      · intro b hb
        rw [hdropnil] at hb
        exact absurd hb (List.not_mem_nil _)
      · intro _ b hb hage
        exact hdel3 b (List.mem_filter.mpr ⟨by rw [htake]; exact hb, hage⟩)
      · intro b hb hcond
        rcases hcond with hle0 | hagef
        · exact absurd hret (not_lt.mpr hle0)
        · have hnotE1 : ∀ b' ∈ (bs.take cfg.maxBackupsPerSection).filter
              (fun b => decide (b.date < w.now - cfg.retentionDays * dayMs)),
              b.path ≠ b'.path := by
            intro b' hb' heq
            obtain ⟨hb't, hb'age⟩ := List.mem_filter.mp hb'
            have hne : b ≠ b' := by
              intro hbe
              rw [hbe, hb'age] at hagef
              exact Bool.noConfusion hagef
            exact List.Pairwise.forall hsym hpwt hb hb't hne heq
          rw [hframe3 b.path hnotE1]
      · intro q hq
        rw [hframe3 q (fun b hb => hq b
          (List.mem_of_mem_take (List.mem_of_mem_filter hb)))]
    · refine ⟨{ w with tick := k }, ?_, ?_, ?_, ?_, ?_⟩
      · rw [hcl]
        unfold attempt
        rw [Act.run_bind, hlist]
        dsimp only
        rw [← hbs, if_neg hlen, Act.run_bind, Act.run_pure]
        dsimp only
        rw [if_neg hret]
      · intro b hb
        rw [hdropnil] at hb
        exact absurd hb (List.not_mem_nil _)
      · intro hret'
        exact absurd hret' hret
      · intro b _ _
        rfl
      · intro q _
        rfl

theorem claim2_retention_witness :
    ∃ w', cleanupOldBackups ⟨1, 30, true⟩ "a"
        (W.mk [(pathJoin backupDir "a-T1.bak", ⟨Content.text "1", 0⟩),
          (pathJoin backupDir "a-T2.bak", ⟨Content.text "2", 0⟩)]
          [backupDir] [] 0 [] 2592000002) = (Except.ok (), w') ∧
      (∀ b ∈ ([mkRecord "a-T1.bak" 0 1, mkRecord "a-T2.bak" 0 1].drop 1),
        fsGet w'.files b.path = none) ∧
      ((0 : Int) < 30 →
        ∀ b ∈ [mkRecord "a-T1.bak" 0 1, mkRecord "a-T2.bak" 0 1],
        decide (b.date < (2592000002 : Int) - 30 * dayMs) = true →
        fsGet w'.files b.path = none) ∧
      (∀ b ∈ ([mkRecord "a-T1.bak" 0 1, mkRecord "a-T2.bak" 0 1].take 1),
        ((30 : Int) ≤ 0 ∨
          decide (b.date < (2592000002 : Int) - 30 * dayMs) = false) →
        fsGet w'.files b.path = fsGet
          (W.mk [(pathJoin backupDir "a-T1.bak", ⟨Content.text "1", 0⟩),
            (pathJoin backupDir "a-T2.bak", ⟨Content.text "2", 0⟩)]
            [backupDir] [] 0 [] 2592000002).files b.path) ∧
      (∀ q, (∀ b ∈ [mkRecord "a-T1.bak" 0 1, mkRecord "a-T2.bak" 0 1],
          q ≠ b.path) →
        fsGet w'.files q = fsGet
          (W.mk [(pathJoin backupDir "a-T1.bak", ⟨Content.text "1", 0⟩),
            (pathJoin backupDir "a-T2.bak", ⟨Content.text "2", 0⟩)]
            [backupDir] [] 0 [] 2592000002).files q) :=
  claim2_retention ⟨1, 30, true⟩ "a"
    (W.mk [(pathJoin backupDir "a-T1.bak", ⟨Content.text "1", 0⟩),
      (pathJoin backupDir "a-T2.bak", ⟨Content.text "2", 0⟩)]
      [backupDir] [] 0 [] 2592000002)
    [mkRecord "a-T1.bak" 0 1, mkRecord "a-T2.bak" 0 1] 3
    [mkRecord "a-T1.bak" 0 1, mkRecord "a-T2.bak" 0 1]
    rfl rfl rfl (by decide) (by decide)

theorem assocSet_absent (acc : List (String × JVal)) (s : String) (v : JVal)
    (h : jLookup s acc = none) : assocSet acc s v = acc ++ [(s, v)] := by
  induction acc with
  | nil => rfl
  | cons e rest ih =>
    obtain ⟨k', v'⟩ := e
    unfold jLookup at h
    cases hk : (k' == s) with
    | true => rw [hk] at h; simp at h
    | false =>
      rw [hk] at h
      simp only [Bool.false_eq_true, if_false] at h
      unfold assocSet
      rw [hk]
      simp only [Bool.false_eq_true, if_false, List.cons_append]
      rw [ih h]

theorem jLookup_append_absent (acc : List (String × JVal)) (s s' : String)
    (v : JVal) (h : jLookup s acc = none) (hne : s' ≠ s) :
    jLookup s (acc ++ [(s', v)]) = none := by
  induction acc with
  | nil =>
    unfold jLookup
    dsimp only [List.nil_append]
    rw [beq_false_of_ne hne]
    rfl
  | cons e rest ih =>
    obtain ⟨k', v'⟩ := e
    unfold jLookup at h ⊢
    cases hk : (k' == s) with
    | true => rw [hk] at h; simp at h
    | false =>
      rw [hk] at h
      simp only [Bool.false_eq_true, if_false] at h
      simp only [List.cons_append, hk, Bool.false_eq_true, if_false]
      exact ih h

theorem captureSections_ok (names : List String) : ∀ (acc : List (String × JVal))
    (w : W), w.faults = [] →
    (∀ s ∈ names, ∃ c t', fsGet w.files (pathJoin sectionsDir (s ++ ".txt")) =
      some ⟨Content.text c, t'⟩) →
    names.Pairwise (fun a b => a ≠ b) →
    (∀ s ∈ names, jLookup s acc = none) →
    ∃ k, captureSections names acc w =
      (Except.ok (acc ++ names.map (fun s =>
        (s, match fsGet w.files (pathJoin sectionsDir (s ++ ".txt")) with
          | some f => JVal.str f.content.utf8
          | none => JVal.str ""))), { w with tick := k }) := by
  induction names with
  | nil =>
    intro acc w _ _ _ _
    refine ⟨w.tick, ?_⟩
    show (Except.ok acc, w) = _
    rw [List.map_nil, List.append_nil]
  | cons s rest ih =>
    intro acc w hf hcont hpw hfresh
    rw [List.pairwise_cons] at hpw
    obtain ⟨hhd, hpwr⟩ := hpw
    obtain ⟨c, t', hgf⟩ := hcont s (List.mem_cons_self _ _)
    have hstep : captureSections (s :: rest) acc w =
        (existsSync (pathJoin sectionsDir (s ++ ".txt")) >>= fun ex =>
          if ex then
            (readFileSync (pathJoin sectionsDir (s ++ ".txt")) >>= fun c =>
              captureSections rest (assocSet acc s (JVal.str c.utf8)))
          else captureSections rest acc) w := rfl
    have hex : ((fsGet w.files (pathJoin sectionsDir (s ++ ".txt"))).isSome ||
        w.dirs.contains (pathJoin sectionsDir (s ++ ".txt"))) = true := by
      rw [hgf]
      rfl
    have hrd : readFileSync (pathJoin sectionsDir (s ++ ".txt")) w =
        (Except.ok (Content.text c), { w with tick := w.tick + 1 }) := by
      unfold readFileSync
      rw [fallible_run_nofault _ _ hf]
      simp [hgf]
    have hacc : assocSet acc s (JVal.str (Content.text c).utf8) =
        acc ++ [(s, JVal.str c)] :=
      assocSet_absent acc s _ (hfresh s (List.mem_cons_self _ _))
    obtain ⟨k, hk⟩ := ih (acc ++ [(s, JVal.str c)]) { w with tick := w.tick + 1 }
      hf
      (fun s' hs' => hcont s' (List.mem_cons_of_mem _ hs'))
      hpwr
      (fun s' hs' => jLookup_append_absent acc s' s (JVal.str c)
        (hfresh s' (List.mem_cons_of_mem _ hs'))
        (hhd s' hs'))
    refine ⟨k, ?_⟩
    rw [hstep, Act.run_bind, existsSync_run]
    dsimp only
    rw [if_pos hex]
    rw [Act.run_bind, hrd]
    dsimp only
    rw [hacc, hk]
    rw [List.map_cons, hgf]
    dsimp only
    simp only [List.append_assoc, List.nil_append, List.cons_append,
      List.append_nil, Content.utf8]

theorem cleanupOldFullBackups_noop (cfg : BackupConfig) (w : W)
    (rs : List BackupRecord) (k : Nat)
    (hlist : listAllBackups w = (Except.ok rs, { w with tick := k }))
    (hlen : (((rs.filter (fun b => b.isFull)) ++
        (rs.filter (fun b => !b.isFull))).filter (fun b => b.isFull)).length ≤
      cfg.maxBackupsPerSection)
    (hexp : 0 < cfg.retentionDays →
      ((((rs.filter (fun b => b.isFull)) ++
        (rs.filter (fun b => !b.isFull))).filter (fun b => b.isFull)).filter
        (fun b => decide (b.date < w.now - cfg.retentionDays * dayMs))) = []) :
    cleanupOldFullBackups cfg w = (Except.ok (), { w with tick := k }) := by
  have hcl : cleanupOldFullBackups cfg w = (attempt ((listAllBackups >>=
      fun all =>
      (pure ((all.filter (fun b => b.isFull)) ++
        (all.filter (fun b => !b.isFull))) : Act (List BackupRecord))) >>=
      fun bs =>
      (if (bs.filter (fun b => b.isFull)).length > cfg.maxBackupsPerSection then
        unlinkRecords ((bs.filter (fun b => b.isFull)).drop
          cfg.maxBackupsPerSection)
      else pure ()) >>= fun _ =>
      (if cfg.retentionDays > 0 then
        (getNow >>= fun now =>
          unlinkRecords ((bs.filter (fun b => b.isFull)).filter
            (fun b => decide (b.date < now - cfg.retentionDays * dayMs))))
      else pure ())) ()) w := rfl
  have hlb : (listAllBackups >>= fun all =>
      (pure ((all.filter (fun b => b.isFull)) ++
        (all.filter (fun b => !b.isFull))) : Act (List BackupRecord))) w =
      (Except.ok ((rs.filter (fun b => b.isFull)) ++
        (rs.filter (fun b => !b.isFull))), { w with tick := k }) := by
    rw [Act.run_bind, hlist]
    rfl
  rw [hcl]
  unfold attempt
  rw [Act.run_bind, hlb]
  dsimp only
  rw [if_neg (Nat.not_lt.mpr hlen)]
  rw [Act.run_bind, Act.run_pure]
  dsimp only
  by_cases hret : cfg.retentionDays > 0
  · rw [if_pos hret]
    rw [Act.run_bind]
    have hgn : getNow { w with tick := k } =
        (Except.ok w.now, { w with tick := k }) := rfl
    rw [hgn]
    dsimp only
    rw [hexp hret]
    rfl
  · rw [if_neg hret]

theorem cleanupFull_after_fresh_write (cfg : BackupConfig)
    (nm : String) (F : FsFile) (w w1 : W)
    (hbd : w.dirs.contains backupDir = true)
    (hmax : 1 ≤ cfg.maxBackupsPerSection)
    (hnb : ∀ e ∈ w.files, strStartsWith e.1 (backupDir ++ "/") = false)
    (hsl : nm.data.contains '/' = false)
    (hmt : F.mtime = w.now)
    (hfiles1 : w1.files = fsSet w.files (pathJoin backupDir nm) F)
    (hdirs1 : w1.dirs = w.dirs)
    (hf1 : w1.faults = [])
    (hnow1 : w1.now = w.now) :
    ∃ k, cleanupOldFullBackups cfg w1 = (Except.ok (), { w1 with tick := k }) := by
  have hget0 : fsGet w.files (pathJoin backupDir nm) = none :=
    fsGet_none_of_no_pre _ _ _ hnb (strStartsWith_append_self (backupDir ++ "/") nm)
  have happ : w1.files = w.files ++ [(pathJoin backupDir nm, F)] := by
    rw [hfiles1, fsSet_absent _ _ _ hget0]
  have hbd1 : w1.dirs.contains backupDir = true := by rw [hdirs1]; exact hbd
  obtain ⟨k, hlist⟩ := listAllBackups_ok w1 hf1 hbd1
  have hnames : w1.files.filterMap (fun e => childNameOf backupDir e.1) = [nm] := by
    rw [happ, List.filterMap_append]
    have h1 : w.files.filterMap (fun e => childNameOf backupDir e.1) = [] :=
      List.filterMap_eq_nil.mpr (fun e he => childNameOf_none _ _ (hnb e he))
    rw [h1]
    simp [List.filterMap_cons, childNameOf_pathJoin _ _ hsl]
  have hgart : fsGet w1.files (pathJoin backupDir nm) = some F := by
    rw [hfiles1]
    exact fsGet_fsSet_self _ _ _
  rw [hnames] at hlist
  have hrs : (([nm] : List String).map
      (fun n => match fsGet w1.files (pathJoin backupDir n) with
        | some f => mkRecord n f.mtime f.content.byteSize
        | none => mkRecord n 0 0)) =
      [mkRecord nm F.mtime F.content.byteSize] := by
    rw [List.map_cons, hgart]
    rfl
  rw [hrs] at hlist
  refine ⟨k, cleanupOldFullBackups_noop cfg w1 _ k hlist ?_ ?_⟩
  · cases hfu : (mkRecord nm F.mtime F.content.byteSize).isFull with
    | true =>
      simp only [List.filter, hfu, Bool.not_true, List.filter_nil,
        List.append_nil, List.length_cons, List.length_nil]
      exact hmax
    | false =>
      simp only [List.filter, hfu, Bool.not_false, List.filter_nil,
        List.nil_append, List.length_cons, List.length_nil]
      exact Nat.zero_le _
  · intro hret
    apply List.filter_eq_nil.mpr
    intro b hb
    have hbm : b ∈ ([mkRecord nm F.mtime F.content.byteSize].filter
        (fun b => b.isFull)) ++
        ([mkRecord nm F.mtime F.content.byteSize].filter
        (fun b => !b.isFull)) := List.mem_of_mem_filter hb
    have hbm2 : b ∈ [mkRecord nm F.mtime F.content.byteSize] := by
      rcases List.mem_append.mp hbm with h | h
      · exact List.mem_of_mem_filter h
      · exact List.mem_of_mem_filter h
    have hbe : b = mkRecord nm F.mtime F.content.byteSize :=
      List.mem_singleton.mp hbm2
    have hdate : b.date = w1.now := by
      rw [hbe, hnow1, ← hmt]
      unfold mkRecord
      cases hsw : strStartsWith nm fullBackupMark with
      | true => simp
      | false => simp
    simp only [hdate]
    intro hc
    have hc2 : w1.now < w1.now - cfg.retentionDays * dayMs := of_decide_eq_true hc
    unfold dayMs at hc2
    omega



theorem createFullBackup_fresh (cfg : BackupConfig) (iso ts : String)
    (w : W) (names : List String) (k1 : Nat) (meta0 : JVal)
    (hf : w.faults = [])
    (hbd : w.dirs.contains backupDir = true)
    (hsd : getSections w = (Except.ok names, { w with tick := k1 }))
    (hcont : ∀ s ∈ names, ∃ c t',
      fsGet w.files (pathJoin sectionsDir (s ++ ".txt")) =
        some ⟨Content.text c, t'⟩)
    (hpwn : names.Pairwise (fun a b => a ≠ b))
    (hmeta : (fsGet w.files metadataFile = none ∧
        w.dirs.contains metadataFile = false ∧ meta0 = JVal.obj []) ∨
      (∃ tM, fsGet w.files metadataFile = some ⟨Content.json meta0, tM⟩))
    (hnb : ∀ e ∈ w.files, strStartsWith e.1 (backupDir ++ "/") = false)
    (hmax : 1 ≤ cfg.maxBackupsPerSection)
    (hsl : ((fullBackupMark ++ ts ++ backupExtension) ++ ".gz").data.contains '/' = false)
    (hcmp : cfg.useCompression = true) :
    ∃ k, createFullBackup cfg iso ts w =
      (Except.ok (some (pathJoin backupDir (fullBackupMark ++ ts ++ backupExtension) ++ ".gz")),
        { w with
          files := (fsSet w.files
            (pathJoin backupDir (fullBackupMark ++ ts ++ backupExtension) ++ ".gz")
            ⟨Content.gz (Content.json (JVal.obj [("timestamp", JVal.str iso),
              ("metadata", meta0),
              ("sections", JVal.obj (names.map (fun s =>
                (s, match fsGet w.files (pathJoin sectionsDir (s ++ ".txt")) with
                  | some f => JVal.str f.content.utf8
                  | none => JVal.str ""))))])), w.now⟩),
          events := (FsEvent.write
            (pathJoin backupDir (fullBackupMark ++ ts ++ backupExtension) ++ ".gz")
            (Content.gz (Content.json (JVal.obj [("timestamp", JVal.str iso),
              ("metadata", meta0),
              ("sections", JVal.obj (names.map (fun s =>
                (s, match fsGet w.files (pathJoin sectionsDir (s ++ ".txt")) with
                  | some f => JVal.str f.content.utf8
                  | none => JVal.str ""))))]))) :: w.events),
          tick := k }) := by
  have hbs : createFullBackup cfg iso ts w = (attempt (existsSync backupDir >>=
      fun ex =>
      if !ex then
        (mkdirSync backupDir >>= fun _ =>
          (getSections >>= fun sections =>
          existsSync metadataFile >>= fun exm =>
          (if exm then
            (readFileSync metadataFile >>= fun mc =>
              jsonParse mc >>= fun meta =>
              captureSections sections [] >>= fun secPairs =>
            (if cfg.useCompression then
              (writeFileSync (pathJoin backupDir (fullBackupMark ++ ts ++ backupExtension) ++ ".gz")
                (gzipSync (Content.json (JVal.obj [("timestamp", JVal.str iso),
                  ("metadata", meta), ("sections", JVal.obj secPairs)]))) >>=
                fun _ =>
                cleanupOldFullBackups cfg >>= fun _ =>
                pure (some (pathJoin backupDir (fullBackupMark ++ ts ++ backupExtension) ++ ".gz")))
            else
              (writeFileSync (pathJoin backupDir (fullBackupMark ++ ts ++ backupExtension))
                (Content.json (JVal.obj [("timestamp", JVal.str iso),
                  ("metadata", meta), ("sections", JVal.obj secPairs)])) >>=
                fun _ =>
                cleanupOldFullBackups cfg >>= fun _ =>
                pure (some (pathJoin backupDir (fullBackupMark ++ ts ++ backupExtension))))))
          else
            (pure (JVal.obj []) >>= fun meta =>
              captureSections sections [] >>= fun secPairs =>
            (if cfg.useCompression then
              (writeFileSync (pathJoin backupDir (fullBackupMark ++ ts ++ backupExtension) ++ ".gz")
                (gzipSync (Content.json (JVal.obj [("timestamp", JVal.str iso),
                  ("metadata", meta), ("sections", JVal.obj secPairs)]))) >>=
                fun _ =>
                cleanupOldFullBackups cfg >>= fun _ =>
                pure (some (pathJoin backupDir (fullBackupMark ++ ts ++ backupExtension) ++ ".gz")))
            else
              (writeFileSync (pathJoin backupDir (fullBackupMark ++ ts ++ backupExtension))
                (Content.json (JVal.obj [("timestamp", JVal.str iso),
                  ("metadata", meta), ("sections", JVal.obj secPairs)])) >>=
                fun _ =>
                cleanupOldFullBackups cfg >>= fun _ =>
                pure (some (pathJoin backupDir (fullBackupMark ++ ts ++ backupExtension)))))))))
      else
        (pure PUnit.unit >>= fun _ =>
          (getSections >>= fun sections =>
          existsSync metadataFile >>= fun exm =>
          (if exm then
            (readFileSync metadataFile >>= fun mc =>
              jsonParse mc >>= fun meta =>
              captureSections sections [] >>= fun secPairs =>
            (if cfg.useCompression then
              (writeFileSync (pathJoin backupDir (fullBackupMark ++ ts ++ backupExtension) ++ ".gz")
                (gzipSync (Content.json (JVal.obj [("timestamp", JVal.str iso),
                  ("metadata", meta), ("sections", JVal.obj secPairs)]))) >>=
                fun _ =>
                cleanupOldFullBackups cfg >>= fun _ =>
                pure (some (pathJoin backupDir (fullBackupMark ++ ts ++ backupExtension) ++ ".gz")))
            else
              (writeFileSync (pathJoin backupDir (fullBackupMark ++ ts ++ backupExtension))
                (Content.json (JVal.obj [("timestamp", JVal.str iso),
                  ("metadata", meta), ("sections", JVal.obj secPairs)])) >>=
                fun _ =>
                cleanupOldFullBackups cfg >>= fun _ =>
                pure (some (pathJoin backupDir (fullBackupMark ++ ts ++ backupExtension))))))
          else
            (pure (JVal.obj []) >>= fun meta =>
              captureSections sections [] >>= fun secPairs =>
            (if cfg.useCompression then
              (writeFileSync (pathJoin backupDir (fullBackupMark ++ ts ++ backupExtension) ++ ".gz")
                (gzipSync (Content.json (JVal.obj [("timestamp", JVal.str iso),
                  ("metadata", meta), ("sections", JVal.obj secPairs)]))) >>=
                fun _ =>
                cleanupOldFullBackups cfg >>= fun _ =>
                pure (some (pathJoin backupDir (fullBackupMark ++ ts ++ backupExtension) ++ ".gz")))
            else
              (writeFileSync (pathJoin backupDir (fullBackupMark ++ ts ++ backupExtension))
                (Content.json (JVal.obj [("timestamp", JVal.str iso),
                  ("metadata", meta), ("sections", JVal.obj secPairs)])) >>=
                fun _ =>
                cleanupOldFullBackups cfg >>= fun _ =>
                pure (some (pathJoin backupDir (fullBackupMark ++ ts ++ backupExtension)))))))))) none) w := rfl
  have hex : ((fsGet w.files backupDir).isSome || w.dirs.contains backupDir) =
      true := by rw [hbd, Bool.or_true]
  rcases hmeta with ⟨hmd1, hmd2, hmd3⟩ | ⟨tM, hmdp⟩
  · subst hmd3
    obtain ⟨k2, hcap⟩ := captureSections_ok names [] { w with tick := k1 } hf
      hcont hpwn (fun _ _ => rfl)
    rw [List.nil_append] at hcap
    dsimp only at hcap
    have hexm : ((fsGet ({ w with tick := k1 } : W).files metadataFile).isSome ||
        ({ w with tick := k1 } : W).dirs.contains metadataFile) = false := by
      show ((fsGet w.files metadataFile).isSome ||
        w.dirs.contains metadataFile) = false
      rw [hmd1, hmd2]
      rfl
    have hwr : writeFileSync (pathJoin backupDir (fullBackupMark ++ ts ++ backupExtension) ++ ".gz")
        (gzipSync (Content.json (JVal.obj [("timestamp", JVal.str iso),
              ("metadata", JVal.obj []),
              ("sections", JVal.obj (names.map (fun s =>
                (s, match fsGet w.files (pathJoin sectionsDir (s ++ ".txt")) with
                  | some f => JVal.str f.content.utf8
                  | none => JVal.str ""))))]))) { w with tick := k2 } =
        (Except.ok (), { w with
          files := (fsSet w.files
            (pathJoin backupDir (fullBackupMark ++ ts ++ backupExtension) ++ ".gz")
            ⟨Content.gz (Content.json (JVal.obj [("timestamp", JVal.str iso),
              ("metadata", JVal.obj []),
              ("sections", JVal.obj (names.map (fun s =>
                (s, match fsGet w.files (pathJoin sectionsDir (s ++ ".txt")) with
                  | some f => JVal.str f.content.utf8
                  | none => JVal.str ""))))])), w.now⟩),
          events := (FsEvent.write
            (pathJoin backupDir (fullBackupMark ++ ts ++ backupExtension) ++ ".gz")
            (Content.gz (Content.json (JVal.obj [("timestamp", JVal.str iso),
              ("metadata", JVal.obj []),
              ("sections", JVal.obj (names.map (fun s =>
                (s, match fsGet w.files (pathJoin sectionsDir (s ++ ".txt")) with
                  | some f => JVal.str f.content.utf8
                  | none => JVal.str ""))))]))) :: w.events),
          tick := k2 + 1 }) := by
      rw [writeFileSync_run _ _ ({ w with tick := k2 }) hf]
      rfl
    obtain ⟨k3, hcl⟩ := cleanupFull_after_fresh_write cfg
      ((fullBackupMark ++ ts ++ backupExtension) ++ ".gz")
      ⟨Content.gz (Content.json (JVal.obj [("timestamp", JVal.str iso),
              ("metadata", JVal.obj []),
              ("sections", JVal.obj (names.map (fun s =>
                (s, match fsGet w.files (pathJoin sectionsDir (s ++ ".txt")) with
                  | some f => JVal.str f.content.utf8
                  | none => JVal.str ""))))])), w.now⟩ w
      ({ w with
          files := (fsSet w.files
            (pathJoin backupDir (fullBackupMark ++ ts ++ backupExtension) ++ ".gz")
            ⟨Content.gz (Content.json (JVal.obj [("timestamp", JVal.str iso),
              ("metadata", JVal.obj []),
              ("sections", JVal.obj (names.map (fun s =>
                (s, match fsGet w.files (pathJoin sectionsDir (s ++ ".txt")) with
                  | some f => JVal.str f.content.utf8
                  | none => JVal.str ""))))])), w.now⟩),
          events := (FsEvent.write
            (pathJoin backupDir (fullBackupMark ++ ts ++ backupExtension) ++ ".gz")
            (Content.gz (Content.json (JVal.obj [("timestamp", JVal.str iso),
              ("metadata", JVal.obj []),
              ("sections", JVal.obj (names.map (fun s =>
                (s, match fsGet w.files (pathJoin sectionsDir (s ++ ".txt")) with
                  | some f => JVal.str f.content.utf8
                  | none => JVal.str ""))))]))) :: w.events),
          tick := k2 + 1 })
      hbd hmax hnb hsl rfl (by rw [pathJoin_gz]) rfl hf rfl
    refine ⟨k3, ?_⟩
    rw [hbs]
    unfold attempt
    rw [Act.run_bind, existsSync_run]
    simp only [hex, Bool.not_true, Bool.false_eq_true, if_false]
    rw [Act.run_bind, Act.run_pure]
    dsimp only
    rw [Act.run_bind, hsd]
    dsimp only
    rw [Act.run_bind, existsSync_run]
    dsimp only
    rw [hexm]
    simp only [Bool.false_eq_true, if_false]
    rw [Act.run_bind, Act.run_pure]
    dsimp only
    rw [Act.run_bind, hcap]
    dsimp only
    simp only [hcmp, if_true]
    rw [Act.run_bind, hwr]
    dsimp only
    rw [Act.run_bind, hcl]
  ·
    obtain ⟨k2, hcap⟩ := captureSections_ok names [] { w with tick := k1 + 1 } hf
      hcont hpwn (fun _ _ => rfl)
    rw [List.nil_append] at hcap
    dsimp only at hcap
    have hexm : ((fsGet ({ w with tick := k1 } : W).files metadataFile).isSome ||
        ({ w with tick := k1 } : W).dirs.contains metadataFile) = true := by
      show ((fsGet w.files metadataFile).isSome ||
        w.dirs.contains metadataFile) = true
      rw [hmdp]
      rfl
    have hrdm : readFileSync metadataFile { w with tick := k1 } =
        (Except.ok (Content.json meta0), { w with tick := k1 + 1 }) := by
      unfold readFileSync
      rw [fallible_run_nofault _ ({ w with tick := k1 }) hf]
      simp [hmdp]
    have hwr : writeFileSync (pathJoin backupDir (fullBackupMark ++ ts ++ backupExtension) ++ ".gz")
        (gzipSync (Content.json (JVal.obj [("timestamp", JVal.str iso),
              ("metadata", meta0),
              ("sections", JVal.obj (names.map (fun s =>
                (s, match fsGet w.files (pathJoin sectionsDir (s ++ ".txt")) with
                  | some f => JVal.str f.content.utf8
                  | none => JVal.str ""))))]))) { w with tick := k2 } =
        (Except.ok (), { w with
          files := (fsSet w.files
            (pathJoin backupDir (fullBackupMark ++ ts ++ backupExtension) ++ ".gz")
            ⟨Content.gz (Content.json (JVal.obj [("timestamp", JVal.str iso),
              ("metadata", meta0),
              ("sections", JVal.obj (names.map (fun s =>
                (s, match fsGet w.files (pathJoin sectionsDir (s ++ ".txt")) with
                  | some f => JVal.str f.content.utf8
                  | none => JVal.str ""))))])), w.now⟩),
          events := (FsEvent.write
            (pathJoin backupDir (fullBackupMark ++ ts ++ backupExtension) ++ ".gz")
            (Content.gz (Content.json (JVal.obj [("timestamp", JVal.str iso),
              ("metadata", meta0),
              ("sections", JVal.obj (names.map (fun s =>
                (s, match fsGet w.files (pathJoin sectionsDir (s ++ ".txt")) with
                  | some f => JVal.str f.content.utf8
                  | none => JVal.str ""))))]))) :: w.events),
          tick := k2 + 1 }) := by
      rw [writeFileSync_run _ _ ({ w with tick := k2 }) hf]
      rfl
    obtain ⟨k3, hcl⟩ := cleanupFull_after_fresh_write cfg
      ((fullBackupMark ++ ts ++ backupExtension) ++ ".gz")
      ⟨Content.gz (Content.json (JVal.obj [("timestamp", JVal.str iso),
              ("metadata", meta0),
              ("sections", JVal.obj (names.map (fun s =>
                (s, match fsGet w.files (pathJoin sectionsDir (s ++ ".txt")) with
                  | some f => JVal.str f.content.utf8
                  | none => JVal.str ""))))])), w.now⟩ w
      ({ w with
          files := (fsSet w.files
            (pathJoin backupDir (fullBackupMark ++ ts ++ backupExtension) ++ ".gz")
            ⟨Content.gz (Content.json (JVal.obj [("timestamp", JVal.str iso),
              ("metadata", meta0),
              ("sections", JVal.obj (names.map (fun s =>
                (s, match fsGet w.files (pathJoin sectionsDir (s ++ ".txt")) with
                  | some f => JVal.str f.content.utf8
                  | none => JVal.str ""))))])), w.now⟩),
          events := (FsEvent.write
            (pathJoin backupDir (fullBackupMark ++ ts ++ backupExtension) ++ ".gz")
            (Content.gz (Content.json (JVal.obj [("timestamp", JVal.str iso),
              ("metadata", meta0),
              ("sections", JVal.obj (names.map (fun s =>
                (s, match fsGet w.files (pathJoin sectionsDir (s ++ ".txt")) with
                  | some f => JVal.str f.content.utf8
                  | none => JVal.str ""))))]))) :: w.events),
          tick := k2 + 1 })
      hbd hmax hnb hsl rfl (by rw [pathJoin_gz]) rfl hf rfl
    refine ⟨k3, ?_⟩
    rw [hbs]
    unfold attempt
    rw [Act.run_bind, existsSync_run]
    simp only [hex, Bool.not_true, Bool.false_eq_true, if_false]
    rw [Act.run_bind, Act.run_pure]
    dsimp only
    rw [Act.run_bind, hsd]
    dsimp only
    rw [Act.run_bind, existsSync_run]
    dsimp only
    rw [hexm]
    simp only [if_true]
    rw [Act.run_bind, hrdm]
    dsimp only [jsonParse]
    rw [Act.run_bind, Act.run_pure]
    dsimp only
    rw [Act.run_bind, hcap]
    dsimp only
    simp only [hcmp, if_true]
    rw [Act.run_bind, hwr]
    dsimp only
    rw [Act.run_bind, hcl]

theorem restoreFullBackup_full_run (iso : String) (meta0 : JVal)
    (entries : List (String × JVal)) (w : W)
    (hf : w.faults = []) (hd : w.dirs.contains sectionsDir = true)
    (hstr : ∀ e ∈ entries, ∃ s, e.2 = JVal.str s)
    (hpw : entries.Pairwise (fun a b => a.1 ≠ b.1))
    (htr : jTruthy meta0 = true) :
    ∃ wR, restoreFullBackup (JVal.obj [("timestamp", JVal.str iso),
        ("metadata", meta0), ("sections", JVal.obj entries)]) true w =
      (Except.ok true, wR) ∧
      fsGet wR.files metadataFile = some ⟨Content.json meta0, w.now⟩ ∧
      (∀ e ∈ entries, ∀ s, e.2 = JVal.str s →
        fsGet wR.files (pathJoin sectionsDir (e.1 ++ ".txt")) =
          some ⟨Content.text s, w.now⟩) ∧
      (∀ q, (∀ e ∈ entries, q ≠ pathJoin sectionsDir (e.1 ++ ".txt")) →
        q ≠ metadataFile → fsGet wR.files q = fsGet w.files q) := by
  have hbs : restoreFullBackup (JVal.obj [("timestamp", JVal.str iso),
      ("metadata", meta0), ("sections", JVal.obj entries)]) true w =
      (attempt (existsSync sectionsDir >>= fun exd =>
        if !exd then
          (mkdirSync sectionsDir >>= fun _ =>
            ((if jTruthy meta0 then
              (existsSync metadataFile >>= fun _ =>
                writeFileSync metadataFile (Content.json meta0))
            else pure ()) >>= fun _ =>
            (pure entries : Act (List (String × JVal))) >>= fun ents =>
            restoreSectionsLoop true ents 0 >>= fun successCount =>
            emitEvent (FsEvent.report successCount ents.length) >>= fun _ =>
            pure true))
        else
          (pure PUnit.unit >>= fun _ =>
            ((if jTruthy meta0 then
              (existsSync metadataFile >>= fun _ =>
                writeFileSync metadataFile (Content.json meta0))
            else pure ()) >>= fun _ =>
            (pure entries : Act (List (String × JVal))) >>= fun ents =>
            restoreSectionsLoop true ents 0 >>= fun successCount =>
            emitEvent (FsEvent.report successCount ents.length) >>= fun _ =>
            pure true))) false) w := rfl
  have hexd : ((fsGet w.files sectionsDir).isSome ||
      w.dirs.contains sectionsDir) = true := by rw [hd, Bool.or_true]
  have hwrM : writeFileSync metadataFile (Content.json meta0) w =
      (Except.ok (), { w with
        files := (fsSet w.files metadataFile ⟨Content.json meta0, w.now⟩),
        events := (FsEvent.write metadataFile (Content.json meta0) :: w.events),
        tick := w.tick + 1 }) := by
    rw [writeFileSync_run _ _ _ hf]
  obtain ⟨w1, hrun1, hfa1, hdirs1, hnow1, ⟨new1, hev1⟩, hframe1, hper1⟩ :=
    restoreSectionsLoop_run true entries 0 ({ w with
      files := (fsSet w.files metadataFile ⟨Content.json meta0, w.now⟩),
      events := (FsEvent.write metadataFile (Content.json meta0) :: w.events),
      tick := w.tick + 1 }) hf hstr hpw
  refine ⟨{ w1 with events := (FsEvent.report (0 + entries.countP (fun e =>
      true || !((fsGet ({ w with
        files := (fsSet w.files metadataFile ⟨Content.json meta0, w.now⟩),
        events := (FsEvent.write metadataFile (Content.json meta0) :: w.events),
        tick := w.tick + 1 } : W).files
          (pathJoin sectionsDir (e.1 ++ ".txt"))).isSome ||
        ({ w with
        files := (fsSet w.files metadataFile ⟨Content.json meta0, w.now⟩),
        events := (FsEvent.write metadataFile (Content.json meta0) :: w.events),
        tick := w.tick + 1 } : W).dirs.contains
          (pathJoin sectionsDir (e.1 ++ ".txt")))))
      entries.length :: w1.events) }, ?_, ?_, ?_, ?_⟩
  · rw [hbs]
    unfold attempt
    rw [Act.run_bind, existsSync_run]
    simp only [hexd, Bool.not_true, Bool.false_eq_true, if_false]
    rw [Act.run_bind, Act.run_pure]
    dsimp only
    rw [if_pos htr]
    rw [Act.run_bind]
    rw [show (existsSync metadataFile >>= fun _ =>
        writeFileSync metadataFile (Content.json meta0)) w =
      (Except.ok (), { w with
        files := (fsSet w.files metadataFile ⟨Content.json meta0, w.now⟩),
        events := (FsEvent.write metadataFile (Content.json meta0) :: w.events),
        tick := w.tick + 1 }) from by
        rw [Act.run_bind, existsSync_run]
        dsimp only
        rw [hwrM]]
    dsimp only
    rw [Act.run_bind, Act.run_pure]
    dsimp only
    rw [Act.run_bind, hrun1]
    dsimp only
    rw [Act.run_bind, emitEvent_run]
  · have hq : ∀ e ∈ entries, metadataFile ≠
        pathJoin sectionsDir (e.1 ++ ".txt") :=
      fun e _ => Ne.symm (logPath_ne_metadata e.1)
    show fsGet w1.files metadataFile = some ⟨Content.json meta0, w.now⟩
    rw [hframe1 metadataFile hq]
    exact fsGet_fsSet_self _ _ _
  · intro e he s hs
    have hcond := (hper1 e he s hs).1 (by simp)
    exact hcond
  · intro q hq hqm
    show fsGet w1.files q = fsGet w.files q
    rw [hframe1 q hq]
    exact fsGet_fsSet_ne _ _ _ _ hqm

/-- C3: starting from a state whose sections directory lists the section
names, whose every listed section's log file holds text content, with
fault-free I/O, no prior files under the backup directory, a retention
limit of at least one, compression on (the default configuration), and a
truthy snapshot metadata value `meta0` — the parsed sidecar when present,
the empty object when the sidecar is missing (captured without error) —
`createFullBackup` returns the artifact path, and `restoreFromBackup` of
that path with no section argument and `overwrite=true` succeeds, rewrites
every snapshotted section's file to exactly its content at snapshot time,
rewrites the metadata sidecar to exactly the snapshot metadata, and deletes
nothing: every path other than the snapshotted sections' files, the
sidecar, and the artifact itself is untouched. -/
theorem claim3_full_roundtrip (cfg : BackupConfig) (iso ts : String)
    (w : W) (names : List String) (k1 : Nat) (meta0 : JVal)
    (hf : w.faults = [])
    (hbd : w.dirs.contains backupDir = true)
    (hd : w.dirs.contains sectionsDir = true)
    (hsd : getSections w = (Except.ok names, { w with tick := k1 }))
    (hcont : ∀ s ∈ names, ∃ c t',
      fsGet w.files (pathJoin sectionsDir (s ++ ".txt")) =
        some ⟨Content.text c, t'⟩)
    (hpwn : names.Pairwise (fun a b => a ≠ b))
    (hmeta : (fsGet w.files metadataFile = none ∧
        w.dirs.contains metadataFile = false ∧ meta0 = JVal.obj []) ∨
      (∃ tM, fsGet w.files metadataFile = some ⟨Content.json meta0, tM⟩))
    (htr : jTruthy meta0 = true)
    (hnb : ∀ e ∈ w.files, strStartsWith e.1 (backupDir ++ "/") = false)
    (hmax : 1 ≤ cfg.maxBackupsPerSection)
    (hsl : ((fullBackupMark ++ ts ++ backupExtension) ++ ".gz").data.contains '/' = false)
    (hcmp : cfg.useCompression = true) :
    ∃ ap wB wR,
      createFullBackup cfg iso ts w = (Except.ok (some ap), wB) ∧
      restoreFromBackup ap none true wB = (Except.ok true, wR) ∧
      (∀ s ∈ names, ∀ c t',
        fsGet w.files (pathJoin sectionsDir (s ++ ".txt")) =
          some ⟨Content.text c, t'⟩ →
        fsGet wR.files (pathJoin sectionsDir (s ++ ".txt")) =
          some ⟨Content.text c, w.now⟩) ∧
      fsGet wR.files metadataFile = some ⟨Content.json meta0, w.now⟩ ∧
      (∀ q, (∀ s ∈ names, q ≠ pathJoin sectionsDir (s ++ ".txt")) →
        q ≠ metadataFile → q ≠ ap → fsGet wR.files q = fsGet w.files q) := by
  obtain ⟨k, hbk⟩ := createFullBackup_fresh cfg iso ts w names k1 meta0 hf hbd
    hsd hcont hpwn hmeta hnb hmax hsl hcmp
  have hstrE : ∀ e ∈ (names.map (fun s =>
                (s, match fsGet w.files (pathJoin sectionsDir (s ++ ".txt")) with
                  | some f => JVal.str f.content.utf8
                  | none => JVal.str ""))), ∃ s, e.2 = JVal.str s := by
    intro e he
    obtain ⟨s, _, hes⟩ := List.mem_map.mp he
    cases hg : fsGet w.files (pathJoin sectionsDir (s ++ ".txt")) with
    | some f =>
      rw [← hes, hg]
      exact ⟨f.content.utf8, rfl⟩
    | none =>
      rw [← hes, hg]
      exact ⟨"", rfl⟩
  have hpwE : ((names.map (fun s =>
                (s, match fsGet w.files (pathJoin sectionsDir (s ++ ".txt")) with
                  | some f => JVal.str f.content.utf8
                  | none => JVal.str ""))) : List (String × JVal)).Pairwise
      (fun a b => a.1 ≠ b.1) := by
    rw [List.pairwise_map]
    exact hpwn
  obtain ⟨wR, hrest, hmdR, hsecR, hframeR⟩ :=
    restoreFullBackup_full_run iso meta0 (names.map (fun s =>
                (s, match fsGet w.files (pathJoin sectionsDir (s ++ ".txt")) with
                  | some f => JVal.str f.content.utf8
                  | none => JVal.str "")))
      ({ w with
          files := (fsSet w.files
            (pathJoin backupDir (fullBackupMark ++ ts ++ backupExtension) ++ ".gz")
            ⟨Content.gz (Content.json (JVal.obj [("timestamp", JVal.str iso),
              ("metadata", meta0),
              ("sections", JVal.obj (names.map (fun s =>
                (s, match fsGet w.files (pathJoin sectionsDir (s ++ ".txt")) with
                  | some f => JVal.str f.content.utf8
                  | none => JVal.str ""))))])), w.now⟩),
          events := (FsEvent.write
            (pathJoin backupDir (fullBackupMark ++ ts ++ backupExtension) ++ ".gz")
            (Content.gz (Content.json (JVal.obj [("timestamp", JVal.str iso),
              ("metadata", meta0),
              ("sections", JVal.obj (names.map (fun s =>
                (s, match fsGet w.files (pathJoin sectionsDir (s ++ ".txt")) with
                  | some f => JVal.str f.content.utf8
                  | none => JVal.str ""))))]))) :: w.events),
          tick := k + 1 }) hf hd hstrE hpwE htr
  have hga : fsGet ({ w with
          files := (fsSet w.files
            (pathJoin backupDir (fullBackupMark ++ ts ++ backupExtension) ++ ".gz")
            ⟨Content.gz (Content.json (JVal.obj [("timestamp", JVal.str iso),
              ("metadata", meta0),
              ("sections", JVal.obj (names.map (fun s =>
                (s, match fsGet w.files (pathJoin sectionsDir (s ++ ".txt")) with
                  | some f => JVal.str f.content.utf8
                  | none => JVal.str ""))))])), w.now⟩),
          events := (FsEvent.write
            (pathJoin backupDir (fullBackupMark ++ ts ++ backupExtension) ++ ".gz")
            (Content.gz (Content.json (JVal.obj [("timestamp", JVal.str iso),
              ("metadata", meta0),
              ("sections", JVal.obj (names.map (fun s =>
                (s, match fsGet w.files (pathJoin sectionsDir (s ++ ".txt")) with
                  | some f => JVal.str f.content.utf8
                  | none => JVal.str ""))))]))) :: w.events),
          tick := k } : W).files
      (pathJoin backupDir (fullBackupMark ++ ts ++ backupExtension) ++ ".gz") =
      some ⟨Content.gz (Content.json (JVal.obj [("timestamp", JVal.str iso),
              ("metadata", meta0),
              ("sections", JVal.obj (names.map (fun s =>
                (s, match fsGet w.files (pathJoin sectionsDir (s ++ ".txt")) with
                  | some f => JVal.str f.content.utf8
                  | none => JVal.str ""))))])), w.now⟩ :=
    fsGet_fsSet_self _ _ _
  have hrdA : readFileSync (pathJoin backupDir (fullBackupMark ++ ts ++ backupExtension) ++ ".gz")
      ({ w with
          files := (fsSet w.files
            (pathJoin backupDir (fullBackupMark ++ ts ++ backupExtension) ++ ".gz")
            ⟨Content.gz (Content.json (JVal.obj [("timestamp", JVal.str iso),
              ("metadata", meta0),
              ("sections", JVal.obj (names.map (fun s =>
                (s, match fsGet w.files (pathJoin sectionsDir (s ++ ".txt")) with
                  | some f => JVal.str f.content.utf8
                  | none => JVal.str ""))))])), w.now⟩),
          events := (FsEvent.write
            (pathJoin backupDir (fullBackupMark ++ ts ++ backupExtension) ++ ".gz")
            (Content.gz (Content.json (JVal.obj [("timestamp", JVal.str iso),
              ("metadata", meta0),
              ("sections", JVal.obj (names.map (fun s =>
                (s, match fsGet w.files (pathJoin sectionsDir (s ++ ".txt")) with
                  | some f => JVal.str f.content.utf8
                  | none => JVal.str ""))))]))) :: w.events),
          tick := k }) =
      (Except.ok (Content.gz (Content.json (JVal.obj [("timestamp", JVal.str iso),
              ("metadata", meta0),
              ("sections", JVal.obj (names.map (fun s =>
                (s, match fsGet w.files (pathJoin sectionsDir (s ++ ".txt")) with
                  | some f => JVal.str f.content.utf8
                  | none => JVal.str ""))))]))),
        { w with
          files := (fsSet w.files
            (pathJoin backupDir (fullBackupMark ++ ts ++ backupExtension) ++ ".gz")
            ⟨Content.gz (Content.json (JVal.obj [("timestamp", JVal.str iso),
              ("metadata", meta0),
              ("sections", JVal.obj (names.map (fun s =>
                (s, match fsGet w.files (pathJoin sectionsDir (s ++ ".txt")) with
                  | some f => JVal.str f.content.utf8
                  | none => JVal.str ""))))])), w.now⟩),
          events := (FsEvent.write
            (pathJoin backupDir (fullBackupMark ++ ts ++ backupExtension) ++ ".gz")
            (Content.gz (Content.json (JVal.obj [("timestamp", JVal.str iso),
              ("metadata", meta0),
              ("sections", JVal.obj (names.map (fun s =>
                (s, match fsGet w.files (pathJoin sectionsDir (s ++ ".txt")) with
                  | some f => JVal.str f.content.utf8
                  | none => JVal.str ""))))]))) :: w.events),
          tick := k + 1 }) := by
    unfold readFileSync
    rw [fallible_run_nofault _ ({ w with
          files := (fsSet w.files
            (pathJoin backupDir (fullBackupMark ++ ts ++ backupExtension) ++ ".gz")
            ⟨Content.gz (Content.json (JVal.obj [("timestamp", JVal.str iso),
              ("metadata", meta0),
              ("sections", JVal.obj (names.map (fun s =>
                (s, match fsGet w.files (pathJoin sectionsDir (s ++ ".txt")) with
                  | some f => JVal.str f.content.utf8
                  | none => JVal.str ""))))])), w.now⟩),
          events := (FsEvent.write
            (pathJoin backupDir (fullBackupMark ++ ts ++ backupExtension) ++ ".gz")
            (Content.gz (Content.json (JVal.obj [("timestamp", JVal.str iso),
              ("metadata", meta0),
              ("sections", JVal.obj (names.map (fun s =>
                (s, match fsGet w.files (pathJoin sectionsDir (s ++ ".txt")) with
                  | some f => JVal.str f.content.utf8
                  | none => JVal.str ""))))]))) :: w.events),
          tick := k }) hf]
    simp only [hga]
  have hsw : strStartsWith (basename
      (pathJoin backupDir (fullBackupMark ++ ts ++ backupExtension) ++ ".gz")) fullBackupMark = true := by
    rw [pathJoin_gz, basename_pathJoin _ _ hsl]
    rw [String.append_assoc, String.append_assoc]
    exact strStartsWith_append_self _ _
  have hrfb : restoreFromBackup (pathJoin backupDir (fullBackupMark ++ ts ++ backupExtension) ++ ".gz") none true
      ({ w with
          files := (fsSet w.files
            (pathJoin backupDir (fullBackupMark ++ ts ++ backupExtension) ++ ".gz")
            ⟨Content.gz (Content.json (JVal.obj [("timestamp", JVal.str iso),
              ("metadata", meta0),
              ("sections", JVal.obj (names.map (fun s =>
                (s, match fsGet w.files (pathJoin sectionsDir (s ++ ".txt")) with
                  | some f => JVal.str f.content.utf8
                  | none => JVal.str ""))))])), w.now⟩),
          events := (FsEvent.write
            (pathJoin backupDir (fullBackupMark ++ ts ++ backupExtension) ++ ".gz")
            (Content.gz (Content.json (JVal.obj [("timestamp", JVal.str iso),
              ("metadata", meta0),
              ("sections", JVal.obj (names.map (fun s =>
                (s, match fsGet w.files (pathJoin sectionsDir (s ++ ".txt")) with
                  | some f => JVal.str f.content.utf8
                  | none => JVal.str ""))))]))) :: w.events),
          tick := k }) = (Except.ok true, wR) := by
    have hdes : restoreFromBackup (pathJoin backupDir (fullBackupMark ++ ts ++ backupExtension) ++ ".gz") none true
        ({ w with
          files := (fsSet w.files
            (pathJoin backupDir (fullBackupMark ++ ts ++ backupExtension) ++ ".gz")
            ⟨Content.gz (Content.json (JVal.obj [("timestamp", JVal.str iso),
              ("metadata", meta0),
              ("sections", JVal.obj (names.map (fun s =>
                (s, match fsGet w.files (pathJoin sectionsDir (s ++ ".txt")) with
                  | some f => JVal.str f.content.utf8
                  | none => JVal.str ""))))])), w.now⟩),
          events := (FsEvent.write
            (pathJoin backupDir (fullBackupMark ++ ts ++ backupExtension) ++ ".gz")
            (Content.gz (Content.json (JVal.obj [("timestamp", JVal.str iso),
              ("metadata", meta0),
              ("sections", JVal.obj (names.map (fun s =>
                (s, match fsGet w.files (pathJoin sectionsDir (s ++ ".txt")) with
                  | some f => JVal.str f.content.utf8
                  | none => JVal.str ""))))]))) :: w.events),
          tick := k }) =
        (attempt (existsSync (pathJoin backupDir (fullBackupMark ++ ts ++ backupExtension) ++ ".gz") >>= fun ex =>
          if !ex then pure false
          else
            (readFileSync (pathJoin backupDir (fullBackupMark ++ ts ++ backupExtension) ++ ".gz") >>= fun raw =>
              if strEndsWith (pathJoin backupDir (fullBackupMark ++ ts ++ backupExtension) ++ ".gz") ".gz" then
                (gunzipSync raw >>= fun bc =>
                  (if strStartsWith (basename
                      (pathJoin backupDir (fullBackupMark ++ ts ++ backupExtension) ++ ".gz")) fullBackupMark then
                    (jsonParse bc >>= fun v => restoreFullBackup v true)
                  else pure false))
              else
                (pure raw >>= fun bc =>
                  (if strStartsWith (basename
                      (pathJoin backupDir (fullBackupMark ++ ts ++ backupExtension) ++ ".gz")) fullBackupMark then
                    (jsonParse bc >>= fun v => restoreFullBackup v true)
                  else pure false)))) false) ({ w with
          files := (fsSet w.files
            (pathJoin backupDir (fullBackupMark ++ ts ++ backupExtension) ++ ".gz")
            ⟨Content.gz (Content.json (JVal.obj [("timestamp", JVal.str iso),
              ("metadata", meta0),
              ("sections", JVal.obj (names.map (fun s =>
                (s, match fsGet w.files (pathJoin sectionsDir (s ++ ".txt")) with
                  | some f => JVal.str f.content.utf8
                  | none => JVal.str ""))))])), w.now⟩),
          events := (FsEvent.write
            (pathJoin backupDir (fullBackupMark ++ ts ++ backupExtension) ++ ".gz")
            (Content.gz (Content.json (JVal.obj [("timestamp", JVal.str iso),
              ("metadata", meta0),
              ("sections", JVal.obj (names.map (fun s =>
                (s, match fsGet w.files (pathJoin sectionsDir (s ++ ".txt")) with
                  | some f => JVal.str f.content.utf8
                  | none => JVal.str ""))))]))) :: w.events),
          tick := k }) := rfl
    have hexA : ((fsGet ({ w with
          files := (fsSet w.files
            (pathJoin backupDir (fullBackupMark ++ ts ++ backupExtension) ++ ".gz")
            ⟨Content.gz (Content.json (JVal.obj [("timestamp", JVal.str iso),
              ("metadata", meta0),
              ("sections", JVal.obj (names.map (fun s =>
                (s, match fsGet w.files (pathJoin sectionsDir (s ++ ".txt")) with
                  | some f => JVal.str f.content.utf8
                  | none => JVal.str ""))))])), w.now⟩),
          events := (FsEvent.write
            (pathJoin backupDir (fullBackupMark ++ ts ++ backupExtension) ++ ".gz")
            (Content.gz (Content.json (JVal.obj [("timestamp", JVal.str iso),
              ("metadata", meta0),
              ("sections", JVal.obj (names.map (fun s =>
                (s, match fsGet w.files (pathJoin sectionsDir (s ++ ".txt")) with
                  | some f => JVal.str f.content.utf8
                  | none => JVal.str ""))))]))) :: w.events),
          tick := k } : W).files
        (pathJoin backupDir (fullBackupMark ++ ts ++ backupExtension) ++ ".gz")).isSome ||
        ({ w with
          files := (fsSet w.files
            (pathJoin backupDir (fullBackupMark ++ ts ++ backupExtension) ++ ".gz")
            ⟨Content.gz (Content.json (JVal.obj [("timestamp", JVal.str iso),
              ("metadata", meta0),
              ("sections", JVal.obj (names.map (fun s =>
                (s, match fsGet w.files (pathJoin sectionsDir (s ++ ".txt")) with
                  | some f => JVal.str f.content.utf8
                  | none => JVal.str ""))))])), w.now⟩),
          events := (FsEvent.write
            (pathJoin backupDir (fullBackupMark ++ ts ++ backupExtension) ++ ".gz")
            (Content.gz (Content.json (JVal.obj [("timestamp", JVal.str iso),
              ("metadata", meta0),
              ("sections", JVal.obj (names.map (fun s =>
                (s, match fsGet w.files (pathJoin sectionsDir (s ++ ".txt")) with
                  | some f => JVal.str f.content.utf8
                  | none => JVal.str ""))))]))) :: w.events),
          tick := k } : W).dirs.contains
          (pathJoin backupDir (fullBackupMark ++ ts ++ backupExtension) ++ ".gz")) = true := by
      rw [hga]
      rfl
    rw [hdes]
    unfold attempt
    rw [Act.run_bind, existsSync_run]
    simp only [hexA, Bool.not_true, Bool.false_eq_true, if_false]
    rw [Act.run_bind, hrdA]
    dsimp only
    rw [if_pos (strEndsWith_append (pathJoin backupDir (fullBackupMark ++ ts ++ backupExtension)) ".gz")]
    rw [Act.run_bind]
    rw [show gunzipSync (Content.gz (Content.json (JVal.obj [("timestamp", JVal.str iso),
              ("metadata", meta0),
              ("sections", JVal.obj (names.map (fun s =>
                (s, match fsGet w.files (pathJoin sectionsDir (s ++ ".txt")) with
                  | some f => JVal.str f.content.utf8
                  | none => JVal.str ""))))])))
        ({ w with
          files := (fsSet w.files
            (pathJoin backupDir (fullBackupMark ++ ts ++ backupExtension) ++ ".gz")
            ⟨Content.gz (Content.json (JVal.obj [("timestamp", JVal.str iso),
              ("metadata", meta0),
              ("sections", JVal.obj (names.map (fun s =>
                (s, match fsGet w.files (pathJoin sectionsDir (s ++ ".txt")) with
                  | some f => JVal.str f.content.utf8
                  | none => JVal.str ""))))])), w.now⟩),
          events := (FsEvent.write
            (pathJoin backupDir (fullBackupMark ++ ts ++ backupExtension) ++ ".gz")
            (Content.gz (Content.json (JVal.obj [("timestamp", JVal.str iso),
              ("metadata", meta0),
              ("sections", JVal.obj (names.map (fun s =>
                (s, match fsGet w.files (pathJoin sectionsDir (s ++ ".txt")) with
                  | some f => JVal.str f.content.utf8
                  | none => JVal.str ""))))]))) :: w.events),
          tick := k + 1 }) =
      (Except.ok (Content.json (JVal.obj [("timestamp", JVal.str iso),
              ("metadata", meta0),
              ("sections", JVal.obj (names.map (fun s =>
                (s, match fsGet w.files (pathJoin sectionsDir (s ++ ".txt")) with
                  | some f => JVal.str f.content.utf8
                  | none => JVal.str ""))))])),
        { w with
          files := (fsSet w.files
            (pathJoin backupDir (fullBackupMark ++ ts ++ backupExtension) ++ ".gz")
            ⟨Content.gz (Content.json (JVal.obj [("timestamp", JVal.str iso),
              ("metadata", meta0),
              ("sections", JVal.obj (names.map (fun s =>
                (s, match fsGet w.files (pathJoin sectionsDir (s ++ ".txt")) with
                  | some f => JVal.str f.content.utf8
                  | none => JVal.str ""))))])), w.now⟩),
          events := (FsEvent.write
            (pathJoin backupDir (fullBackupMark ++ ts ++ backupExtension) ++ ".gz")
            (Content.gz (Content.json (JVal.obj [("timestamp", JVal.str iso),
              ("metadata", meta0),
              ("sections", JVal.obj (names.map (fun s =>
                (s, match fsGet w.files (pathJoin sectionsDir (s ++ ".txt")) with
                  | some f => JVal.str f.content.utf8
                  | none => JVal.str ""))))]))) :: w.events),
          tick := k + 1 }) from rfl]
    dsimp only
    rw [if_pos hsw]
    rw [Act.run_bind]
    rw [show jsonParse (Content.json (JVal.obj [("timestamp", JVal.str iso),
              ("metadata", meta0),
              ("sections", JVal.obj (names.map (fun s =>
                (s, match fsGet w.files (pathJoin sectionsDir (s ++ ".txt")) with
                  | some f => JVal.str f.content.utf8
                  | none => JVal.str ""))))]))
        ({ w with
          files := (fsSet w.files
            (pathJoin backupDir (fullBackupMark ++ ts ++ backupExtension) ++ ".gz")
            ⟨Content.gz (Content.json (JVal.obj [("timestamp", JVal.str iso),
              ("metadata", meta0),
              ("sections", JVal.obj (names.map (fun s =>
                (s, match fsGet w.files (pathJoin sectionsDir (s ++ ".txt")) with
                  | some f => JVal.str f.content.utf8
                  | none => JVal.str ""))))])), w.now⟩),
          events := (FsEvent.write
            (pathJoin backupDir (fullBackupMark ++ ts ++ backupExtension) ++ ".gz")
            (Content.gz (Content.json (JVal.obj [("timestamp", JVal.str iso),
              ("metadata", meta0),
              ("sections", JVal.obj (names.map (fun s =>
                (s, match fsGet w.files (pathJoin sectionsDir (s ++ ".txt")) with
                  | some f => JVal.str f.content.utf8
                  | none => JVal.str ""))))]))) :: w.events),
          tick := k + 1 }) =
      (Except.ok ((JVal.obj [("timestamp", JVal.str iso),
              ("metadata", meta0),
              ("sections", JVal.obj (names.map (fun s =>
                (s, match fsGet w.files (pathJoin sectionsDir (s ++ ".txt")) with
                  | some f => JVal.str f.content.utf8
                  | none => JVal.str ""))))]) : JVal),
        { w with
          files := (fsSet w.files
            (pathJoin backupDir (fullBackupMark ++ ts ++ backupExtension) ++ ".gz")
            ⟨Content.gz (Content.json (JVal.obj [("timestamp", JVal.str iso),
              ("metadata", meta0),
              ("sections", JVal.obj (names.map (fun s =>
                (s, match fsGet w.files (pathJoin sectionsDir (s ++ ".txt")) with
                  | some f => JVal.str f.content.utf8
                  | none => JVal.str ""))))])), w.now⟩),
          events := (FsEvent.write
            (pathJoin backupDir (fullBackupMark ++ ts ++ backupExtension) ++ ".gz")
            (Content.gz (Content.json (JVal.obj [("timestamp", JVal.str iso),
              ("metadata", meta0),
              ("sections", JVal.obj (names.map (fun s =>
                (s, match fsGet w.files (pathJoin sectionsDir (s ++ ".txt")) with
                  | some f => JVal.str f.content.utf8
                  | none => JVal.str ""))))]))) :: w.events),
          tick := k + 1 }) from rfl]
    dsimp only
    rw [hrest]
  refine ⟨pathJoin backupDir (fullBackupMark ++ ts ++ backupExtension) ++ ".gz", { w with
          files := (fsSet w.files
            (pathJoin backupDir (fullBackupMark ++ ts ++ backupExtension) ++ ".gz")
            ⟨Content.gz (Content.json (JVal.obj [("timestamp", JVal.str iso),
              ("metadata", meta0),
              ("sections", JVal.obj (names.map (fun s =>
                (s, match fsGet w.files (pathJoin sectionsDir (s ++ ".txt")) with
                  | some f => JVal.str f.content.utf8
                  | none => JVal.str ""))))])), w.now⟩),
          events := (FsEvent.write
            (pathJoin backupDir (fullBackupMark ++ ts ++ backupExtension) ++ ".gz")
            (Content.gz (Content.json (JVal.obj [("timestamp", JVal.str iso),
              ("metadata", meta0),
              ("sections", JVal.obj (names.map (fun s =>
                (s, match fsGet w.files (pathJoin sectionsDir (s ++ ".txt")) with
                  | some f => JVal.str f.content.utf8
                  | none => JVal.str ""))))]))) :: w.events),
          tick := k }, wR,
    hbk, hrfb, ?_, ?_, ?_⟩
  · intro s hs c t' hg
    have he : (s, (match fsGet w.files (pathJoin sectionsDir (s ++ ".txt")) with
        | some f => JVal.str f.content.utf8
        | none => JVal.str "")) ∈ (names.map (fun s =>
                (s, match fsGet w.files (pathJoin sectionsDir (s ++ ".txt")) with
                  | some f => JVal.str f.content.utf8
                  | none => JVal.str ""))) :=
      List.mem_map_of_mem _ hs
    have hes : ((s, (match fsGet w.files (pathJoin sectionsDir (s ++ ".txt")) with
        | some f => JVal.str f.content.utf8
        | none => JVal.str "")) : String × JVal).2 = JVal.str c := by
      show (match fsGet w.files (pathJoin sectionsDir (s ++ ".txt")) with
        | some f => JVal.str f.content.utf8
        | none => JVal.str "") = JVal.str c
      rw [hg]
      rfl
    have := hsecR _ he c hes
    exact this
  · exact hmdR
  · intro q hq hqm hqa
    have h1 := hframeR q (fun e he => by
      obtain ⟨s, hs, hes⟩ := List.mem_map.mp he
      rw [← hes]
      exact hq s hs) hqm
    rw [h1]
    show fsGet (fsSet w.files (pathJoin backupDir (fullBackupMark ++ ts ++ backupExtension) ++ ".gz")
      ⟨Content.gz (Content.json (JVal.obj [("timestamp", JVal.str iso),
              ("metadata", meta0),
              ("sections", JVal.obj (names.map (fun s =>
                (s, match fsGet w.files (pathJoin sectionsDir (s ++ ".txt")) with
                  | some f => JVal.str f.content.utf8
                  | none => JVal.str ""))))])), w.now⟩) q = fsGet w.files q
    exact fsGet_fsSet_ne _ _ _ _ hqa

theorem claim3_full_roundtrip_witness :
    ∃ ap wB wR,
      createFullBackup ⟨5, 30, true⟩ "I" "T"
        (W.mk [(pathJoin sectionsDir ("a" ++ ".txt"), ⟨Content.text "A1", 1⟩),
          (pathJoin sectionsDir ("b" ++ ".txt"), ⟨Content.text "B2", 2⟩)]
          [sectionsDir, backupDir] [] 0 [] 5) = (Except.ok (some ap), wB) ∧
      restoreFromBackup ap none true wB = (Except.ok true, wR) ∧
      (∀ s ∈ ["a", "b"], ∀ c t',
        fsGet (W.mk [(pathJoin sectionsDir ("a" ++ ".txt"),
            ⟨Content.text "A1", 1⟩),
          (pathJoin sectionsDir ("b" ++ ".txt"), ⟨Content.text "B2", 2⟩)]
          [sectionsDir, backupDir] [] 0 [] 5).files
          (pathJoin sectionsDir (s ++ ".txt")) = some ⟨Content.text c, t'⟩ →
        fsGet wR.files (pathJoin sectionsDir (s ++ ".txt")) =
          some ⟨Content.text c, 5⟩) ∧
      fsGet wR.files metadataFile = some ⟨Content.json (JVal.obj []), 5⟩ ∧
      (∀ q, (∀ s ∈ ["a", "b"], q ≠ pathJoin sectionsDir (s ++ ".txt")) →
        q ≠ metadataFile → q ≠ ap →
        fsGet wR.files q = fsGet
          (W.mk [(pathJoin sectionsDir ("a" ++ ".txt"), ⟨Content.text "A1", 1⟩),
            (pathJoin sectionsDir ("b" ++ ".txt"), ⟨Content.text "B2", 2⟩)]
            [sectionsDir, backupDir] [] 0 [] 5).files q) :=
  claim3_full_roundtrip ⟨5, 30, true⟩ "I" "T"
    (W.mk [(pathJoin sectionsDir ("a" ++ ".txt"), ⟨Content.text "A1", 1⟩),
      (pathJoin sectionsDir ("b" ++ ".txt"), ⟨Content.text "B2", 2⟩)]
      [sectionsDir, backupDir] [] 0 [] 5)
    ["a", "b"] 1 (JVal.obj [])
    rfl (by decide) (by decide) rfl
    (by
      intro s hs
      simp only [List.mem_cons, List.not_mem_nil, or_false] at hs
      rcases hs with rfl | rfl
      · exact ⟨"A1", 1, rfl⟩
      · exact ⟨"B2", 2, rfl⟩)
    (by decide)
    (Or.inl ⟨rfl, by decide, rfl⟩)
    rfl (by decide) (by decide) (by decide) rfl
